import Mathlib

/-!
# Verification of the extrausers identity tools

A shallow embedding, in Lean 4, of the identity allocation and
reconciliation engine of the `extrausers-identity-tools` repository:

* `google-extrausers-director/google-extrausers-director-sync.py`
  (the Reconciler / Materialiser: `update_users_db`, `update_groups_db`,
  `deterministic_gid`, `sanitize_username`, the render-and-write pipeline
  of `main`, and the retry loops of the paged readers);
* `autogen-posix/autogen-posix.py` and `autogen-posix/src/main.py`
  (the Provisioner: `sanitize_username`, `unique_username`, `next_free`,
  and the scan/allocate passes of `populate_posix_accounts`).

Python built-ins are modelled explicitly:

* `str.lower` / `str.upper` / `str.isalnum` are modelled per character,
  exactly for code points below `0x100` (ASCII and Latin-1); code points
  at `0x100` and above are treated as case-fixed and non-alphanumeric.
* SQLite tables are modelled as Lean lists of rows; `INSERT … ON
  CONFLICT` is modelled as replace-in-place-or-append, `UPDATE … WHERE`
  as `List.map`, `ROWID` as the (1-based) position of a row in its
  table (rows are never deleted, so positions are stable), and
  `ORDER BY` as an insertion sort on the selected key.
* `hashlib.sha256` appears in the source in two roles: the 8-byte
  group-id hash of `deterministic_gid` and the snapshot digest of the
  render pipeline.  Both are taken as explicit function parameters
  (`h : String → Nat`, `sha : String → String`); every property proved
  here holds for an arbitrary deterministic hash function.
-/

namespace ExtraUsers

/-! ## Byte-wise string comparison

Python compares strings by code point and SQLite compares TEXT by
`memcmp` of the UTF-8 encoding; both agree with the lexicographic order
on the code-point sequence.  `String.decidableLE` of core Lean does not
reduce inside the kernel, so ordering is modelled by an executable
lexicographic comparison on the character list. -/

def strLeAux : List Char → List Char → Bool
  | [], _ => true
  | _ :: _, [] => false
  | a :: as, b :: bs => if a = b then strLeAux as bs else decide (a.toNat < b.toNat)

def strLe (s t : String) : Bool := strLeAux s.toList t.toList

theorem char_eq_of_toNat_eq {a b : Char} (h : a.toNat = b.toNat) : a = b :=
  Char.eq_of_val_eq (UInt32.ext h)

theorem char_toNat_ofNat {n : Nat} (h : Nat.isValidChar n) : (Char.ofNat n).toNat = n := by
  simp [Char.ofNat, h, Char.toNat, Char.ofNatAux, BitVec.toNat_ofNatLt, UInt32.toNat]

theorem strLeAux_total (l m : List Char) : strLeAux l m = true ∨ strLeAux m l = true := by
  induction l generalizing m with
  | nil => left; rfl
  | cons a as ih =>
    cases m with
    | nil => right; rfl
    | cons b bs =>
      by_cases hab : a = b
      · subst hab
        simpa [strLeAux] using ih bs
      · have hne : ¬ b = a := fun hh => hab hh.symm
        rcases Nat.lt_or_ge a.toNat b.toNat with hlt | hge
        · left; simp [strLeAux, hab, hlt]
        · right
          have hba : b.toNat < a.toNat := by
            rcases Nat.lt_or_ge b.toNat a.toNat with h | h
            · exact h
            · exact absurd (char_eq_of_toNat_eq (Nat.le_antisymm h hge)) hab
          simp [strLeAux, hne, hba]

theorem strLeAux_trans {l m n : List Char} (h1 : strLeAux l m = true)
    (h2 : strLeAux m n = true) : strLeAux l n = true := by
  induction l generalizing m n with
  | nil => rfl
  | cons a as ih =>
    cases m with
    | nil => simp [strLeAux] at h1
    | cons b bs =>
      cases n with
      | nil => simp [strLeAux] at h2
      | cons c cs =>
        by_cases hab : a = b
        · subst hab
          by_cases hbc : a = c
          · subst hbc
            simp only [strLeAux, if_pos rfl] at h1 h2 ⊢
            exact ih h1 h2
          · simp only [strLeAux, if_pos rfl] at h1
            simp only [strLeAux, if_neg hbc] at h2 ⊢
            exact h2
        · simp only [strLeAux, if_neg hab] at h1
          by_cases hbc : b = c
          · subst hbc
            simp only [strLeAux, if_neg hab]
            exact h1
          · simp only [strLeAux, if_neg hbc] at h2
            by_cases hac : a = c
            · exfalso
              subst hac
              have h1' : a.toNat < b.toNat := by simpa using h1
              have h2' : b.toNat < a.toNat := by simpa using h2
              omega
            · simp only [strLeAux, if_neg hac]
              have h1' : a.toNat < b.toNat := by simpa using h1
              have h2' : b.toNat < c.toNat := by simpa using h2
              simp
              omega

theorem strLeAux_antisymm {l m : List Char} (h1 : strLeAux l m = true)
    (h2 : strLeAux m l = true) : l = m := by
  induction l generalizing m with
  | nil =>
    cases m with
    | nil => rfl
    | cons b bs => simp [strLeAux] at h2
  | cons a as ih =>
    cases m with
    | nil => simp [strLeAux] at h1
    | cons b bs =>
      by_cases hab : a = b
      · subst hab
        simp only [strLeAux, if_pos rfl] at h1 h2
        exact congrArg _ (ih h1 h2)
      · have hba : ¬ b = a := fun hh => hab hh.symm
        simp only [strLeAux, if_neg hab] at h1
        simp only [strLeAux, if_neg hba] at h2
        have h1' : a.toNat < b.toNat := by simpa using h1
        have h2' : b.toNat < a.toNat := by simpa using h2
        omega

theorem strLe_total (s t : String) : strLe s t = true ∨ strLe t s = true :=
  strLeAux_total _ _

theorem strLe_trans {s t u : String} (h1 : strLe s t = true) (h2 : strLe t u = true) :
    strLe s u = true := strLeAux_trans h1 h2

theorem string_toList_inj {s t : String} (h : s.toList = t.toList) : s = t := by
  cases s; cases t; simpa [String.toList] using congrArg String.mk h

theorem strLe_antisymm {s t : String} (h1 : strLe s t = true) (h2 : strLe t s = true) :
    s = t := string_toList_inj (strLeAux_antisymm h1 h2)

/-! ## Character-level models of the Python built-ins

All character classes are stated on `Char.toNat`, the Unicode code
point, so comparisons reduce both in the kernel and under `omega`. -/

/-- Model of Python `str.lower`, applied per character.  Exact for code
points below `0x100`: ASCII `A-Z` (65-90) and the Latin-1 uppercase
range `0xC0-0xDE` (192-222, except `×` at 215) map to their lowercase
forms, 32 code points higher.  Code points at `0x100` and above are
left unchanged. -/
def pyLower (c : Char) : Char :=
  if 65 ≤ c.toNat ∧ c.toNat ≤ 90 then Char.ofNat (c.toNat + 32)
  else if 192 ≤ c.toNat ∧ c.toNat ≤ 222 ∧ c.toNat ≠ 215 then Char.ofNat (c.toNat + 32)
  else c

/-- Model of Python `str.upper`, applied per character; exact for ASCII
`a-z` (97-122), identity elsewhere.  It is only applied to the
`type`/`status` enum values of the directory API (`"USER"`,
`"ACTIVE"`, …), which are ASCII. -/
def pyUpper (c : Char) : Char :=
  if 97 ≤ c.toNat ∧ c.toNat ≤ 122 then Char.ofNat (c.toNat - 32) else c

/-- Model of Python `str.isalnum`, applied per character.  Exact for
code points below `0x100`: ASCII digits `0-9` (48-57), letters `A-Z`
(65-90) and `a-z` (97-122), the Latin-1 letters (`ª` 170, `µ` 181, `º`
186, and 192-255 except `×` 215 and `÷` 247) and the Latin-1 numeric
signs (`² ³ ¹` 178/179/185 and `¼ ½ ¾` 188-190).  Code points at
`0x100` and above are treated as not alphanumeric. -/
def pyIsAlnum (c : Char) : Bool :=
  (decide (48 ≤ c.toNat) && decide (c.toNat ≤ 57)) ||
  (decide (65 ≤ c.toNat) && decide (c.toNat ≤ 90)) ||
  (decide (97 ≤ c.toNat) && decide (c.toNat ≤ 122)) ||
  decide (c.toNat = 170) || decide (c.toNat = 181) || decide (c.toNat = 186) ||
  decide (c.toNat = 178) || decide (c.toNat = 179) || decide (c.toNat = 185) ||
  (decide (188 ≤ c.toNat) && decide (c.toNat ≤ 190)) ||
  (decide (192 ≤ c.toNat) && decide (c.toNat ≤ 255) &&
   !decide (c.toNat = 215) && !decide (c.toNat = 247))

/-- The character filter shared by all three `sanitize_username`
variants and by `sanitize_groupname`:
`c.isalnum() or c in ("-", "_", ".")` (`-` 45, `_` 95, `.` 46). -/
def keepChar (c : Char) : Bool :=
  pyIsAlnum c || decide (c.toNat = 45) || decide (c.toNat = 95) || decide (c.toNat = 46)

def strLower (s : String) : String := String.mk (s.toList.map pyLower)

def strUpper (s : String) : String := String.mk (s.toList.map pyUpper)

/-- `"".join(c for c in raw.lower() if c.isalnum() or c in ("-","_","."))`. -/
def filterName (raw : String) : List Char := (raw.toList.map pyLower).filter keepChar

theorem pyLower_toNat_of_upper {c : Char} (h : 65 ≤ c.toNat ∧ c.toNat ≤ 90 ∨
    192 ≤ c.toNat ∧ c.toNat ≤ 222 ∧ c.toNat ≠ 215) :
    (pyLower c).toNat = c.toNat + 32 := by
  have hv : Nat.isValidChar (c.toNat + 32) := Or.inl (by omega)
  rcases h with h | h
  · simp [pyLower, h.1, h.2, char_toNat_ofNat hv]
  · by_cases h1 : 65 ≤ c.toNat ∧ c.toNat ≤ 90
    · omega
    · simp [pyLower, h1, h, char_toNat_ofNat hv]

theorem pyLower_eq_self {c : Char} (h1 : ¬ (65 ≤ c.toNat ∧ c.toNat ≤ 90))
    (h2 : ¬ (192 ≤ c.toNat ∧ c.toNat ≤ 222 ∧ c.toNat ≠ 215)) : pyLower c = c := by
  simp [pyLower, h1, h2]

theorem pyLower_idem (c : Char) : pyLower (pyLower c) = pyLower c := by
  by_cases h : 65 ≤ c.toNat ∧ c.toNat ≤ 90 ∨ 192 ≤ c.toNat ∧ c.toNat ≤ 222 ∧ c.toNat ≠ 215
  · have ht := pyLower_toNat_of_upper h
    exact pyLower_eq_self (by omega) (by omega)
  · have g1 : ¬ (65 ≤ c.toNat ∧ c.toNat ≤ 90) := fun hc => h (Or.inl hc)
    have g2 : ¬ (192 ≤ c.toNat ∧ c.toNat ≤ 222 ∧ c.toNat ≠ 215) := fun hc => h (Or.inr hc)
    rw [pyLower_eq_self g1 g2]
    exact pyLower_eq_self g1 g2

theorem keepChar_pyLower_of_keep {c : Char} (h : keepChar c = true) :
    keepChar (pyLower c) = true := by
  by_cases hup : 65 ≤ c.toNat ∧ c.toNat ≤ 90 ∨ 192 ≤ c.toNat ∧ c.toNat ≤ 222 ∧ c.toNat ≠ 215
  · have ht := pyLower_toNat_of_upper hup
    simp only [keepChar, pyIsAlnum, Bool.or_eq_true, Bool.and_eq_true, Bool.not_eq_true',
      decide_eq_true_eq, decide_eq_false_iff_not] at h ⊢
    omega
  · have g1 : ¬ (65 ≤ c.toNat ∧ c.toNat ≤ 90) := fun hc => hup (Or.inl hc)
    have g2 : ¬ (192 ≤ c.toNat ∧ c.toNat ≤ 222 ∧ c.toNat ≠ 215) := fun hc => hup (Or.inr hc)
    rwa [pyLower_eq_self g1 g2]

end ExtraUsers

namespace ExtraUsers

/-! ## Username and group-name sanitisation -/

/-- Whether a character list is exactly of the shape `_[a-z0-9]+_com`:
an underscore, a nonempty run of ASCII lowercase letters or digits,
then the literal `_com`. -/
def comShape (l : List Char) : Bool :=
  match l with
  | c :: rest =>
      decide (c = '_') && decide (4 < rest.length) &&
      ((rest.take (rest.length - 4)).all fun d =>
        (decide (97 ≤ d.toNat) && decide (d.toNat ≤ 122)) ||
        (decide (48 ≤ d.toNat) && decide (d.toNat ≤ 57))) &&
      decide (rest.drop (rest.length - 4) = ['_', 'c', 'o', 'm'])
  | [] => false

/-- Model of `re.sub(r"_[a-z0-9]+_com$", "", name)`.  `re.sub` removes
the leftmost match; for an end-anchored pattern every match is a suffix
of the string, so the leftmost match is the longest matching suffix.
The match starting at position `i` succeeds exactly when `l.drop i` has
the `comShape` form. -/
def stripComSuffix (l : List Char) : List Char :=
  match (List.range l.length).find? (fun i => comShape (l.drop i)) with
  | some i => l.take i
  | none => l

/-- The suffix-stripping step of the provisioner `sanitize_username`
(`autogen-posix.py` lines 63-68, `src/main.py` lines 24-29).  Python
`if strip_suffix:` is false both for `None` and for the empty string,
in which case the generic `_<alnum>_com` pattern is removed instead.
When a suffix is configured, the comparison uses its lowercased form
but the slice length is `len(strip_suffix)`, which equals the length
of the lowercased form. -/
def stripStep (strip_suffix : Option String) (name : List Char) : List Char :=
  match strip_suffix with
  | some s =>
      if s.toList = [] then stripComSuffix name
      else
        let sl := s.toList.map pyLower
        if sl.isSuffixOf name then name.take (name.length - s.toList.length) else name
  | none => stripComSuffix name

/-- `sanitize_username(raw, strip_suffix)` from `autogen-posix.py`
(lines 58-70) and `src/main.py` (lines 22-30): lowercase, keep only
characters passing `keepChar`, strip the suffix, truncate to 32
characters, and fall back to `"user"` when the result is empty. -/
def sanitize_username (raw : String) (strip_suffix : Option String) : String :=
  let name := filterName raw
  let name2 := stripStep strip_suffix name
  let name3 := name2.take 32
  if name3 = [] then "user" else String.mk name3

/-- `sanitize_username(u)` from `google-extrausers-director-sync.py`
(lines 465-472): the same pipeline with no configurable suffix (the
`_<alnum>_com` pattern is always used). -/
def sanitize_username_sync (u : String) : String :=
  let name := filterName u
  let name2 := stripComSuffix name
  let name3 := name2.take 32
  if name3 = [] then "user" else String.mk name3

/-- `sanitize_groupname(email)` from `google-extrausers-director-sync.py`
(lines 330-334): take the local part of the email (everything before the
first `@`, or the whole string when there is no `@`), lowercase, and
keep only characters passing `keepChar`. -/
def sanitize_groupname (email : String) : String :=
  let localPart := if email.toList.contains '@'
    then email.toList.takeWhile (fun c => !decide (c = '@')) else email.toList
  String.mk ((localPart.map pyLower).filter keepChar)

/-- Does a string match the regular expression `^[a-z0-9._-]{1,32}$`? -/
def matchesUsernameClass (s : String) : Bool :=
  decide (1 ≤ s.toList.length) && decide (s.toList.length ≤ 32) &&
  s.toList.all fun c =>
    (decide (97 ≤ c.toNat) && decide (c.toNat ≤ 122)) ||
    (decide (48 ≤ c.toNat) && decide (c.toNat ≤ 57)) ||
    decide (c.toNat = 46) || decide (c.toNat = 95) || decide (c.toNat = 45)

theorem toList_mk (l : List Char) : (String.mk l).toList = l := rfl

theorem mem_filterName {raw : String} {c : Char} (h : c ∈ filterName raw) :
    pyLower c = c ∧ keepChar c = true := by
  unfold filterName at h
  have hkeep := List.of_mem_filter h
  have hmem := List.mem_of_mem_filter h
  rcases List.mem_map.mp hmem with ⟨c0, _, rfl⟩
  exact ⟨pyLower_idem c0, hkeep⟩

theorem map_fixed_eq_self {α : Type} (f : α → α) :
    ∀ (l : List α), (∀ c ∈ l, f c = c) → l.map f = l := by
  intro l
  induction l with
  | nil => intro _; rfl
  | cons a as ih =>
    intro h
    simp only [List.map_cons, h a (List.mem_cons_self a as), List.cons.injEq, true_and]
    exact ih fun c hc => h c (List.mem_cons_of_mem a hc)

theorem filterName_of_fixed {l : List Char}
    (h : ∀ c ∈ l, pyLower c = c ∧ keepChar c = true) :
    filterName (String.mk l) = l := by
  unfold filterName
  rw [toList_mk]
  rw [map_fixed_eq_self pyLower l fun c hc => (h c hc).1]
  exact List.filter_eq_self.mpr fun c hc => (h c hc).2

theorem stripComSuffix_subset (l : List Char) : stripComSuffix l ⊆ l := by
  unfold stripComSuffix
  cases hf : (List.range l.length).find? (fun i => comShape (l.drop i)) with
  | none => exact fun c hc => hc
  | some i => exact List.take_subset i l

theorem stripStep_subset (cfg : Option String) (l : List Char) : stripStep cfg l ⊆ l := by
  unfold stripStep
  cases cfg with
  | none => exact stripComSuffix_subset l
  | some s =>
    by_cases he : s.toList = []
    · simp only [he, if_pos rfl]
      exact stripComSuffix_subset l
    · simp only [if_neg he]
      by_cases hs : (s.toList.map pyLower).isSuffixOf l
      · simp only [hs, if_pos rfl]
        exact List.take_subset _ l
      · simp only [hs]
        intro c hc
        simpa using hc

theorem sanitize_username_chars {raw : String} {cfg : Option String} :
    ∀ c ∈ (sanitize_username raw cfg).toList, pyLower c = c ∧ keepChar c = true := by
  unfold sanitize_username
  by_cases he : (stripStep cfg (filterName raw)).take 32 = []
  · intro c hc
    simp only [he, if_pos rfl] at hc
    fin_cases hc <;> exact ⟨by decide, by decide⟩
  · intro c hc
    simp only [if_neg he, toList_mk] at hc
    exact mem_filterName (stripStep_subset cfg _ (List.take_subset 32 _ hc))

theorem sanitize_username_len {raw : String} {cfg : Option String} :
    (sanitize_username raw cfg).toList.length ≤ 32 := by
  unfold sanitize_username
  by_cases he : (stripStep cfg (filterName raw)).take 32 = []
  · simp [he]
  · simp only [if_neg he, toList_mk]
    exact le_trans (List.length_take_le 32 _) (le_refl _)

theorem sanitize_username_ne_nil {raw : String} {cfg : Option String} :
    (sanitize_username raw cfg).toList ≠ [] := by
  unfold sanitize_username
  by_cases he : (stripStep cfg (filterName raw)).take 32 = []
  · simp [he]
  · simp only [if_neg he, toList_mk]
    exact he

end ExtraUsers

namespace ExtraUsers

theorem mk_toList (s : String) : String.mk s.toList = s := by
  cases s; rfl

theorem sanitize_username_sync_eq_none (u : String) :
    sanitize_username_sync u = sanitize_username u none := rfl

theorem ascii_filterName_class {raw : String}
    (hascii : ∀ c ∈ raw.toList, c.toNat < 128) :
    ∀ c ∈ filterName raw,
      (97 ≤ c.toNat ∧ c.toNat ≤ 122) ∨ (48 ≤ c.toNat ∧ c.toNat ≤ 57) ∨
      c.toNat = 46 ∨ c.toNat = 95 ∨ c.toNat = 45 := by
  intro c hc
  unfold filterName at hc
  have hkeep := List.of_mem_filter hc
  have hmem := List.mem_of_mem_filter hc
  rcases List.mem_map.mp hmem with ⟨c0, hc0, rfl⟩
  have hlt : c0.toNat < 128 := hascii c0 hc0
  by_cases hup : 65 ≤ c0.toNat ∧ c0.toNat ≤ 90
  · have ht := pyLower_toNat_of_upper (Or.inl hup)
    omega
  · have heq : pyLower c0 = c0 := pyLower_eq_self hup (by omega)
    rw [heq] at hkeep ⊢
    simp only [keepChar, pyIsAlnum, Bool.or_eq_true, Bool.and_eq_true, Bool.not_eq_true',
      decide_eq_true_eq, decide_eq_false_iff_not] at hkeep
    omega

/-- C7, counterexample.  The claim states that for every input string
the output of `sanitize_username` matches `^[a-z0-9._-]{1,32}$` or
equals `"user"`.  Python `str.isalnum` is Unicode-aware, so the
non-ASCII letter `é` survives the filter: `sanitize_username("é")`
returns `"é"`, which neither matches the ASCII class nor equals
`"user"`. -/
theorem c7_counterexample :
    ¬ (matchesUsernameClass (sanitize_username_sync "é") = true ∨
       sanitize_username_sync "é" = "user") := by decide

/-- C7, amended: for inputs made of ASCII characters, the output of
`sanitize_username` (both the provisioner variant, under every
strip-suffix configuration, and the sync variant) matches
`^[a-z0-9._-]{1,32}$` or equals the literal `"user"`.  On non-ASCII
inputs, Unicode alphanumeric characters survive the filter, so the
restriction to ASCII inputs is necessary (see the counterexample). -/
theorem c7_sanitize_output_class (raw : String) (cfg : Option String)
    (hascii : ∀ c ∈ raw.toList, c.toNat < 128) :
    (matchesUsernameClass (sanitize_username raw cfg) = true ∨
      sanitize_username raw cfg = "user") ∧
    (matchesUsernameClass (sanitize_username_sync raw) = true ∨
      sanitize_username_sync raw = "user") := by
  have main : ∀ cfg2 : Option String,
      matchesUsernameClass (sanitize_username raw cfg2) = true ∨
        sanitize_username raw cfg2 = "user" := by
    intro cfg2
    unfold sanitize_username
    by_cases he : (stripStep cfg2 (filterName raw)).take 32 = []
    · right; simp [he]
    · left
      simp only [if_neg he]
      have hsub : (stripStep cfg2 (filterName raw)).take 32 ⊆ filterName raw :=
        fun c hc => stripStep_subset cfg2 _ (List.take_subset 32 _ hc)
      have hlen1 : 1 ≤ ((stripStep cfg2 (filterName raw)).take 32).length := by
        cases hl : (stripStep cfg2 (filterName raw)).take 32 with
        | nil => exact absurd hl he
        | cons a as => simp
      simp only [matchesUsernameClass, toList_mk, Bool.and_eq_true, decide_eq_true_eq,
        List.all_eq_true, Bool.or_eq_true]
      refine ⟨⟨hlen1, ?_⟩, ?_⟩
      · exact List.length_take_le 32 _
      · intro c hc
        have hcl := ascii_filterName_class hascii c (hsub hc)
        omega
  exact ⟨main cfg, by rw [sanitize_username_sync_eq_none]; exact main none⟩

/-- Witness for the amended C7 at a concrete input. -/
theorem c7_sanitize_output_class_witness :
    (matchesUsernameClass (sanitize_username "Carol_Example_Com" none) = true ∨
      sanitize_username "Carol_Example_Com" none = "user") ∧
    (matchesUsernameClass (sanitize_username_sync "Carol_Example_Com") = true ∨
      sanitize_username_sync "Carol_Example_Com" = "user") :=
  c7_sanitize_output_class "Carol_Example_Com" none (by decide)

/-- C6, counterexample.  The claim states that `sanitize_username` is
idempotent for every input and every strip-suffix configuration.  With
the default configuration, `sanitize("x_a_com_b_com") = "x_a_com"`
(the regex removes the leftmost end-anchored match `_b_com`), and
sanitising that output again strips `_a_com`, giving `"x"`. -/
theorem c6_counterexample :
    ¬ (sanitize_username (sanitize_username "x_a_com_b_com" none) none =
        sanitize_username "x_a_com_b_com" none) := by decide

/-- C6, amended: `sanitize_username` applied to its own output returns
that output unchanged provided the suffix-stripping step leaves the
first output unchanged (that is, the output does not itself end in the
configured strip suffix, resp. in a `_<alnum>_com` pattern).  Without
that proviso idempotence fails (see the counterexample). -/
theorem c6_sanitize_idempotent_unless_strippable (raw : String) (cfg : Option String)
    (hstrip : stripStep cfg (sanitize_username raw cfg).toList =
      (sanitize_username raw cfg).toList) :
    sanitize_username (sanitize_username raw cfg) cfg = sanitize_username raw cfg := by
  have hchars := @sanitize_username_chars raw cfg
  have hlen := @sanitize_username_len raw cfg
  have hne := @sanitize_username_ne_nil raw cfg
  conv_lhs => rw [sanitize_username]
  have hf : filterName (sanitize_username raw cfg) = (sanitize_username raw cfg).toList := by
    conv_lhs => rw [← mk_toList (sanitize_username raw cfg)]
    exact filterName_of_fixed hchars
  rw [hf, hstrip, List.take_of_length_le hlen, if_neg hne, mk_toList]

/-- Witness for the amended C6 at a concrete input. -/
theorem c6_sanitize_idempotent_unless_strippable_witness :
    sanitize_username (sanitize_username "Alice!" none) none =
      sanitize_username "Alice!" none :=
  c6_sanitize_idempotent_unless_strippable "Alice!" none (by decide)

end ExtraUsers

namespace ExtraUsers

/-! ## Directory data model

Transient objects fetched from the directory API.  `uid`/`gid` model
`int(pa.get("uid"))` applied to the attribute values: `none` stands for
an absent field (the `try`/`except` around the cast, and the explicit
`is None` checks, skip absent values). -/

structure PosixAttr where
  username : Option String
  uid : Option Int
  gid : Option Int
  homeDirectory : Option String
  shell : Option String
  gecos : Option String
  primary : Bool
deriving DecidableEq

structure DirUser where
  id : String
  primaryEmail : String
  fullName : Option String
  suspended : Bool
  deleted : Bool
  etag : Option String
  posixAccounts : List PosixAttr
deriving DecidableEq

/-- `email.split("@")[0] if "@" in email else email`. -/
def localPart (email : String) : String :=
  if email.toList.contains '@'
  then String.mk (email.toList.takeWhile (fun c => !decide (c = '@')))
  else email

/-- Python `x or y` on strings: `None` and `""` fall back to `y`. -/
def orElseStr (o : Option String) (fallback : String) : String :=
  match o with
  | none => fallback
  | some s => if s = "" then fallback else s

/-! ## Provisioner (`populate_posix_accounts` of `src/main.py`,
identical in structure to `main` of `autogen-posix.py`) -/

structure Candidate where
  id : String
  primaryEmail : String
  fullName : String
  baseUsername : String
deriving DecidableEq

structure ScanState where
  used_uids : List Int
  used_gids : List Int
  taken_usernames : List String
  missing : List Candidate
deriving DecidableEq

/-- The harvest block of the scan (`src/main.py` lines 117-127): for
each POSIX attribute set of a user that has one, record its uid, its
gid, and its lowercased username (when non-empty). -/
def harvestAttrs (st : ScanState) (pas : List PosixAttr) : ScanState :=
  { st with
    used_uids := st.used_uids ++ pas.filterMap (fun pa => pa.uid),
    used_gids := st.used_gids ++ pas.filterMap (fun pa => pa.gid),
    taken_usernames := st.taken_usernames ++
      pas.filterMap (fun pa => pa.username.bind
        (fun n => if n = "" then none else some (strLower n))) }

/-- One user of the scan pass (`src/main.py` lines 112-137): skip
`deleted`/`suspended` users entirely (their POSIX attribute sets are
never harvested), harvest from users that have POSIX attribute sets,
and collect the remaining users as provisioning candidates. -/
def scanUser (strip_suffix : Option String) (st : ScanState) (u : DirUser) : ScanState :=
  if u.deleted || u.suspended then st
  else if u.posixAccounts ≠ [] then harvestAttrs st u.posixAccounts
  else
    let base := sanitize_username (localPart u.primaryEmail) strip_suffix
    { st with missing := st.missing ++
        [{ id := u.id, primaryEmail := u.primaryEmail,
           fullName := orElseStr u.fullName base, baseUsername := base }] }

def scanUsers (strip_suffix : Option String) (users : List DirUser) : ScanState :=
  users.foldl (scanUser strip_suffix) ⟨[], [], [], []⟩

/-- `next_free(start, used)`: the smallest integer `≥ start` not in
`used`; the chosen value is inserted by the caller.  The unbounded
`while n in used: n += 1` loop is modelled by searching the first free
value among `start, …, start + len(used)`: at most `len(used)` of these
candidates can be occupied, so the search always succeeds
(`next_free_find_isSome`) and the `getD` default is never reached. -/
def next_free (start : Int) (used : List Int) : Int :=
  (((List.range (used.length + 1)).map (fun i : Nat => start + Int.ofNat i)).find?
    (fun n => !decide (n ∈ used))).getD (start + used.length + 1)

theorem next_free_find_isSome (start : Int) (used : List Int) :
    ((List.range (used.length + 1)).map (fun i : Nat => start + Int.ofNat i)).find?
      (fun n => !decide (n ∈ used)) ≠ none := by
  intro hnone
  rw [List.find?_eq_none] at hnone
  have hsub : ∀ x ∈ (List.range (used.length + 1)).map (fun i : Nat => start + Int.ofNat i),
      x ∈ used := by
    intro x hx
    have := hnone x hx
    simpa using this
  have hnd : ((List.range (used.length + 1)).map (fun i : Nat => start + Int.ofNat i)).Nodup := by
    refine List.Nodup.map ?_ (List.nodup_range _)
    intro a b hab
    have hab2 : start + Int.ofNat a = start + Int.ofNat b := hab
    have h3 : (a : Int) = (b : Int) := by
      have := add_left_cancel hab2
      simpa [Int.ofNat_eq_coe] using this
    exact_mod_cast h3
  have hcard1 : ((List.range (used.length + 1)).map
      (fun i : Nat => start + Int.ofNat i)).toFinset.card = used.length + 1 := by
    rw [List.toFinset_card_of_nodup hnd, List.length_map, List.length_range]
  have hsubF : ((List.range (used.length + 1)).map
      (fun i : Nat => start + Int.ofNat i)).toFinset ⊆ used.toFinset := by
    intro x hx
    exact List.mem_toFinset.mpr (hsub x (List.mem_toFinset.mp hx))
  have hle := Finset.card_le_card hsubF
  have h2 := List.toFinset_card_le used
  omega

theorem next_free_not_mem (start : Int) (used : List Int) : next_free start used ∉ used := by
  unfold next_free
  cases hf : ((List.range (used.length + 1)).map (fun i : Nat => start + Int.ofNat i)).find?
      (fun n => !decide (n ∈ used)) with
  | none => exact absurd hf (next_free_find_isSome start used)
  | some n =>
    have hp := List.find?_some hf
    simp only [Option.getD_some]
    simpa using hp

/-- `unique_username(base, taken)`: return `base` when free, else the
first free `base-1`, `base-2`, …; the chosen name is added to `taken`.
The unbounded loop is modelled by a bounded search (the candidates are
pairwise distinct, so at most `len(taken)` of the first
`len(taken) + 1` can be taken); the fallback arm of the `match` is
never reached. -/
def unique_username (base : String) (taken : List String) : String × List String :=
  if base ∈ taken then
    match (List.range (taken.length + 1)).find?
        (fun i => !decide ((base ++ "-" ++ toString (i + 1)) ∈ taken)) with
    | some i => (base ++ "-" ++ toString (i + 1), taken ++ [base ++ "-" ++ toString (i + 1)])
    | none => (base, taken)
  else (base, taken ++ [base])

structure ProvisionCfg where
  start_uid : Int
  start_gid : Int
  gid_equals_uid : Bool
  default_shell : String
  home_template : String → String
  strip_suffix : Option String

structure PlanState where
  next_uid : Int
  next_gid : Int
  used_uids : List Int
  used_gids : List Int
  local_taken : List String
  planned : List (String × PosixAttr)

/-- The allocation loop body (`src/main.py` lines 147-164): uniquify
the username, allocate a UID from `max(next_uid, start_uid)`, allocate
the GID either as the UID (default policy) or independently, and plan
the patch body. -/
def planStep (cfg : ProvisionCfg) (st : PlanState) (m : Candidate) : PlanState :=
  let pu := unique_username m.baseUsername st.local_taken
  let uid := next_free (max st.next_uid cfg.start_uid) st.used_uids
  let used_uids2 := st.used_uids ++ [uid]
  if cfg.gid_equals_uid then
    { next_uid := uid + 1,
      next_gid := max st.next_gid (uid + 1),
      used_uids := used_uids2,
      used_gids := st.used_gids ++ [uid],
      local_taken := pu.2,
      planned := st.planned ++ [(m.id,
        { username := some pu.1, uid := some uid, gid := some uid,
          homeDirectory := some (cfg.home_template pu.1),
          shell := some cfg.default_shell, gecos := some m.fullName, primary := true })] }
  else
    let gid := next_free (max st.next_gid cfg.start_gid) st.used_gids
    { next_uid := uid + 1,
      next_gid := gid + 1,
      used_uids := used_uids2,
      used_gids := st.used_gids ++ [gid],
      local_taken := pu.2,
      planned := st.planned ++ [(m.id,
        { username := some pu.1, uid := some uid, gid := some gid,
          homeDirectory := some (cfg.home_template pu.1),
          shell := some cfg.default_shell, gecos := some m.fullName, primary := true })] }

/-- The scan-then-plan structure of `populate_posix_accounts`: the whole
listing is scanned (filling `used_uids`/`used_gids`/`taken_usernames`
and collecting candidates) before any allocation happens. -/
def populate_plan (cfg : ProvisionCfg) (users : List DirUser) :
    ScanState × List (String × PosixAttr) :=
  let scan := scanUsers cfg.strip_suffix users
  let init : PlanState :=
    { next_uid := cfg.start_uid, next_gid := cfg.start_gid,
      used_uids := scan.used_uids, used_gids := scan.used_gids,
      local_taken := scan.taken_usernames, planned := [] }
  (scan, (scan.missing.foldl (planStep cfg) init).planned)

end ExtraUsers

namespace ExtraUsers

theorem scanUser_used_extend (s : Option String) (st : ScanState) (u : DirUser) :
    ∃ t1 t2, (scanUser s st u).used_uids = st.used_uids ++ t1 ∧
      (scanUser s st u).used_gids = st.used_gids ++ t2 := by
  unfold scanUser harvestAttrs
  by_cases hd : (u.deleted || u.suspended) = true
  · exact ⟨[], [], by simp [hd], by simp [hd]⟩
  · by_cases hp : u.posixAccounts ≠ []
    · exact ⟨u.posixAccounts.filterMap (fun pa => pa.uid),
        u.posixAccounts.filterMap (fun pa => pa.gid),
        by simp [hd, hp], by simp [hd, hp]⟩
    · exact ⟨[], [], by simp [hd, hp], by simp [hd, hp]⟩

theorem scan_foldl_used_extend (s : Option String) (users : List DirUser) :
    ∀ st : ScanState, ∃ t1 t2, (users.foldl (scanUser s) st).used_uids = st.used_uids ++ t1 ∧
      (users.foldl (scanUser s) st).used_gids = st.used_gids ++ t2 := by
  induction users with
  | nil => exact fun st => ⟨[], [], by simp, by simp⟩
  | cons v rest ih =>
    intro st
    rcases scanUser_used_extend s st v with ⟨t1, t2, h1, h2⟩
    rcases ih (scanUser s st v) with ⟨t3, t4, h3, h4⟩
    exact ⟨t1 ++ t3, t2 ++ t4, by simp [List.foldl_cons, h3, h1],
      by simp [List.foldl_cons, h4, h2]⟩

theorem scan_foldl_harvests (s : Option String) {u : DirUser} {pa : PosixAttr}
    (hd : u.deleted = false) (hs : u.suspended = false) (hpa : pa ∈ u.posixAccounts) :
    ∀ (users : List DirUser) (st : ScanState), u ∈ users →
      (∀ x : Int, pa.uid = some x → x ∈ (users.foldl (scanUser s) st).used_uids) ∧
      (∀ x : Int, pa.gid = some x → x ∈ (users.foldl (scanUser s) st).used_gids) := by
  intro users
  induction users with
  | nil => intro st hmem; exact absurd hmem (List.not_mem_nil u)
  | cons v rest ih =>
    intro st hmem
    rcases List.mem_cons.mp hmem with heq | htail
    · subst heq
      rcases scan_foldl_used_extend s rest (scanUser s st u) with ⟨t1, t2, h1, h2⟩
      have hne : u.posixAccounts ≠ [] := fun hnil => by rw [hnil] at hpa; exact absurd hpa (List.not_mem_nil pa)
      have hstep_u : (scanUser s st u).used_uids =
          st.used_uids ++ u.posixAccounts.filterMap (fun pa => pa.uid) := by
        unfold scanUser harvestAttrs
        simp [hd, hs, hne]
      have hstep_g : (scanUser s st u).used_gids =
          st.used_gids ++ u.posixAccounts.filterMap (fun pa => pa.gid) := by
        unfold scanUser harvestAttrs
        simp [hd, hs, hne]
      constructor
      · intro x hx
        rw [List.foldl_cons, h1, hstep_u]
        have : x ∈ u.posixAccounts.filterMap (fun pa => pa.uid) :=
          List.mem_filterMap.mpr ⟨pa, hpa, hx⟩
        simp [this]
      · intro x hx
        rw [List.foldl_cons, h2, hstep_g]
        have : x ∈ u.posixAccounts.filterMap (fun pa => pa.gid) :=
          List.mem_filterMap.mpr ⟨pa, hpa, hx⟩
        simp [this]
    · exact ih (scanUser s st v) htail

theorem planStep_used_uids (cfg : ProvisionCfg) (st : PlanState) (m : Candidate) :
    (planStep cfg st m).used_uids =
      st.used_uids ++ [next_free (max st.next_uid cfg.start_uid) st.used_uids] := by
  unfold planStep
  by_cases hg : cfg.gid_equals_uid <;> simp [hg]

theorem planStep_planned (cfg : ProvisionCfg) (st : PlanState) (m : Candidate) :
    ∃ e : String × PosixAttr, (planStep cfg st m).planned = st.planned ++ [e] ∧
      e.2.uid = some (next_free (max st.next_uid cfg.start_uid) st.used_uids) := by
  unfold planStep
  by_cases hg : cfg.gid_equals_uid
  · refine ⟨(m.id,
      { username := some (unique_username m.baseUsername st.local_taken).1,
        uid := some (next_free (max st.next_uid cfg.start_uid) st.used_uids),
        gid := some (next_free (max st.next_uid cfg.start_uid) st.used_uids),
        homeDirectory := some (cfg.home_template (unique_username m.baseUsername st.local_taken).1),
        shell := some cfg.default_shell, gecos := some m.fullName, primary := true }),
      ?_, rfl⟩
    simp [hg]
  · refine ⟨(m.id,
      { username := some (unique_username m.baseUsername st.local_taken).1,
        uid := some (next_free (max st.next_uid cfg.start_uid) st.used_uids),
        gid := some (next_free (max st.next_gid cfg.start_gid) st.used_gids),
        homeDirectory := some (cfg.home_template (unique_username m.baseUsername st.local_taken).1),
        shell := some cfg.default_shell, gecos := some m.fullName, primary := true }),
      ?_, rfl⟩
    simp [hg]

theorem plan_fold_inv (cfg : ProvisionCfg) (scanUids : List Int) :
    ∀ (ms : List Candidate) (st : PlanState),
      (∃ t, st.used_uids = scanUids ++ t) →
      (∀ pr ∈ st.planned, ∀ x : Int, pr.2.uid = some x → x ∉ scanUids ∧ x ∈ st.used_uids) →
      List.Pairwise (fun a b : String × PosixAttr => a.2.uid ≠ b.2.uid) st.planned →
      (∀ pr ∈ (ms.foldl (planStep cfg) st).planned, ∀ x : Int, pr.2.uid = some x →
        x ∉ scanUids ∧ x ∈ (ms.foldl (planStep cfg) st).used_uids) ∧
      List.Pairwise (fun a b : String × PosixAttr => a.2.uid ≠ b.2.uid)
        (ms.foldl (planStep cfg) st).planned := by
  intro ms
  induction ms with
  | nil => intro st hpre hpl hpw; exact ⟨hpl, hpw⟩
  | cons m rest ih =>
    intro st hpre hpl hpw
    rcases hpre with ⟨t, ht⟩
    set nf := next_free (max st.next_uid cfg.start_uid) st.used_uids with hnf
    have hnfmem : nf ∉ st.used_uids := next_free_not_mem _ _
    have hnfscan : nf ∉ scanUids := fun hmem => hnfmem (by rw [ht]; exact List.mem_append_left t hmem)
    rcases planStep_planned cfg st m with ⟨e, hpe, hue⟩
    have hused := planStep_used_uids cfg st m
    refine ih (planStep cfg st m) ?_ ?_ ?_
    · refine ⟨t ++ [nf], ?_⟩
      rw [hused, ← hnf, ht, List.append_assoc]
    · intro pr hpr x hx
      rw [hpe] at hpr
      rcases List.mem_append.mp hpr with hold | hnew
      · rcases hpl pr hold x hx with ⟨hn1, hn2⟩
        exact ⟨hn1, by rw [hused]; exact List.mem_append_left _ hn2⟩
      · have hpre : pr = e := by simpa using hnew
        subst hpre
        rw [hue] at hx
        have hxe : x = nf := by
          injection hx with hval
          exact hval.symm.trans hnf.symm
        subst hxe
        exact ⟨hnfscan, by rw [hused]; simp⟩
    · rw [hpe]
      rw [List.pairwise_append]
      refine ⟨hpw, List.pairwise_singleton _ _, ?_⟩
      intro a ha b hb
      have hbe : b = e := by simpa using hb
      subst hbe
      show a.2.uid ≠ b.2.uid
      rw [hue]
      cases hau : a.2.uid with
      | none => simp
      | some xa =>
        have hmem := (hpl a ha xa hau).2
        intro hcon
        injection hcon with hval
        rw [hval] at hmem
        rw [hnf] at hnfmem
        exact hnfmem hmem

end ExtraUsers

namespace ExtraUsers

def suePosix : PosixAttr :=
  { username := some "sue", uid := some 20000, gid := some 20000,
    homeDirectory := some "/home/sue", shell := some "/bin/bash",
    gecos := some "Sue S.", primary := true }

/-- A suspended directory user that still carries a POSIX attribute
set with uid/gid 20000. -/
def c2SuspendedHolder : DirUser :=
  { id := "u1", primaryEmail := "sue@example.com", fullName := some "Sue S.",
    suspended := true, deleted := false, etag := none,
    posixAccounts := [suePosix] }

/-- A user with no POSIX attribute set (a provisioning candidate). -/
def c2NewUser : DirUser :=
  { id := "u2", primaryEmail := "new@example.com", fullName := some "New N.",
    suspended := false, deleted := false, etag := none, posixAccounts := [] }

def c2Users : List DirUser := [c2SuspendedHolder, c2NewUser]

/-- C2, counterexample.  The claim states that the `in_use` sets are
harvested from every POSIX attribute set across the tenant *including
those attached to suspended or deleted users*.  In the code
(`src/main.py` line 113, `autogen-posix.py` line 171) suspended and
deleted users are skipped *before* the harvest block runs, so the
attribute sets of the suspended user `u1` (uid/gid 20000) never reach
`used_uids`/`used_gids`. -/
theorem c2_counterexample :
    ¬ (∀ u ∈ c2Users, ∀ pa ∈ u.posixAccounts, ∀ x : Int,
        (pa.uid = some x → x ∈ (scanUsers none c2Users).used_uids) ∧
        (pa.gid = some x → x ∈ (scanUsers none c2Users).used_gids)) := by
  intro hall
  have hmem : c2SuspendedHolder ∈ c2Users := List.mem_cons_self _ _
  have hpa : suePosix ∈ c2SuspendedHolder.posixAccounts := List.mem_cons_self _ _
  have h20 := (hall c2SuspendedHolder hmem _ hpa 20000).1 rfl
  exact absurd h20 (by decide)

/-- C2, amended: the `in_use` UID and GID sets are harvested, before
any allocation, from every POSIX attribute set of every *non-suspended,
non-deleted* user observed in the listing (suspended and deleted users
are skipped before harvesting — see the counterexample); every UID the
allocator then assigns avoids the harvested set, and the planned UIDs
are pairwise distinct. -/
theorem c2_harvest_before_alloc (cfg : ProvisionCfg) (users : List DirUser)
    (u : DirUser) (pa : PosixAttr) (hu : u ∈ users)
    (hd : u.deleted = false) (hs : u.suspended = false) (hpa : pa ∈ u.posixAccounts) :
    (∀ x : Int, pa.uid = some x → x ∈ (scanUsers cfg.strip_suffix users).used_uids) ∧
    (∀ x : Int, pa.gid = some x → x ∈ (scanUsers cfg.strip_suffix users).used_gids) ∧
    (∀ pr ∈ (populate_plan cfg users).2, ∀ x : Int, pr.2.uid = some x →
        x ∉ (scanUsers cfg.strip_suffix users).used_uids) ∧
    List.Pairwise (fun a b : String × PosixAttr => a.2.uid ≠ b.2.uid)
      (populate_plan cfg users).2 := by
  have hscan := scan_foldl_harvests cfg.strip_suffix hd hs hpa users ⟨[], [], [], []⟩ hu
  have hplan := plan_fold_inv cfg (scanUsers cfg.strip_suffix users).used_uids
    (scanUsers cfg.strip_suffix users).missing
    { next_uid := cfg.start_uid, next_gid := cfg.start_gid,
      used_uids := (scanUsers cfg.strip_suffix users).used_uids,
      used_gids := (scanUsers cfg.strip_suffix users).used_gids,
      local_taken := (scanUsers cfg.strip_suffix users).taken_usernames, planned := [] }
    ⟨[], by simp⟩ (by intro pr hpr; exact absurd hpr (List.not_mem_nil pr)) List.Pairwise.nil
  exact ⟨hscan.1, hscan.2,
    fun pr hpr x hx => (hplan.1 pr hpr x hx).1,
    hplan.2⟩

def bobPosix : PosixAttr :=
  { username := some "bob", uid := some 20000, gid := some 20000,
    homeDirectory := some "/home/bob", shell := some "/bin/bash",
    gecos := some "Bob B.", primary := true }

def c2ActiveHolder : DirUser :=
  { id := "u3", primaryEmail := "bob@example.com", fullName := some "Bob B.",
    suspended := false, deleted := false, etag := none,
    posixAccounts := [bobPosix] }

def c2wUsers : List DirUser := [c2ActiveHolder, c2NewUser]

def c2wCfg : ProvisionCfg :=
  { start_uid := 20000, start_gid := 20000, gid_equals_uid := true,
    default_shell := "/bin/bash", home_template := fun u => "/home/" ++ u,
    strip_suffix := none }

/-- Witness for the amended C2 at a concrete input: the active holder
of uid/gid 20000 is harvested, and the plan avoids the harvested set. -/
theorem c2_harvest_before_alloc_witness :
    ((20000 : Int) ∈ (scanUsers c2wCfg.strip_suffix c2wUsers).used_uids) ∧
    (∀ pr ∈ (populate_plan c2wCfg c2wUsers).2, ∀ x : Int, pr.2.uid = some x →
        x ∉ (scanUsers c2wCfg.strip_suffix c2wUsers).used_uids) := by
  have h := c2_harvest_before_alloc c2wCfg c2wUsers c2ActiveHolder
    bobPosix (List.mem_cons_self _ _) rfl rfl (List.mem_cons_self _ _)
  exact ⟨h.1 20000 rfl, h.2.2.1⟩

end ExtraUsers

namespace ExtraUsers

/-! ## Group GID assignment (`deterministic_gid`, sync script lines 337-360) -/

structure DirGroup where
  id : String
  email : String
  name : String
  etag : Option String
deriving DecidableEq

/-- `deterministic_gid(group_id, start, end, used)`:
`range_size = end - start + 1`; `base = start + h(group_id) % range_size`
where `h` models `int.from_bytes(sha256(group_id).digest()[:8], "big")`;
linear probing (wrapping) over `range_size` offsets for a candidate not
in `used`.  `none` models the error exits: range exhaustion
(`RuntimeError`) and a non-positive range (empty probe loop, or
`ZeroDivisionError` when `range_size == 0`).  The caller inserts the
returned candidate into `used` (the Python mutates the set in place). -/
def deterministic_gid (h : String → Nat) (group_id : String) (start e : Int)
    (used : List Int) : Option Int :=
  let range_size : Int := e - start + 1
  if 0 < range_size then
    let base : Int := start + Int.ofNat (h group_id) % range_size
    ((List.range range_size.toNat).map
      (fun off => start + (base - start + Int.ofNat off) % range_size)).find?
      (fun c => !decide (c ∈ used))
  else none

/-- `sorted(groups, key=lambda g: g["id"])` (sync script line 221). -/
def sortGroups (groups : List DirGroup) : List DirGroup :=
  List.insertionSort (fun a b => strLe a.id b.id = true) groups

/-- The gid-choosing part of the `update_groups_db` loop: fold
`deterministic_gid` over the sorted group ids, accumulating the `used`
set exactly as the Python mutates it. -/
def assignFold (h : String → Nat) (start e : Int) :
    List String → List Int → Option (List (String × Int))
  | [], _ => some []
  | g :: rest, used =>
      match deterministic_gid h g start e used with
      | none => none
      | some c =>
          match assignFold h start e rest (used ++ [c]) with
          | none => none
          | some m => some ((g, c) :: m)

/-- The group-id-to-gid map computed by one run of `update_groups_db`
over a listing of groups, given the pre-existing used-GID set (active
users' primary GIDs). -/
def groupAssignments (h : String → Nat) (start e : Int) (used0 : List Int)
    (groups : List DirGroup) : Option (List (String × Int)) :=
  assignFold h start e ((sortGroups groups).map (fun g => g.id)) used0

theorem sortGroups_ids_eq_of_perm {groups1 groups2 : List DirGroup}
    (hperm : groups1.Perm groups2) :
    (sortGroups groups1).map (fun g => g.id) = (sortGroups groups2).map (fun g => g.id) := by
  haveI hTot : IsTotal DirGroup (fun a b => strLe a.id b.id = true) :=
    ⟨fun a b => strLe_total a.id b.id⟩
  haveI hTrans : IsTrans DirGroup (fun a b => strLe a.id b.id = true) :=
    ⟨fun _ _ _ hab hbc => strLe_trans hab hbc⟩
  haveI hAnti : IsAntisymm String (fun a b => strLe a b = true) :=
    ⟨fun _ _ hab hba => strLe_antisymm hab hba⟩
  have hid : ((sortGroups groups1).map (fun g => g.id)).Perm
      ((sortGroups groups2).map (fun g => g.id)) := by
    refine List.Perm.map _ ?_
    exact ((List.perm_insertionSort _ groups1).trans hperm).trans
      (List.perm_insertionSort _ groups2).symm
  have hs1 : List.Sorted (fun a b : String => strLe a b = true)
      ((sortGroups groups1).map (fun g => g.id)) := by
    rw [List.Sorted, List.pairwise_map]
    exact List.sorted_insertionSort _ groups1
  have hs2 : List.Sorted (fun a b : String => strLe a b = true)
      ((sortGroups groups2).map (fun g => g.id)) := by
    rw [List.Sorted, List.pairwise_map]
    exact List.sorted_insertionSort _ groups2
  exact List.eq_of_perm_of_sorted hid hs1 hs2

/-- C3, confirmed.  Two runs of the group-GID assignment over the same
set of directory groups (as a listing in any order), the same GID
range, and the same pre-existing user primary-GID set produce an
identical `group_id → gid` mapping: the assignment only depends on the
sorted id sequence, which is canonical. -/
theorem c3_deterministic_gid_runs_agree (h : String → Nat) (start e : Int)
    (used0 : List Int) (groups1 groups2 : List DirGroup)
    (hperm : groups1.Perm groups2) :
    groupAssignments h start e used0 groups1 =
      groupAssignments h start e used0 groups2 := by
  unfold groupAssignments
  rw [sortGroups_ids_eq_of_perm hperm]

def c3GroupA : DirGroup :=
  { id := "G-alpha", email := "alpha@example.com", name := "Alpha", etag := none }

def c3GroupB : DirGroup :=
  { id := "G-beta", email := "beta@example.com", name := "Beta", etag := none }

/-- Witness for C3 at a concrete input: the two listing orders of the
same two groups yield the same assignment map. -/
theorem c3_deterministic_gid_runs_agree_witness :
    groupAssignments (fun s => s.toList.length) 30000 30001 [] [c3GroupA, c3GroupB] =
      groupAssignments (fun s => s.toList.length) 30000 30001 [] [c3GroupB, c3GroupA] :=
  c3_deterministic_gid_runs_agree (fun s => s.toList.length) 30000 30001 []
    [c3GroupA, c3GroupB] [c3GroupB, c3GroupA] (List.Perm.swap c3GroupB c3GroupA [])

end ExtraUsers

namespace ExtraUsers

/-! ## Retry loops of the paged readers (C4)

`fetch_users` (sync script lines 381-397) guards its backoff with
`if attempt < max_retries` and otherwise falls through to `raise`;
`list_all_groups` (lines 293-300) and `list_group_members`
(lines 315-325) retry unconditionally on transient errors and have no
`for`/`else` clause, so after the last attempt the loop simply ends and
the following code runs with the previous page's (or an unbound)
`resp`. -/

structure HttpErr where
  status : Option Nat
  msg : String
deriving DecidableEq

/-- Substring test, modelling Python `pat in s`. -/
def strContains (s pat : String) : Bool :=
  (List.range (s.toList.length + 1)).any (fun i => pat.toList.isPrefixOf (s.toList.drop i))

/-- The transient-error predicate shared by all the retry loops:
status in {429, 500, 502, 503, 504}, or the message mentions
`rateLimitExceeded` / `userRateLimitExceeded`.  (`e.resp` being absent
makes the status check false and only the message checks apply.) -/
def is_transient (e : HttpErr) : Bool :=
  (match e.status with
   | some s => decide (s ∈ [429, 500, 502, 503, 504])
   | none => false) ||
  strContains e.msg "rateLimitExceeded" || strContains e.msg "userRateLimitExceeded"

/-- The outcome of the `k`-th execution of `req.execute()`. -/
inductive Attempt (α : Type) where
  | ok (page : α)
  | err (e : HttpErr)

/-- What one retry loop does for a single page request. -/
inductive RetryOutcome (α : Type) where
  | got (page : α)
  | raised (e : HttpErr)
  | emptyMembers
  | fellThroughStale
deriving DecidableEq

/-- `for attempt in range(max_retries+1): try: resp = req.execute();
break / except: if transient: backoff; continue / raise` — the loop of
`list_all_groups`.  When every attempt is consumed the loop ends
without a `break` and without raising: `fellThroughStale` marks that
the code then executes `resp.get("groups", …)` against the previous
page's response (a `NameError` on the first page). -/
def groupsRetryGo {α : Type} (attempts : Nat → Attempt α) : Nat → Nat → RetryOutcome α
  | 0, _ => .fellThroughStale
  | n + 1, k =>
      match attempts k with
      | .ok p => .got p
      | .err e => if is_transient e then groupsRetryGo attempts n (k + 1) else .raised e

def groups_retry {α : Type} (attempts : Nat → Attempt α) (max_retries : Nat) :
    RetryOutcome α :=
  groupsRetryGo attempts (max_retries + 1) 0

/-- The loop of `list_group_members`: as `list_all_groups`, plus the
404 arm returning an empty member list. -/
def membersRetryGo {α : Type} (attempts : Nat → Attempt α) : Nat → Nat → RetryOutcome α
  | 0, _ => .fellThroughStale
  | n + 1, k =>
      match attempts k with
      | .ok p => .got p
      | .err e =>
          if is_transient e then membersRetryGo attempts n (k + 1)
          else if e.status = some 404 then .emptyMembers
          else .raised e

def members_retry {α : Type} (attempts : Nat → Attempt α) (max_retries : Nat) :
    RetryOutcome α :=
  membersRetryGo attempts (max_retries + 1) 0

/-- The loop of `fetch_users`: a transient error backs off only while
`attempt < max_retries`; on the last attempt execution falls through to
the `raise`, so the error propagates. -/
def usersRetryGo {α : Type} (attempts : Nat → Attempt α) (max_retries : Nat) :
    Nat → Nat → RetryOutcome α
  | 0, _ => .fellThroughStale
  | n + 1, k =>
      match attempts k with
      | .ok p => .got p
      | .err e =>
          if is_transient e && decide (k < max_retries)
          then usersRetryGo attempts max_retries n (k + 1)
          else .raised e

def users_retry {α : Type} (attempts : Nat → Attempt α) (max_retries : Nat) :
    RetryOutcome α :=
  usersRetryGo attempts max_retries (max_retries + 1) 0

theorem groupsRetryGo_all_transient {α : Type} {e : HttpErr}
    (ht : is_transient e = true) :
    ∀ n k, groupsRetryGo (α := α) (fun _ => .err e) n k = .fellThroughStale := by
  intro n
  induction n with
  | zero => intro k; rfl
  | succ n ih => intro k; simp [groupsRetryGo, ht, ih]

theorem membersRetryGo_all_transient {α : Type} {e : HttpErr}
    (ht : is_transient e = true) :
    ∀ n k, membersRetryGo (α := α) (fun _ => .err e) n k = .fellThroughStale := by
  intro n
  induction n with
  | zero => intro k; rfl
  | succ n ih => intro k; simp [membersRetryGo, ht, ih]

theorem usersRetryGo_all_transient {α : Type} {e : HttpErr} {m : Nat}
    (ht : is_transient e = true) :
    ∀ n k, k + n = m + 1 → 0 < n →
      usersRetryGo (α := α) (fun _ => .err e) m n k = .raised e := by
  intro n
  induction n with
  | zero => intro k _ hpos; exact absurd hpos (by omega)
  | succ n ih =>
    intro k hk _
    by_cases hkm : k < m
    · have hn : 0 < n := by omega
      simp [usersRetryGo, ht, hkm, ih (k + 1) (by omega) hn]
    · simp [usersRetryGo, ht, hkm]

/-- C4 (code bug).  When every allowed attempt fails with a transient
error, the retry loops of `list_all_groups` and `list_group_members`
do not re-raise: they fall out of the `for` loop (there is no
`for`/`else`) and the code after the loop runs against the stale
previous `resp` (an unbound name on the first page), so the last error
is swallowed.  `fetch_users`, by contrast, propagates the last error
exactly as the claim and the specification describe. -/
theorem c4_exhausted_transient_swallowed {α : Type} (m : Nat) (e : HttpErr)
    (ht : is_transient e = true) :
    groups_retry (α := α) (fun _ => .err e) m = .fellThroughStale ∧
    members_retry (α := α) (fun _ => .err e) m = .fellThroughStale ∧
    (∀ e2 : HttpErr, groups_retry (α := α) (fun _ => .err e) m ≠ .raised e2) ∧
    users_retry (α := α) (fun _ => .err e) m = .raised e := by
  refine ⟨groupsRetryGo_all_transient ht (m + 1) 0,
    membersRetryGo_all_transient ht (m + 1) 0, ?_, ?_⟩
  · intro e2
    rw [groups_retry, groupsRetryGo_all_transient ht (m + 1) 0]
    intro hcon
    exact RetryOutcome.noConfusion hcon
  · exact usersRetryGo_all_transient ht (m + 1) 0 (by omega) (by omega)

/-- Witness for C4: a single-attempt run (`max_retries = 0`) where the
one attempt fails with HTTP 503. -/
theorem c4_exhausted_transient_swallowed_witness :
    groups_retry (α := Unit) (fun _ => .err ⟨some 503, "Service Unavailable"⟩) 0 =
      .fellThroughStale ∧
    members_retry (α := Unit) (fun _ => .err ⟨some 503, "Service Unavailable"⟩) 0 =
      .fellThroughStale ∧
    (∀ e2 : HttpErr, groups_retry (α := Unit)
      (fun _ => .err ⟨some 503, "Service Unavailable"⟩) 0 ≠ .raised e2) ∧
    users_retry (α := Unit) (fun _ => .err ⟨some 503, "Service Unavailable"⟩) 0 =
      .raised ⟨some 503, "Service Unavailable"⟩ :=
  c4_exhausted_transient_swallowed 0 ⟨some 503, "Service Unavailable"⟩ (by decide)

end ExtraUsers

namespace ExtraUsers

/-! ## Identity cache model (`users`, `groups`, `group_members`, `meta`)

Tables are lists of rows in insertion order (SQLite ROWID order).
`INSERT … ON CONFLICT(pk) DO UPDATE` replaces the row in place when the
key exists and appends otherwise; `UPDATE … WHERE` is a `List.map`. -/

structure UserRow where
  id : String
  email : String
  username : String
  uid : Int
  gid : Int
  gecos : String
  home : String
  shell : String
  etag : Option String
  active : Bool
  updated_at : String
deriving DecidableEq

structure GroupRow where
  group_id : String
  email : String
  name : String
  gid : Int
  etag : Option String
  active : Bool
  updated_at : String
deriving DecidableEq

structure Db where
  users : List UserRow
  groups : List GroupRow
  group_members : List (String × String)
  meta : List (String × String)
deriving DecidableEq

def lookupUser (l : List UserRow) (id_ : String) : Option UserRow :=
  l.find? (fun r => decide (r.id = id_))

/-- `user_row_changed(db_row, new)` (sync script lines 145-174): compare
the cached row with the new values on username, email, uid, gid, gecos,
home, shell, etag, and `active != 1`; `updated_at` is not compared. -/
def user_row_changed (row : Option UserRow) (new : UserRow) : Bool :=
  match row with
  | none => true
  | some r =>
      decide (r.username ≠ new.username) || decide (r.email ≠ new.email) ||
      decide (r.uid ≠ new.uid) || decide (r.gid ≠ new.gid) ||
      decide (r.gecos ≠ new.gecos) || decide (r.home ≠ new.home) ||
      decide (r.shell ≠ new.shell) || decide (r.etag ≠ new.etag) ||
      decide (r.active ≠ true)

/-- `upsert_user` (lines 177-195): `INSERT … ON CONFLICT(id) DO UPDATE`
setting every covered column and `active=1`. -/
def upsert_user (l : List UserRow) (r : UserRow) : List UserRow :=
  if l.any (fun q => decide (q.id = r.id)) then
    l.map (fun q => if q.id = r.id then r else q)
  else l ++ [r]

/-- The unchanged-row branch (line 454): `UPDATE users SET active=1
WHERE id=?` — note that `updated_at` is not touched. -/
def touch_user_active (l : List UserRow) (id_ : String) : List UserRow :=
  l.map (fun q => if q.id = id_ then { q with active := true } else q)

/-- `deactivate_missing_users` (lines 198-201): `UPDATE users SET
active=0 WHERE id NOT IN (…present…)`. -/
def deactivate_missing_users (l : List UserRow) (present : List String) : List UserRow :=
  l.map (fun q => if q.id ∈ present then q else { q with active := false })

/-- `pick_posix_account` (lines 475-479): the first attribute set with
`primary`, else the first attribute set, else `None`. -/
def pick_posix_account (pas : List PosixAttr) : Option PosixAttr :=
  match pas with
  | [] => none
  | a :: rest => some (((a :: rest).find? (fun p => p.primary)).getD a)

structure SyncCfg where
  default_shell : String
  home_template : String → String
  group_sync : Bool
  group_start_gid : Int
  group_end_gid : Int

/-- The normalised record built for one kept upstream user
(lines 428-445): username from the attribute set or the email local
part, gecos from the attribute set or the display name or the
username, shell and home from the attribute set or the configured
defaults. -/
def mkRecord (cfg : SyncCfg) (now : String) (u : DirUser) (p : PosixAttr)
    (uid gid : Int) : UserRow :=
  let username := sanitize_username_sync (orElseStr p.username (localPart u.primaryEmail))
  let full_name := orElseStr u.fullName username
  { id := u.id, email := u.primaryEmail, username := username, uid := uid, gid := gid,
    gecos := orElseStr p.gecos full_name,
    home := orElseStr p.homeDirectory (cfg.home_template username),
    shell := orElseStr p.shell cfg.default_shell,
    etag := u.etag, active := true, updated_at := now }

/-- The filter at the top of the `update_users_db` loop (lines
417-426): skip deleted or suspended users, users with no usable POSIX
attribute set, and attribute sets with a missing uid or gid. -/
def keepUser (cfg : SyncCfg) (now : String) (u : DirUser) : Option UserRow :=
  if u.deleted || u.suspended then none
  else
    match pick_posix_account u.posixAccounts with
    | none => none
    | some p =>
        match p.uid, p.gid with
        | some uid, some gid => some (mkRecord cfg now u p uid gid)
        | _, _ => none

structure UsersPass where
  table : List UserRow
  present : List String
  entries : List UserRow

/-- One iteration of the `update_users_db` loop (lines 417-458):
upsert when the cached row differs, otherwise only re-mark active;
collect the present id and the normalised record. -/
def usersStep (cfg : SyncCfg) (now : String) (st : UsersPass) (u : DirUser) : UsersPass :=
  match keepUser cfg now u with
  | none => st
  | some r =>
      { table :=
          if user_row_changed (lookupUser st.table r.id) r then upsert_user st.table r
          else touch_user_active st.table r.id,
        present := st.present ++ [r.id],
        entries := st.entries ++ [r] }

/-- `update_users_db` (lines 406-463): the loop over the listing, then
`deactivate_missing_users` (guarded by `if present_ids`).  Returns the
updated cache and `active_entries` (from which `gid_to_usernames` is
derived). -/
def update_users_db (cfg : SyncCfg) (now : String) (users : List DirUser) (db : Db) :
    Db × List UserRow :=
  let st := users.foldl (usersStep cfg now) ⟨db.users, [], []⟩
  let table :=
    if st.present ≠ [] then deactivate_missing_users st.table st.present else st.table
  ({ db with users := table }, st.entries)

/-! ## Group pass (`update_groups_db`, lines 205-277) -/

structure Member where
  email : Option String
  type : Option String
  status : Option String
deriving DecidableEq

def upsert_group (l : List GroupRow) (r : GroupRow) : List GroupRow :=
  if l.any (fun q => decide (q.group_id = r.group_id)) then
    l.map (fun q => if q.group_id = r.group_id then r else q)
  else l ++ [r]

/-- `UPDATE groups SET gid = -ROWID` (line 215), with `ROWID` modelled
as the 1-based position of the row (rows are never deleted, so
positions are stable): the row at position `i` (0-based) gets gid
`-(k + i)` starting from `k`. -/
def placeholderFrom (k : Int) : List GroupRow → List GroupRow
  | [] => []
  | q :: rest => { q with gid := -k } :: placeholderFrom (k + 1) rest

/-- `UPDATE groups SET gid = -ROWID` (line 215): every group row gets a
unique negative placeholder gid. -/
def placeholderGids (gs : List GroupRow) : List GroupRow := placeholderFrom 1 gs

def mkGroupRow (now : String) (g : DirGroup) (c : Int) : GroupRow :=
  { group_id := g.id, email := g.email, name := sanitize_groupname g.email,
    gid := c, etag := g.etag, active := true, updated_at := now }

/-- The per-group loop of `update_groups_db` (lines 221-238): for each
group in sorted-id order, compute the gid by `deterministic_gid` (the
`used` set is threaded through exactly as the Python mutates it) and
upsert the group row with `active=1`. -/
def groupsFold (h : String → Nat) (cfg : SyncCfg) (now : String) :
    List DirGroup → List GroupRow → List Int → Option (List GroupRow × List Int)
  | [], gs, used => some (gs, used)
  | g :: rest, gs, used =>
      match deterministic_gid h g.id cfg.group_start_gid cfg.group_end_gid used with
      | none => none
      | some c => groupsFold h cfg now rest (upsert_group gs (mkGroupRow now g c)) (used ++ [c])

/-- `UPDATE groups SET active=0 WHERE group_id NOT IN (…)` guarded by
`if active_group_ids:` (lines 241-243). -/
def deactivate_groups (gs : List GroupRow) (activeIds : List String) : List GroupRow :=
  if activeIds = [] then gs
  else gs.map (fun q => if q.group_id ∈ activeIds then q else { q with active := false })

def assocSet (m : List (String × String)) (k v : String) : List (String × String) :=
  if m.any (fun p => decide (p.1 = k)) then m.map (fun p => if p.1 = k then (k, v) else p)
  else m ++ [(k, v)]

def assocFind (m : List (String × String)) (k : String) : Option String :=
  (m.find? (fun p => decide (p.1 = k))).map (fun p => p.2)

/-- The email→username dict over active users (lines 246-252), keyed by
the lowercased email; later rows overwrite earlier ones, empty emails
are skipped. -/
def email_to_username (rows : List UserRow) : List (String × String) :=
  (rows.filter (fun r => r.active)).foldl
    (fun m r => if r.email ≠ "" then assocSet m (strLower r.email) r.username else m) []

/-- One membership row insertion (lines 260-275): skip non-`ACTIVE`
statuses (an absent status passes), only `USER` type members, resolve
the lowercased email against the map, skip unresolved or empty
usernames, `INSERT OR IGNORE` on the `(group_id, username)` key. -/
def insertMember (emap : List (String × String)) (gid_ : String)
    (t : List (String × String)) (m : Member) : List (String × String) :=
  let m_email := strLower (orElseStr m.email "")
  let m_type := strUpper (orElseStr m.type "")
  let m_stat := strUpper (orElseStr m.status "")
  if m_stat ≠ "" ∧ m_stat ≠ "ACTIVE" then t
  else if m_type = "USER" then
    match assocFind emap m_email with
    | some uname =>
        if uname ≠ "" then (if (gid_, uname) ∈ t then t else t ++ [(gid_, uname)]) else t
    | none => t
  else t

/-- The membership refresh (lines 255-275): for each active group, in
table order, delete its rows and repopulate from the member listing. -/
def refreshMembers (emap : List (String × String)) (membersOf : String → List Member)
    (activeRows : List GroupRow) (t0 : List (String × String)) : List (String × String) :=
  activeRows.foldl
    (fun t row =>
      (membersOf row.email).foldl (insertMember emap row.group_id)
        (t.filter (fun p => !decide (p.1 = row.group_id))))
    t0

/-- `update_groups_db` (lines 205-277).  `used_gids` starts from the
active users' primary GIDs; group GIDs are recomputed from scratch
after moving every group gid to a negative placeholder. -/
def update_groups_db (h : String → Nat) (cfg : SyncCfg) (now : String)
    (groups : List DirGroup) (membersOf : String → List Member) (db : Db) : Option Db :=
  let used0 := (db.users.filter (fun r => r.active)).map (fun r => r.gid)
  let gs1 := placeholderGids db.groups
  match groupsFold h cfg now (sortGroups groups) gs1 used0 with
  | none => none
  | some (gs2, _) =>
      let activeIds := (sortGroups groups).map (fun g => g.id)
      let gs3 := deactivate_groups gs2 activeIds
      let emap := email_to_username db.users
      let members :=
        refreshMembers emap membersOf (gs3.filter (fun r => r.active)) db.group_members
      some { db with groups := gs3, group_members := members }

end ExtraUsers

namespace ExtraUsers

/-! ## Render pipeline (`main`, sync script lines 542-616) -/

structure PasswdEnt where
  username : String
  uid : Int
  gid : Int
  gecos : String
  home : String
  shell : String
deriving DecidableEq

/-- The `ORDER BY uid, username` comparison. -/
def pLex (a b : PasswdEnt) : Prop :=
  a.uid < b.uid ∨ (a.uid = b.uid ∧ strLe a.username b.username = true)

instance : DecidableRel pLex := fun a b => by unfold pLex; infer_instance

instance : IsTotal PasswdEnt pLex := by
  constructor
  intro a b
  unfold pLex
  rcases lt_trichotomy a.uid b.uid with hlt | heq | hgt
  · exact Or.inl (Or.inl hlt)
  · rcases strLe_total a.username b.username with hle | hle
    · exact Or.inl (Or.inr ⟨heq, hle⟩)
    · exact Or.inr (Or.inr ⟨heq.symm, hle⟩)
  · exact Or.inr (Or.inl hgt)

instance : IsTrans PasswdEnt pLex := by
  constructor
  intro a b c hab hbc
  unfold pLex at hab hbc ⊢
  rcases hab with hab | ⟨hab1, hab2⟩
  · rcases hbc with hbc | ⟨hbc1, _⟩
    · exact Or.inl (hab.trans hbc)
    · exact Or.inl (by omega)
  · rcases hbc with hbc | ⟨hbc1, hbc2⟩
    · exact Or.inl (by omega)
    · exact Or.inr ⟨hab1.trans hbc1, strLe_trans hab2 hbc2⟩

/-- `SELECT username, uid, gid, gecos, home, shell FROM users WHERE
active=1 ORDER BY uid, username` (lines 550-552), as projection
followed by a sort on `(uid, username)`. -/
def userQuery (rows : List UserRow) : List PasswdEnt :=
  List.insertionSort pLex
    ((rows.filter (fun r => r.active)).map
      (fun r => ⟨r.username, r.uid, r.gid, r.gecos, r.home, r.shell⟩))

def fmtPasswdLine (p : PasswdEnt) : String :=
  p.username ++ ":x:" ++ toString p.uid ++ ":" ++ toString p.gid ++ ":" ++
    p.gecos ++ ":" ++ p.home ++ ":" ++ p.shell

def fmtShadowLine (day : Nat) (p : PasswdEnt) : String :=
  p.username ++ ":!:" ++ toString day ++ ":0:99999:7:::"

/-- The keys of the implicit-primary-group dict, iterated via
`sorted(groups.keys())` (line 563). -/
def gidKeys (entries : List UserRow) : List Int :=
  List.insertionSort (fun a b : Int => a ≤ b) ((entries.map (fun r => r.gid)).dedup)

def usersOfGid (entries : List UserRow) (g : Int) : List String :=
  (entries.filter (fun r => decide (r.gid = g))).map (fun r => r.username)

/-- `members[0] if len(members) == 1 else f"grp{gid}"` (line 546). -/
def primaryName (entries : List UserRow) (g : Int) : String :=
  match usersOfGid entries g with
  | [u] => u
  | _ => "grp" ++ toString g

/-- One line of the rendered group file, before formatting. -/
structure GroupEnt where
  name : String
  gid : Int
  members : List String
deriving DecidableEq

/-- The implicit per-user primary groups section (lines 544-566), in
ascending gid order, with empty member lists. -/
def primaryGroupEntries (entries : List UserRow) : List GroupEnt :=
  (gidKeys entries).map (fun g => ⟨primaryName entries g, g, []⟩)

/-- The `ORDER BY gid, name` comparison on `(group_id, name, gid)`
projections. -/
def gLex (a b : String × String × Int) : Prop :=
  a.2.2 < b.2.2 ∨ (a.2.2 = b.2.2 ∧ strLe a.2.1 b.2.1 = true)

instance : DecidableRel gLex := fun a b => by unfold gLex; infer_instance

instance : IsTotal (String × String × Int) gLex := by
  constructor
  intro a b
  unfold gLex
  rcases lt_trichotomy a.2.2 b.2.2 with hlt | heq | hgt
  · exact Or.inl (Or.inl hlt)
  · rcases strLe_total a.2.1 b.2.1 with hle | hle
    · exact Or.inl (Or.inr ⟨heq, hle⟩)
    · exact Or.inr (Or.inr ⟨heq.symm, hle⟩)
  · exact Or.inr (Or.inl hgt)

instance : IsTrans (String × String × Int) gLex := by
  constructor
  intro a b c hab hbc
  unfold gLex at hab hbc ⊢
  rcases hab with hab | ⟨hab1, hab2⟩
  · rcases hbc with hbc | ⟨hbc1, _⟩
    · exact Or.inl (hab.trans hbc)
    · exact Or.inl (by omega)
  · rcases hbc with hbc | ⟨hbc1, hbc2⟩
    · exact Or.inl (by omega)
    · exact Or.inr ⟨hab1.trans hbc1, strLe_trans hab2 hbc2⟩

/-- `strLe` as a proposition, for the `ORDER BY username` sorts. -/
def strLeP (a b : String) : Prop := strLe a b = true

instance : DecidableRel strLeP := fun a b => by unfold strLeP; infer_instance

instance : IsTotal String strLeP := ⟨fun a b => strLe_total a b⟩

instance : IsTrans String strLeP := ⟨fun _ _ _ hab hbc => strLe_trans hab hbc⟩

/-- `SELECT group_id, name, gid FROM groups WHERE active=1 ORDER BY
gid, name` (line 569). -/
def groupQuery (gs : List GroupRow) : List (String × String × Int) :=
  List.insertionSort gLex
    ((gs.filter (fun r => r.active)).map (fun r => (r.group_id, r.name, r.gid)))

/-- `SELECT username FROM group_members WHERE group_id=? ORDER BY
username` (lines 571-573). -/
def membersQuery (t : List (String × String)) (gid_ : String) : List String :=
  List.insertionSort strLeP
    ((t.filter (fun p => decide (p.1 = gid_))).map (fun p => p.2))

/-- The directory-groups section of the group file (lines 568-574). -/
def dirGroupEntries (db : Db) : List GroupEnt :=
  (groupQuery db.groups).map (fun t => ⟨t.2.1, t.2.2, membersQuery db.group_members t.1⟩)

def fmtGroupLine (g : GroupEnt) : String :=
  g.name ++ ":x:" ++ toString g.gid ++ ":" ++ String.intercalate "," g.members

/-- `"\n".join(lines) + ("\n" if lines else "")` (lines 576-578). -/
def joinNl (lines : List String) : String :=
  if lines = [] then "" else String.intercalate "\n" lines ++ "\n"

def meta_get (db : Db) (k : String) : Option String :=
  (db.meta.find? (fun p => decide (p.1 = k))).map (fun p => p.2)

def meta_set (db : Db) (k v : String) : Db :=
  { db with meta :=
      if db.meta.any (fun p => decide (p.1 = k)) then
        db.meta.map (fun p => if p.1 = k then (k, v) else p)
      else db.meta ++ [(k, v)] }

/-- The upstream state consumed by one sync run: the user listing, the
group listing, and the member listing per group email. -/
structure SyncInput where
  users : List DirUser
  groups : List DirGroup
  membersOf : String → List Member

structure SyncResult where
  db : Db
  passwd_txt : String
  group_txt : String
  shadow_txt : String
  group_entries : List GroupEnt
  changed : Bool
  writes : List (String × String × Nat)

/-- The render-and-write tail of `main` (lines 542-616): render the
three files from the updated cache, compare the snapshot hash (SHA-256
of `passwd + "\n--\n" + group + "\n--\n" + shadow`, modelled by the
function parameter `sha`) against `meta["last_snapshot_hash"]`, and
emit the file writes — `(name, content, mode)` with modes 420 =
`0o644` and 416 = `0o640` — unless in dry-run mode or unchanged.
`day` is `days_since_epoch()`. -/
def renderAndWrite (sha : String → String) (day : Nat) (dry_run : Bool)
    (entries : List UserRow) (db2 : Db) : SyncResult :=
  let rows := userQuery db2.users
  let passwd_txt := joinNl (rows.map fmtPasswdLine)
  let shadow_txt := joinNl (rows.map (fmtShadowLine day))
  let gents := primaryGroupEntries entries ++ dirGroupEntries db2
  let group_txt := joinNl (gents.map fmtGroupLine)
  let snapshot_hash := sha (passwd_txt ++ "\n--\n" ++ group_txt ++ "\n--\n" ++ shadow_txt)
  let changed := decide (some snapshot_hash ≠ meta_get db2 "last_snapshot_hash")
  if dry_run then
    { db := db2, passwd_txt, group_txt, shadow_txt, group_entries := gents,
      changed, writes := [] }
  else if changed then
    { db := meta_set db2 "last_snapshot_hash" snapshot_hash,
      passwd_txt, group_txt, shadow_txt, group_entries := gents, changed,
      writes := [("passwd", passwd_txt, 420), ("group", group_txt, 420),
                 ("shadow", shadow_txt, 416)] }
  else
    { db := db2, passwd_txt, group_txt, shadow_txt, group_entries := gents,
      changed, writes := [] }

/-- One full sync pass (`main`, lines 529-616): update the user cache,
optionally update the group cache, then render and write.  `none`
models the fatal `RuntimeError` of group-GID exhaustion. -/
def syncRun (h : String → Nat) (sha : String → String) (cfg : SyncCfg)
    (now : String) (day : Nat) (dry_run : Bool) (inp : SyncInput) (db0 : Db) :
    Option SyncResult :=
  let up := update_users_db cfg now inp.users db0
  let db2? :=
    if cfg.group_sync then update_groups_db h cfg now inp.groups inp.membersOf up.1
    else some up.1
  db2?.map (renderAndWrite sha day dry_run up.2)

end ExtraUsers

namespace ExtraUsers

theorem update_users_db_frame (cfg : SyncCfg) (now : String) (users : List DirUser)
    (db : Db) : (update_users_db cfg now users db).1.meta = db.meta ∧
      (update_users_db cfg now users db).1.groups = db.groups ∧
      (update_users_db cfg now users db).1.group_members = db.group_members :=
  ⟨rfl, rfl, rfl⟩

theorem update_groups_db_frame {h : String → Nat} {cfg : SyncCfg} {now : String}
    {groups : List DirGroup} {membersOf : String → List Member} {db db2 : Db}
    (hup : update_groups_db h cfg now groups membersOf db = some db2) :
    db2.meta = db.meta ∧ db2.users = db.users := by
  unfold update_groups_db at hup
  dsimp only at hup
  cases hgf : groupsFold h cfg now (sortGroups groups) (placeholderGids db.groups)
      ((db.users.filter (fun r => r.active)).map (fun r => r.gid)) with
  | none =>
    rw [hgf] at hup
    exact absurd hup (by simp)
  | some p =>
    obtain ⟨gs2, used2⟩ := p
    rw [hgf] at hup
    have := Option.some.inj hup
    subst this
    exact ⟨rfl, rfl⟩

theorem meta_set_frame (db : Db) (k v : String) :
    (meta_set db k v).users = db.users ∧ (meta_set db k v).groups = db.groups ∧
      (meta_set db k v).group_members = db.group_members :=
  ⟨rfl, rfl, rfl⟩

theorem renderAndWrite_dry (sha : String → String) (day : Nat)
    (entries : List UserRow) (db2 : Db) :
    (renderAndWrite sha day true entries db2).writes = [] ∧
    (renderAndWrite sha day true entries db2).db = db2 := by
  unfold renderAndWrite
  exact ⟨rfl, rfl⟩

theorem renderAndWrite_wet_frame (sha : String → String) (day : Nat)
    (entries : List UserRow) (db2 : Db) :
    (renderAndWrite sha day false entries db2).db.users = db2.users ∧
    (renderAndWrite sha day false entries db2).db.groups = db2.groups ∧
    (renderAndWrite sha day false entries db2).db.group_members = db2.group_members := by
  unfold renderAndWrite
  simp only [Bool.false_eq_true, if_false]
  split
  · exact ⟨rfl, rfl, rfl⟩
  · exact ⟨rfl, rfl, rfl⟩

theorem lookupUser_touch (l : List UserRow) (id_ : String) :
    lookupUser (touch_user_active l id_) id_ =
      (lookupUser l id_).map (fun r => { r with active := true }) := by
  induction l with
  | nil => rfl
  | cons q rest ih =>
    by_cases hq : q.id = id_
    · have hmap : touch_user_active (q :: rest) id_ =
          { q with active := true } :: touch_user_active rest id_ := by
        simp [touch_user_active, hq]
      have hp1 : decide (({ q with active := true } : UserRow).id = id_) = true := by
        simpa using hq
      have hp2 : decide (q.id = id_) = true := by simpa using hq
      rw [hmap]
      unfold lookupUser
      simp only [List.find?_cons, hp1, hp2]
      rfl
    · have hmap : touch_user_active (q :: rest) id_ = q :: touch_user_active rest id_ := by
        simp [touch_user_active, hq]
      have hpq : decide (q.id = id_) = false := by simpa using hq
      rw [hmap]
      unfold lookupUser
      simp only [List.find?_cons, hpq]
      simpa [lookupUser] using ih

/-! ## C9: the unchanged-row touch path -/

def c9Posix : PosixAttr :=
  { username := some "alice", uid := some 1000, gid := some 1000,
    homeDirectory := some "/home/alice", shell := some "/bin/sh",
    gecos := some "Alice A.", primary := true }

def c9User : DirUser :=
  { id := "ua", primaryEmail := "alice@x.com", fullName := some "Alice A.",
    suspended := false, deleted := false, etag := some "e1",
    posixAccounts := [c9Posix] }

def c9Cfg : SyncCfg :=
  { default_shell := "/bin/bash", home_template := fun u => "/home/" ++ u,
    group_sync := false, group_start_gid := 30000, group_end_gid := 30009 }

/-- The cached row as written by an earlier pass at time `2024-01-01`. -/
def c9Row : UserRow := mkRecord c9Cfg "2024-01-01" c9User c9Posix 1000 1000

/-- The normalised record of the same user at the later time. -/
def c9Rec : UserRow := mkRecord c9Cfg "2025-02-02" c9User c9Posix 1000 1000

def c9Db : Db := ⟨[c9Row], [], [], []⟩

/-- C9, counterexample.  The claim states that the touch path refreshes
`updated_at`.  The code runs `UPDATE users SET active=1 WHERE id=?`
(line 454) — `updated_at` is not in the SET list: after a sync at
`2025-02-02` over an unchanged user, the row still carries the old
`updated_at` of `2024-01-01`. -/
theorem c9_counterexample :
    ¬ ((lookupUser (update_users_db c9Cfg "2025-02-02" [c9User] c9Db).1.users "ua").map
        (fun r => r.updated_at) = some "2025-02-02") := by decide

/-- C9, amended: for an upstream user whose normalised record is
unchanged relative to the cached row, the touch path sets `active=1`
and leaves every other field of the row — including `updated_at` —
unchanged.  (The claim's "refreshes updated_at" does not hold: only
`active` is written.) -/
theorem c9_touch_sets_active_only (cfg : SyncCfg) (now : String) (st : UsersPass)
    (u : DirUser) (r row : UserRow)
    (hk : keepUser cfg now u = some r)
    (hrow : lookupUser st.table r.id = some row)
    (hch : user_row_changed (some row) r = false) :
    lookupUser (usersStep cfg now st u).table r.id = some { row with active := true } := by
  unfold usersStep
  rw [hk]
  simp only [hrow, hch, Bool.false_eq_true, if_false]
  rw [lookupUser_touch, hrow]
  rfl

/-- Witness for the amended C9 at a concrete input. -/
theorem c9_touch_sets_active_only_witness :
    lookupUser (usersStep c9Cfg "2025-02-02" ⟨[c9Row], [], []⟩ c9User).table c9Rec.id =
      some { c9Row with active := true } :=
  c9_touch_sets_active_only c9Cfg "2025-02-02" ⟨[c9Row], [], []⟩ c9User c9Rec c9Row
    (by decide) (by decide) (by decide)

/-! ## C10: dry-run still commits every cache mutation -/

/-- C10, confirmed.  In dry-run mode the sync run performs exactly the
same cache mutations as a wet run — `update_users_db` (upserts,
reactivations, deactivations) and `update_groups_db` (group
replacement and membership replacement) run before `--dry-run` is ever
consulted — while the three file writes are suppressed and
`meta["last_snapshot_hash"]` is left untouched. -/
theorem c10_dry_run_commits_cache (h : String → Nat) (sha : String → String)
    (cfg : SyncCfg) (now : String) (day : Nat) (inp : SyncInput) (db0 : Db)
    (r : SyncResult) (hr : syncRun h sha cfg now day true inp db0 = some r) :
    r.writes = [] ∧ r.db.meta = db0.meta ∧
    ∃ rw : SyncResult, syncRun h sha cfg now day false inp db0 = some rw ∧
      rw.db.users = r.db.users ∧ rw.db.groups = r.db.groups ∧
      rw.db.group_members = r.db.group_members := by
  unfold syncRun at hr ⊢
  dsimp only at hr ⊢
  cases hdb2 : (if cfg.group_sync then
      update_groups_db h cfg now inp.groups inp.membersOf
        (update_users_db cfg now inp.users db0).1
      else some (update_users_db cfg now inp.users db0).1) with
  | none =>
    rw [hdb2] at hr
    exact absurd hr (by simp)
  | some db2 =>
    rw [hdb2] at hr
    have hrr : renderAndWrite sha day true (update_users_db cfg now inp.users db0).2 db2 = r := by
      simpa using hr
    have hmeta2 : db2.meta = db0.meta := by
      by_cases hgs : cfg.group_sync
      · rw [if_pos hgs] at hdb2
        exact (update_groups_db_frame hdb2).1.trans
          (update_users_db_frame cfg now inp.users db0).1
      · rw [if_neg hgs] at hdb2
        have := Option.some.inj hdb2
        subst this
        exact (update_users_db_frame cfg now inp.users db0).1
    have hdry := renderAndWrite_dry sha day (update_users_db cfg now inp.users db0).2 db2
    have hwet := renderAndWrite_wet_frame sha day (update_users_db cfg now inp.users db0).2 db2
    refine ⟨?_, ?_, ?_⟩
    · rw [← hrr]
      exact hdry.1
    · rw [← hrr, hdry.2]
      exact hmeta2
    · refine ⟨renderAndWrite sha day false (update_users_db cfg now inp.users db0).2 db2,
        rfl, ?_, ?_, ?_⟩ <;> rw [← hrr, hdry.2]
      · exact hwet.1
      · exact hwet.2.1
      · exact hwet.2.2

def c10Db0 : Db := ⟨[], [], [], []⟩

def c10Cfg : SyncCfg :=
  { default_shell := "/bin/bash", home_template := fun u => "/home/" ++ u,
    group_sync := false, group_start_gid := 30000, group_end_gid := 30009 }

def c10Inp : SyncInput := { users := [], groups := [], membersOf := fun _ => [] }

/-- The dry-run result over the empty directory and cache. -/
def c10r0 : SyncResult := ⟨⟨[], [], [], []⟩, "", "", "", [], true, []⟩

/-- Witness for C10 at a concrete input. -/
theorem c10_dry_run_commits_cache_witness :
    c10r0.writes = [] ∧ c10r0.db.meta = c10Db0.meta ∧
    ∃ rw : SyncResult,
      syncRun (fun _ => 0) (fun _ => "H") c10Cfg "t1" 19900 false c10Inp c10Db0 = some rw ∧
      rw.db.users = c10r0.db.users ∧ rw.db.groups = c10r0.db.groups ∧
      rw.db.group_members = c10r0.db.group_members :=
  c10_dry_run_commits_cache (fun _ => 0) (fun _ => "H") c10Cfg "t1" 19900 c10Inp c10Db0
    c10r0 (by rfl)

end ExtraUsers

namespace ExtraUsers

/-- "For every pair of adjacent lines the gid of the earlier line is
less than or equal to the gid of the later line." -/
def gidsAscending : List GroupEnt → Bool
  | [] => true
  | [_] => true
  | a :: b :: rest => decide (a.gid ≤ b.gid) && gidsAscending (b :: rest)

theorem gidsAscending_of_pairwise :
    ∀ {l : List GroupEnt}, List.Pairwise (fun a b : GroupEnt => a.gid ≤ b.gid) l →
      gidsAscending l = true := by
  intro l
  induction l with
  | nil => intro _; rfl
  | cons a rest ih =>
    intro hp
    rcases List.pairwise_cons.mp hp with ⟨ha, hrest⟩
    cases rest with
    | nil => rfl
    | cons b rest2 =>
      have hab : a.gid ≤ b.gid := ha b (List.mem_cons_self b rest2)
      simp only [gidsAscending, Bool.and_eq_true, decide_eq_true_eq]
      exact ⟨hab, ih hrest⟩

theorem pairwise_primaryGroupEntries (entries : List UserRow) :
    List.Pairwise (fun a b : GroupEnt => a.gid ≤ b.gid) (primaryGroupEntries entries) := by
  unfold primaryGroupEntries
  rw [List.pairwise_map]
  have hs := List.sorted_insertionSort (fun a b : Int => a ≤ b)
    ((entries.map (fun r => r.gid)).dedup)
  exact List.Pairwise.imp (fun hab => hab) hs

theorem pairwise_dirGroupEntries (db : Db) :
    List.Pairwise (fun a b : GroupEnt => a.gid ≤ b.gid) (dirGroupEntries db) := by
  unfold dirGroupEntries
  rw [List.pairwise_map]
  have hs := List.sorted_insertionSort gLex
    ((db.groups.filter (fun r => r.active)).map (fun r => (r.group_id, r.name, r.gid)))
  refine List.Pairwise.imp ?_ hs
  intro a b hab
  rcases hab with hab | ⟨hab, _⟩
  · exact le_of_lt hab
  · exact le_of_eq hab

theorem syncRun_group_entries {h : String → Nat} {sha : String → String} {cfg : SyncCfg}
    {now : String} {day : Nat} {dry_run : Bool} {inp : SyncInput} {db0 : Db}
    {r : SyncResult} (hr : syncRun h sha cfg now day dry_run inp db0 = some r) :
    ∃ db2 : Db, r.group_entries =
      primaryGroupEntries (update_users_db cfg now inp.users db0).2 ++ dirGroupEntries db2 := by
  unfold syncRun at hr
  dsimp only at hr
  cases hdb2 : (if cfg.group_sync then
      update_groups_db h cfg now inp.groups inp.membersOf
        (update_users_db cfg now inp.users db0).1
      else some (update_users_db cfg now inp.users db0).1) with
  | none =>
    rw [hdb2] at hr
    exact absurd hr (by simp)
  | some db2 =>
    rw [hdb2] at hr
    have hrr : renderAndWrite sha day dry_run (update_users_db cfg now inp.users db0).2 db2 = r := by
      simpa using hr
    refine ⟨db2, ?_⟩
    rw [← hrr]
    unfold renderAndWrite
    dsimp only
    split
    · rfl
    · split
      · rfl
      · rfl

def c8User : DirUser :=
  { id := "ua", primaryEmail := "alice@x.com", fullName := some "Alice",
    suspended := false, deleted := false, etag := some "e1",
    posixAccounts := [{ username := some "alice", uid := some 1000, gid := some 50000,
                        homeDirectory := some "/home/alice", shell := some "/bin/sh",
                        gecos := some "Alice", primary := true }] }

def c8Group : DirGroup :=
  { id := "G1", email := "devs@x.com", name := "Devs", etag := none }

def c8Cfg : SyncCfg :=
  { default_shell := "/bin/bash", home_template := fun u => "/home/" ++ u,
    group_sync := true, group_start_gid := 30000, group_end_gid := 30009 }

def c8Inp : SyncInput := { users := [c8User], groups := [c8Group], membersOf := fun _ => [] }

/-- C8, counterexample.  The rendered group file is the implicit
primary-group section followed by the directory-group section, each
sorted separately: a user with primary gid 50000 renders before a
directory group with gid 30000, so adjacent lines descend.  The claim
that the whole file is in ascending gid order is false. -/
theorem c8_counterexample :
    ((syncRun (fun _ => 0) (fun _ => "H") c8Cfg "t1" 19900 false c8Inp ⟨[], [], [], []⟩).map
      (fun r => gidsAscending r.group_entries)) = some false := by rfl

/-- C8, amended: the rendered group entries are the implicit
primary-group section followed by the directory-group section; each
section is in ascending gid order, and the file as a whole is in
ascending gid order provided every implicit primary gid is at most
every directory-group gid.  Without that proviso adjacency can descend
at the section boundary (see the counterexample). -/
theorem c8_group_sections_sorted (h : String → Nat) (sha : String → String)
    (cfg : SyncCfg) (now : String) (day : Nat) (dry_run : Bool) (inp : SyncInput)
    (db0 : Db) (r : SyncResult) (hr : syncRun h sha cfg now day dry_run inp db0 = some r) :
    ∃ prim dir : List GroupEnt, r.group_entries = prim ++ dir ∧
      gidsAscending prim = true ∧ gidsAscending dir = true ∧
      ((∀ a ∈ prim, ∀ b ∈ dir, a.gid ≤ b.gid) → gidsAscending r.group_entries = true) := by
  rcases syncRun_group_entries hr with ⟨db2, hge⟩
  refine ⟨primaryGroupEntries (update_users_db cfg now inp.users db0).2,
    dirGroupEntries db2, hge, ?_, ?_, ?_⟩
  · exact gidsAscending_of_pairwise (pairwise_primaryGroupEntries _)
  · exact gidsAscending_of_pairwise (pairwise_dirGroupEntries _)
  · intro hbound
    rw [hge]
    refine gidsAscending_of_pairwise ?_
    rw [List.pairwise_append]
    exact ⟨pairwise_primaryGroupEntries _, pairwise_dirGroupEntries _, hbound⟩

def c8wUser : DirUser :=
  { id := "ua", primaryEmail := "alice@x.com", fullName := some "Alice",
    suspended := false, deleted := false, etag := some "e1",
    posixAccounts := [{ username := some "alice", uid := some 1000, gid := some 1000,
                        homeDirectory := some "/home/alice", shell := some "/bin/sh",
                        gecos := some "Alice", primary := true }] }

def c8wInp : SyncInput := { users := [c8wUser], groups := [c8Group], membersOf := fun _ => [] }

def c8wResult : SyncResult :=
  (syncRun (fun _ => 0) (fun _ => "H") c8Cfg "t1" 19900 false c8wInp ⟨[], [], [], []⟩).getD
    ⟨⟨[], [], [], []⟩, "", "", "", [], false, []⟩

/-- Witness for the amended C8 at a concrete input. -/
theorem c8_group_sections_sorted_witness :
    ∃ prim dir : List GroupEnt, c8wResult.group_entries = prim ++ dir ∧
      gidsAscending prim = true ∧ gidsAscending dir = true ∧
      ((∀ a ∈ prim, ∀ b ∈ dir, a.gid ≤ b.gid) →
        gidsAscending c8wResult.group_entries = true) :=
  c8_group_sections_sorted (fun _ => 0) (fun _ => "H") c8Cfg "t1" 19900 false c8wInp
    ⟨[], [], [], []⟩ c8wResult (by rfl)

end ExtraUsers

namespace ExtraUsers

/-! ## Users-pass lemmas (towards C1 and C5)

`stripT` erases `updated_at`, the only field of a normalised record
that depends on the sync timestamp. -/

def stripT (r : UserRow) : UserRow := { r with updated_at := "" }

def keptRecords (cfg : SyncCfg) (now : String) (users : List DirUser) : List UserRow :=
  users.filterMap (keepUser cfg now)

theorem user_eta_set_active {row : UserRow} (h : row.active = true) :
    { row with active := true } = row := by
  cases row
  simp only at h
  simp [h]

theorem user_eta_set_inactive {row : UserRow} (h : row.active = false) :
    { row with active := false } = row := by
  cases row
  simp only at h
  simp [h]

theorem keepUser_active {cfg : SyncCfg} {now : String} {u : DirUser} {r : UserRow}
    (hk : keepUser cfg now u = some r) : r.active = true := by
  unfold keepUser at hk
  split at hk
  · exact absurd hk (by simp)
  · split at hk
    · exact absurd hk (by simp)
    · split at hk
      · have := Option.some.inj hk
        subst this
        rfl
      · exact absurd hk (by simp)

theorem keepUser_stripT (cfg : SyncCfg) (now now2 : String) (u : DirUser) :
    (keepUser cfg now u).map stripT = (keepUser cfg now2 u).map stripT := by
  unfold keepUser
  split
  · rfl
  · split
    · rfl
    · split
      · rfl
      · rfl

theorem keptRecords_stripT (cfg : SyncCfg) (now now2 : String) (users : List DirUser) :
    (keptRecords cfg now users).map stripT = (keptRecords cfg now2 users).map stripT := by
  induction users with
  | nil => rfl
  | cons u rest ih =>
    unfold keptRecords
    rw [List.filterMap_cons, List.filterMap_cons]
    have hu := keepUser_stripT cfg now now2 u
    cases h1 : keepUser cfg now u with
    | none =>
      cases h2 : keepUser cfg now2 u with
      | none => exact ih
      | some r2 =>
        rw [h1, h2] at hu
        exact absurd hu (by simp)
    | some r1 =>
      cases h2 : keepUser cfg now2 u with
      | none =>
        rw [h1, h2] at hu
        exact absurd hu (by simp)
      | some r2 =>
        rw [h1, h2] at hu
        have hu2 : stripT r1 = stripT r2 := by simpa using hu
        simp only [List.map_cons, hu2]
        exact congrArg (List.cons (stripT r2)) ih

theorem stripT_id (r : UserRow) : (stripT r).id = r.id := rfl

theorem keptRecords_ids (cfg : SyncCfg) (now now2 : String) (users : List DirUser) :
    (keptRecords cfg now users).map (fun r => r.id) =
      (keptRecords cfg now2 users).map (fun r => r.id) := by
  have h := keptRecords_stripT cfg now now2 users
  calc (keptRecords cfg now users).map (fun r => r.id)
      = (keptRecords cfg now users).map ((fun r => r.id) ∘ stripT) :=
        List.map_congr_left (fun a _ => rfl)
    _ = ((keptRecords cfg now users).map stripT).map (fun r => r.id) :=
        (List.map_map _ _ _).symm
    _ = ((keptRecords cfg now2 users).map stripT).map (fun r => r.id) := by rw [h]
    _ = (keptRecords cfg now2 users).map ((fun r => r.id) ∘ stripT) :=
        List.map_map _ _ _
    _ = (keptRecords cfg now2 users).map (fun r => r.id) :=
        (List.map_congr_left (fun a _ => rfl)).symm

theorem urc_false_fields {row r : UserRow}
    (h : user_row_changed (some row) r = false) :
    row.username = r.username ∧ row.email = r.email ∧ row.uid = r.uid ∧
    row.gid = r.gid ∧ row.gecos = r.gecos ∧ row.home = r.home ∧
    row.shell = r.shell ∧ row.etag = r.etag ∧ row.active = true := by
  unfold user_row_changed at h
  simp only [Bool.or_eq_false_iff, decide_eq_false_iff_not, not_not] at h
  obtain ⟨⟨⟨⟨⟨⟨⟨⟨h1, h2⟩, h3⟩, h4⟩, h5⟩, h6⟩, h7⟩, h8⟩, h9⟩ := h
  exact ⟨h1, h2, h3, h4, h5, h6, h7, h8, h9⟩

theorem urc_stripT {row r r2 : UserRow} (hs : stripT r = stripT r2) :
    user_row_changed (some row) r = user_row_changed (some row) r2 := by
  have h1 : r.username = r2.username := congrArg (fun q => q.username) hs
  have h2 : r.email = r2.email := congrArg (fun q => q.email) hs
  have h3 : r.uid = r2.uid := congrArg (fun q => q.uid) hs
  have h4 : r.gid = r2.gid := congrArg (fun q => q.gid) hs
  have h5 : r.gecos = r2.gecos := congrArg (fun q => q.gecos) hs
  have h6 : r.home = r2.home := congrArg (fun q => q.home) hs
  have h7 : r.shell = r2.shell := congrArg (fun q => q.shell) hs
  have h8 : r.etag = r2.etag := congrArg (fun q => q.etag) hs
  unfold user_row_changed
  rw [h1, h2, h3, h4, h5, h6, h7, h8]

theorem urc_self {r : UserRow} (ha : r.active = true) :
    user_row_changed (some r) r = false := by
  unfold user_row_changed
  simp [ha]

end ExtraUsers

namespace ExtraUsers

theorem lookupUser_map_pres {f : UserRow → UserRow} (hid : ∀ q, (f q).id = q.id)
    {x : String} (hfix : ∀ q, q.id = x → f q = q) (t : List UserRow) :
    lookupUser (t.map f) x = lookupUser t x := by
  induction t with
  | nil => rfl
  | cons q rest ih =>
    by_cases hq : q.id = x
    · have hfq : f q = q := hfix q hq
      unfold lookupUser
      rw [List.map_cons, hfq, List.find?_cons, List.find?_cons]
      simp [hq]
    · have hpred : decide ((f q).id = x) = false := by
        rw [hid q]
        simpa using hq
      have hpred2 : decide (q.id = x) = false := by simpa using hq
      unfold lookupUser
      rw [List.map_cons]
      rw [List.find?_cons, List.find?_cons, hpred, hpred2]
      exact ih

theorem lookupUser_append_some {t : List UserRow} {x : String} {row : UserRow}
    (h : lookupUser t x = some row) (t2 : List UserRow) :
    lookupUser (t ++ t2) x = some row := by
  induction t with
  | nil => exact absurd h (by simp [lookupUser])
  | cons q rest ih =>
    unfold lookupUser at h ⊢
    rw [List.cons_append, List.find?_cons] at *
    cases hpq : decide (q.id = x) with
    | true => rw [hpq] at h; simpa [hpq] using h
    | false =>
      rw [hpq] at h
      simp only [hpq]
      exact ih h

theorem lookupUser_append_none {t : List UserRow} {x : String}
    (h : lookupUser t x = none) (t2 : List UserRow) :
    lookupUser (t ++ t2) x = lookupUser t2 x := by
  induction t with
  | nil => rfl
  | cons q rest ih =>
    unfold lookupUser at h ⊢
    rw [List.cons_append, List.find?_cons] at *
    cases hpq : decide (q.id = x) with
    | true => rw [hpq] at h; exact absurd h (by simp)
    | false =>
      rw [hpq] at h
      simp only [hpq]
      exact ih h

theorem lookupUser_not_mem {t : List UserRow} {x : String}
    (h : ∀ q ∈ t, q.id ≠ x) : lookupUser t x = none := by
  unfold lookupUser
  rw [List.find?_eq_none]
  intro q hq
  simpa using h q hq

theorem lookupUser_upsert_self (t : List UserRow) (r : UserRow) :
    lookupUser (upsert_user t r) r.id = some r := by
  unfold upsert_user
  by_cases hany : t.any (fun q => decide (q.id = r.id)) = true
  · simp only [hany, if_true]
    induction t with
    | nil => simp at hany
    | cons q rest ih =>
      by_cases hq : q.id = r.id
      · unfold lookupUser
        simp only [List.map_cons, List.find?_cons]
        simp [hq]
      · have hany2 : rest.any (fun q => decide (q.id = r.id)) = true := by
          rcases List.any_eq_true.mp hany with ⟨q0, hq0, hq0p⟩
          rcases List.mem_cons.mp hq0 with rfl | hq0r
          · exact absurd (by simpa using hq0p) hq
          · exact List.any_eq_true.mpr ⟨q0, hq0r, hq0p⟩
        unfold lookupUser
        rw [List.map_cons, List.find?_cons]
        have : decide ((if q.id = r.id then r else q).id = r.id) = false := by
          rw [if_neg hq]
          simpa using hq
        rw [this]
        exact ih hany2
  · rw [if_neg hany]
    have hnone : lookupUser t r.id = none := by
      apply lookupUser_not_mem
      intro q hq hcon
      exact hany (List.any_eq_true.mpr ⟨q, hq, by simpa using hcon⟩)
    rw [lookupUser_append_none hnone]
    unfold lookupUser
    rw [List.find?_cons]
    simp

theorem lookupUser_upsert_ne (t : List UserRow) (r : UserRow) {x : String}
    (hx : r.id ≠ x) : lookupUser (upsert_user t r) x = lookupUser t x := by
  unfold upsert_user
  by_cases hany : t.any (fun q => decide (q.id = r.id)) = true
  · simp only [hany, if_true]
    apply lookupUser_map_pres
    · intro q
      by_cases hq : q.id = r.id
      · rw [if_pos hq, hq]
      · rw [if_neg hq]
    · intro q hq
      rw [if_neg]
      intro hcon
      rw [hcon] at hq
      exact hx hq
  · rw [if_neg hany]
    cases hl : lookupUser t x with
    | some row => exact lookupUser_append_some hl [r]
    | none =>
      rw [lookupUser_append_none hl]
      apply lookupUser_not_mem
      intro q hq
      have : q = r := by simpa using hq
      subst this
      exact hx

theorem lookupUser_touch_ne (t : List UserRow) {y x : String} (hx : y ≠ x) :
    lookupUser (touch_user_active t y) x = lookupUser t x := by
  apply lookupUser_map_pres
  · intro q
    by_cases hq : q.id = y <;> simp [hq]
  · intro q hq
    rw [if_neg]
    intro hcon
    rw [hcon] at hq
    exact hx hq

theorem lookupUser_deactivate_mem (t : List UserRow) {p : List String} {x : String}
    (hx : x ∈ p) : lookupUser (deactivate_missing_users t p) x = lookupUser t x := by
  apply lookupUser_map_pres
  · intro q
    by_cases hq : q.id ∈ p <;> simp [hq]
  · intro q hq
    rw [if_pos]
    rw [hq]
    exact hx

theorem ids_map_pres (t : List UserRow) (f : UserRow → UserRow)
    (hid : ∀ q, (f q).id = q.id) :
    (t.map f).map (fun q => q.id) = t.map (fun q => q.id) := by
  rw [List.map_map]
  exact List.map_congr_left (fun a _ => hid a)

theorem upsert_ids_nodup {t : List UserRow} (r : UserRow)
    (h : (t.map (fun q => q.id)).Nodup) :
    ((upsert_user t r).map (fun q => q.id)).Nodup := by
  unfold upsert_user
  by_cases hany : t.any (fun q => decide (q.id = r.id)) = true
  · simp only [hany, if_true]
    rw [ids_map_pres]
    · exact h
    · intro q
      by_cases hq : q.id = r.id
      · rw [if_pos hq, hq]
      · rw [if_neg hq]
  · rw [if_neg hany]
    rw [List.map_append]
    rw [List.nodup_append]
    refine ⟨h, List.nodup_singleton _, ?_⟩
    intro a ha hb
    have hra : a = r.id := by simpa using hb
    subst hra
    rcases List.mem_map.mp ha with ⟨q, hq, hqid⟩
    exact hany (List.any_eq_true.mpr ⟨q, hq, by simpa using hqid⟩)

theorem touch_ids (t : List UserRow) (y : String) :
    (touch_user_active t y).map (fun q => q.id) = t.map (fun q => q.id) := by
  apply ids_map_pres
  intro q
  by_cases hq : q.id = y <;> simp [hq]

theorem deactivate_ids (t : List UserRow) (p : List String) :
    (deactivate_missing_users t p).map (fun q => q.id) = t.map (fun q => q.id) := by
  apply ids_map_pres
  intro q
  by_cases hq : q.id ∈ p <;> simp [hq]

theorem lookup_of_mem_nodup {t : List UserRow} {row : UserRow}
    (hnd : (t.map (fun q => q.id)).Nodup) (hmem : row ∈ t) :
    lookupUser t row.id = some row := by
  induction t with
  | nil => exact absurd hmem (List.not_mem_nil row)
  | cons q rest ih =>
    rw [List.map_cons, List.nodup_cons] at hnd
    rcases List.mem_cons.mp hmem with rfl | hrest
    · unfold lookupUser
      rw [List.find?_cons]
      simp
    · have hne : q.id ≠ row.id := by
        intro hcon
        exact hnd.1 (hcon ▸ List.mem_map.mpr ⟨row, hrest, rfl⟩)
      unfold lookupUser
      rw [List.find?_cons]
      have : decide (q.id = row.id) = false := by simpa using hne
      rw [this]
      exact ih hnd.2 hrest

theorem mem_eq_of_lookup_nodup {t : List UserRow} {row q : UserRow} {x : String}
    (hnd : (t.map (fun r => r.id)).Nodup) (hl : lookupUser t x = some row)
    (hq : q ∈ t) (hqx : q.id = x) : q = row := by
  have := lookup_of_mem_nodup hnd hq
  rw [hqx, hl] at this
  exact (Option.some.inj this).symm

end ExtraUsers

namespace ExtraUsers

theorem lookupUser_touch_self (t : List UserRow) (x : String) :
    lookupUser (touch_user_active t x) x =
      (lookupUser t x).map (fun q => { q with active := true }) := by
  induction t with
  | nil => rfl
  | cons q rest ih =>
    unfold touch_user_active at ih ⊢
    by_cases hq : q.id = x
    · unfold lookupUser
      simp only [List.map_cons, List.find?_cons]
      simp [hq]
    · unfold lookupUser
      simp only [List.map_cons, List.find?_cons, if_neg hq]
      have hd : decide (q.id = x) = false := by simpa using hq
      rw [hd]
      exact ih

theorem touch_noop {t : List UserRow} {x : String}
    (h : ∀ q ∈ t, q.id = x → q.active = true) : touch_user_active t x = t := by
  unfold touch_user_active
  have he : t.map (fun q => if q.id = x then { q with active := true } else q) =
      t.map id := by
    apply List.map_congr_left
    intro a ha
    by_cases hq : a.id = x
    · rw [if_pos hq]
      exact user_eta_set_active (h a ha hq)
    · rw [if_neg hq]
      rfl
  rw [he, List.map_id]

theorem deactivate_inactive (t : List UserRow) (p : List String) :
    ∀ q ∈ deactivate_missing_users t p, q.id ∉ p → q.active = false := by
  intro q hq hnp
  unfold deactivate_missing_users at hq
  rcases List.mem_map.mp hq with ⟨q0, hq0, hmapped⟩
  by_cases h0 : q0.id ∈ p
  · rw [if_pos h0] at hmapped
    subst hmapped
    exact absurd h0 hnp
  · rw [if_neg h0] at hmapped
    subst hmapped
    rfl

theorem deactivate_noop {t : List UserRow} {p : List String}
    (h : ∀ q ∈ t, q.id ∉ p → q.active = false) : deactivate_missing_users t p = t := by
  unfold deactivate_missing_users
  have he : t.map (fun q => if q.id ∈ p then q else { q with active := false }) =
      t.map id := by
    apply List.map_congr_left
    intro a ha
    by_cases hq : a.id ∈ p
    · rw [if_pos hq]
      rfl
    · rw [if_neg hq]
      exact user_eta_set_inactive (h a ha hq)
  rw [he, List.map_id]

theorem usersRun_entries (cfg : SyncCfg) (now : String) (users : List DirUser) :
    ∀ st : UsersPass,
    (users.foldl (usersStep cfg now) st).entries =
      st.entries ++ keptRecords cfg now users := by
  induction users with
  | nil => intro st; simp [keptRecords]
  | cons u rest ih =>
    intro st
    rw [List.foldl_cons, ih]
    unfold keptRecords usersStep
    rw [List.filterMap_cons]
    cases hk : keepUser cfg now u with
    | none => rfl
    | some r => simp

theorem usersRun_present (cfg : SyncCfg) (now : String) (users : List DirUser) :
    ∀ st : UsersPass,
    (users.foldl (usersStep cfg now) st).present =
      st.present ++ (keptRecords cfg now users).map (fun r => r.id) := by
  induction users with
  | nil => intro st; simp [keptRecords]
  | cons u rest ih =>
    intro st
    rw [List.foldl_cons, ih]
    unfold keptRecords usersStep
    rw [List.filterMap_cons]
    cases hk : keepUser cfg now u with
    | none => rfl
    | some r => simp

theorem usersRun_table_of_no_kept (cfg : SyncCfg) (now : String) (users : List DirUser) :
    ∀ st : UsersPass, keptRecords cfg now users = [] →
    (users.foldl (usersStep cfg now) st).table = st.table := by
  induction users with
  | nil => intro st _; rfl
  | cons u rest ih =>
    intro st hkept
    unfold keptRecords at hkept
    rw [List.filterMap_cons] at hkept
    cases hk : keepUser cfg now u with
    | none =>
      rw [hk] at hkept
      rw [List.foldl_cons]
      have hstep : usersStep cfg now st u = st := by
        unfold usersStep
        rw [hk]
      rw [hstep]
      exact ih st hkept
    | some r =>
      rw [hk] at hkept
      exact absurd hkept (by simp)

theorem usersRun_lookup_pres (cfg : SyncCfg) (now : String) (users : List DirUser)
    {x : String} :
    ∀ st : UsersPass, (∀ r ∈ keptRecords cfg now users, r.id ≠ x) →
    lookupUser (users.foldl (usersStep cfg now) st).table x = lookupUser st.table x := by
  induction users with
  | nil => intro st _; rfl
  | cons u rest ih =>
    intro st hx
    rw [List.foldl_cons]
    have hxrest : ∀ r ∈ keptRecords cfg now rest, r.id ≠ x := by
      intro r hr
      apply hx
      unfold keptRecords
      rw [List.filterMap_cons]
      cases hk : keepUser cfg now u
      · exact hr
      · exact List.mem_cons_of_mem _ hr
    rw [ih _ hxrest]
    unfold usersStep
    cases hk : keepUser cfg now u with
    | none => rfl
    | some r =>
      have hrx : r.id ≠ x := by
        apply hx
        unfold keptRecords
        rw [List.filterMap_cons, hk]
        exact List.mem_cons_self _ _
      dsimp only
      by_cases hch : user_row_changed (lookupUser st.table r.id) r = true
      · rw [if_pos hch]
        exact lookupUser_upsert_ne _ _ hrx
      · rw [if_neg hch]
        exact lookupUser_touch_ne _ hrx

theorem usersRun_table_nodup (cfg : SyncCfg) (now : String) (users : List DirUser) :
    ∀ st : UsersPass, (st.table.map (fun q => q.id)).Nodup →
    ((users.foldl (usersStep cfg now) st).table.map (fun q => q.id)).Nodup := by
  induction users with
  | nil => intro st h; exact h
  | cons u rest ih =>
    intro st h
    rw [List.foldl_cons]
    apply ih
    unfold usersStep
    cases hk : keepUser cfg now u with
    | none => exact h
    | some r =>
      dsimp only
      by_cases hch : user_row_changed (lookupUser st.table r.id) r = true
      · rw [if_pos hch]
        exact upsert_ids_nodup r h
      · rw [if_neg hch]
        rw [touch_ids]
        exact h

end ExtraUsers

namespace ExtraUsers

theorem mem_of_map_eq {α β : Type} {f : α → β} {l1 l2 : List α}
    (h : l1.map f = l2.map f) {a : α} (ha : a ∈ l1) : ∃ b ∈ l2, f b = f a := by
  have hm : f a ∈ l2.map f := by
    rw [← h]
    exact List.mem_map.mpr ⟨a, ha, rfl⟩
  rcases List.mem_map.mp hm with ⟨b, hb, hfb⟩
  exact ⟨b, hb, hfb⟩

theorem usersRun_lookup (cfg : SyncCfg) (now : String) (users : List DirUser) :
    ∀ st : UsersPass,
    ((keptRecords cfg now users).map (fun r => r.id)).Nodup →
    ∀ r ∈ keptRecords cfg now users,
      ∃ row, lookupUser (users.foldl (usersStep cfg now) st).table r.id = some row ∧
        user_row_changed (some row) r = false := by
  induction users with
  | nil =>
    intro st _ r hr
    exact absurd hr (by simp [keptRecords])
  | cons u rest ih =>
    intro st hnd r hr
    rw [List.foldl_cons]
    cases hk : keepUser cfg now u with
    | none =>
      have hkept : keptRecords cfg now (u :: rest) = keptRecords cfg now rest := by
        unfold keptRecords
        rw [List.filterMap_cons, hk]
      rw [hkept] at hnd hr
      have hstep : usersStep cfg now st u = st := by
        unfold usersStep
        rw [hk]
      rw [hstep]
      exact ih st hnd r hr
    | some r0 =>
      have hkept : keptRecords cfg now (u :: rest) = r0 :: keptRecords cfg now rest := by
        unfold keptRecords
        rw [List.filterMap_cons, hk]
      rw [hkept] at hnd hr
      rw [List.map_cons, List.nodup_cons] at hnd
      rcases List.mem_cons.mp hr with rfl | hrrest
      · have hpres : ∀ q ∈ keptRecords cfg now rest, q.id ≠ r.id := by
          intro q hq hcon
          exact hnd.1 (hcon ▸ List.mem_map.mpr ⟨q, hq, rfl⟩)
        rw [usersRun_lookup_pres cfg now rest _ hpres]
        unfold usersStep
        rw [hk]
        dsimp only
        by_cases hch : user_row_changed (lookupUser st.table r.id) r = true
        · rw [if_pos hch]
          exact ⟨r, lookupUser_upsert_self st.table r, urc_self (keepUser_active hk)⟩
        · rw [if_neg hch]
          have hch' : user_row_changed (lookupUser st.table r.id) r = false := by
            cases hb : user_row_changed (lookupUser st.table r.id) r
            · rfl
            · exact absurd hb hch
          cases hl : lookupUser st.table r.id with
          | none =>
            rw [hl] at hch'
            exact absurd hch' (by simp [user_row_changed])
          | some row =>
            rw [hl] at hch'
            have hact : row.active = true :=
              (urc_false_fields hch').2.2.2.2.2.2.2.2
            refine ⟨row, ?_, hch'⟩
            rw [lookupUser_touch_self, hl]
            dsimp only [Option.map]
            rw [user_eta_set_active hact]
      · exact ih _ hnd.2 r hrrest

theorem usersRun_table_fix (cfg : SyncCfg) (now2 : String) (users : List DirUser)
    (T : List UserRow) (hTnd : (T.map (fun q => q.id)).Nodup) :
    ∀ st : UsersPass, st.table = T →
    (∀ r ∈ keptRecords cfg now2 users,
      ∃ row, lookupUser T r.id = some row ∧ user_row_changed (some row) r = false) →
    (users.foldl (usersStep cfg now2) st).table = T := by
  induction users with
  | nil =>
    intro st h _
    exact h
  | cons u rest ih =>
    intro st hst hT
    rw [List.foldl_cons]
    refine ih _ ?_ ?_
    · unfold usersStep
      cases hk : keepUser cfg now2 u with
      | none => exact hst
      | some r =>
        dsimp only
        have hrk : r ∈ keptRecords cfg now2 (u :: rest) := by
          unfold keptRecords
          rw [List.filterMap_cons, hk]
          exact List.mem_cons_self _ _
        rcases hT r hrk with ⟨row, hl, hch⟩
        rw [hst, hl]
        have hcond : ¬ (user_row_changed (some row) r = true) := by
          rw [hch]
          simp
        rw [if_neg hcond]
        apply touch_noop
        intro q hq hqid
        have hqrow : q = row := mem_eq_of_lookup_nodup hTnd hl hq hqid
        rw [hqrow]
        exact (urc_false_fields hch).2.2.2.2.2.2.2.2
    · intro r hr
      apply hT
      unfold keptRecords
      rw [List.filterMap_cons]
      cases hk : keepUser cfg now2 u
      · exact hr
      · exact List.mem_cons_of_mem _ hr

end ExtraUsers

namespace ExtraUsers

theorem update_users_again (cfg : SyncCfg) (now1 now2 : String) (users : List DirUser)
    (db0 db1 : Db)
    (hdb1 : db1.users = (update_users_db cfg now1 users db0).1.users)
    (hk1 : ((keptRecords cfg now1 users).map (fun r => r.id)).Nodup)
    (hd0 : (db0.users.map (fun q => q.id)).Nodup) :
    (update_users_db cfg now2 users db1).1.users = db1.users := by
  have hids : (keptRecords cfg now2 users).map (fun r => r.id) =
      (keptRecords cfg now1 users).map (fun r => r.id) :=
    keptRecords_ids cfg now2 now1 users
  have hpres1 : (users.foldl (usersStep cfg now1) ⟨db0.users, [], []⟩).present
      = (keptRecords cfg now1 users).map (fun r => r.id) := by
    simpa using usersRun_present cfg now1 users ⟨db0.users, [], []⟩
  have hpres2 : (users.foldl (usersStep cfg now2) ⟨db1.users, [], []⟩).present
      = (keptRecords cfg now1 users).map (fun r => r.id) := by
    rw [← hids]
    simpa using usersRun_present cfg now2 users ⟨db1.users, [], []⟩
  have e1 : (update_users_db cfg now1 users db0).1.users =
      (if (users.foldl (usersStep cfg now1) ⟨db0.users, [], []⟩).present ≠ [] then
        deactivate_missing_users
          (users.foldl (usersStep cfg now1) ⟨db0.users, [], []⟩).table
          (users.foldl (usersStep cfg now1) ⟨db0.users, [], []⟩).present
      else (users.foldl (usersStep cfg now1) ⟨db0.users, [], []⟩).table) := rfl
  have e2 : (update_users_db cfg now2 users db1).1.users =
      (if (users.foldl (usersStep cfg now2) ⟨db1.users, [], []⟩).present ≠ [] then
        deactivate_missing_users
          (users.foldl (usersStep cfg now2) ⟨db1.users, [], []⟩).table
          (users.foldl (usersStep cfg now2) ⟨db1.users, [], []⟩).present
      else (users.foldl (usersStep cfg now2) ⟨db1.users, [], []⟩).table) := rfl
  by_cases hemp : keptRecords cfg now1 users = []
  · have hemp2 : keptRecords cfg now2 users = [] := by
      have hmap : (keptRecords cfg now2 users).map (fun r => r.id) = [] := by
        rw [hids, hemp]
        rfl
      exact List.map_eq_nil_iff.mp hmap
    have ht2 : (users.foldl (usersStep cfg now2) ⟨db1.users, [], []⟩).table = db1.users :=
      usersRun_table_of_no_kept cfg now2 users _ hemp2
    have hp2 : (users.foldl (usersStep cfg now2) ⟨db1.users, [], []⟩).present = [] := by
      rw [hpres2, hemp]
      rfl
    rw [e2, if_neg (by rw [hp2]; simp), ht2]
  · have hT1nd : ((users.foldl (usersStep cfg now1) ⟨db0.users, [], []⟩).table.map
        (fun q => q.id)).Nodup :=
      usersRun_table_nodup cfg now1 users ⟨db0.users, [], []⟩ hd0
    have hp1ne : (users.foldl (usersStep cfg now1) ⟨db0.users, [], []⟩).present ≠ [] := by
      rw [hpres1]
      intro hcon
      exact hemp (List.map_eq_nil_iff.mp hcon)
    have htab1 : db1.users =
        deactivate_missing_users
          (users.foldl (usersStep cfg now1) ⟨db0.users, [], []⟩).table
          ((keptRecords cfg now1 users).map (fun r => r.id)) := by
      rw [hdb1, e1, if_pos hp1ne, hpres1]
    have hdb1nd : (db1.users.map (fun q => q.id)).Nodup := by
      rw [htab1, deactivate_ids]
      exact hT1nd
    have hT : ∀ r ∈ keptRecords cfg now2 users,
        ∃ row, lookupUser db1.users r.id = some row ∧
          user_row_changed (some row) r = false := by
      intro r2 hr2
      rcases mem_of_map_eq (keptRecords_stripT cfg now2 now1 users) hr2 with ⟨r1, hr1, hs⟩
      have hid12 : r1.id = r2.id := congrArg (fun q => q.id) hs
      rcases usersRun_lookup cfg now1 users ⟨db0.users, [], []⟩ hk1 r1 hr1 with
        ⟨row, hl, hch⟩
      refine ⟨row, ?_, ?_⟩
      · rw [htab1, ← hid12]
        rw [lookupUser_deactivate_mem]
        · exact hl
        · exact List.mem_map.mpr ⟨r1, hr1, rfl⟩
      · rw [← urc_stripT hs]
        exact hch
    have hfix : (users.foldl (usersStep cfg now2) ⟨db1.users, [], []⟩).table = db1.users :=
      usersRun_table_fix cfg now2 users db1.users hdb1nd ⟨db1.users, [], []⟩ rfl hT
    have hp2ne : (users.foldl (usersStep cfg now2) ⟨db1.users, [], []⟩).present ≠ [] := by
      rw [hpres2]
      intro hcon
      exact hemp (List.map_eq_nil_iff.mp hcon)
    rw [e2, if_pos hp2ne, hfix, hpres2]
    apply deactivate_noop
    intro q hq hnp
    rw [htab1] at hq
    exact deactivate_inactive _ _ q hq hnp

end ExtraUsers

namespace ExtraUsers

theorem map_stripT_proj {α : Type} {es1 es2 : List UserRow}
    (h : es1.map stripT = es2.map stripT) (f : UserRow → α)
    (hf : ∀ r, f (stripT r) = f r) : es1.map f = es2.map f := by
  calc es1.map f = es1.map (f ∘ stripT) := List.map_congr_left (fun a _ => (hf a).symm)
    _ = (es1.map stripT).map f := (List.map_map _ _ _).symm
    _ = (es2.map stripT).map f := by rw [h]
    _ = es2.map (f ∘ stripT) := List.map_map _ _ _
    _ = es2.map f := List.map_congr_left (fun a _ => hf a)

theorem filter_stripT_pres {es1 es2 : List UserRow}
    (h : es1.map stripT = es2.map stripT) (p : UserRow → Bool)
    (hp : ∀ r, p (stripT r) = p r) :
    (es1.filter p).map stripT = (es2.filter p).map stripT := by
  have e1 : (es1.map stripT).filter p = (es1.filter p).map stripT := by
    rw [List.filter_map]
    congr 1
    apply List.filter_congr
    intro a _
    exact hp a
  have e2 : (es2.map stripT).filter p = (es2.filter p).map stripT := by
    rw [List.filter_map]
    congr 1
    apply List.filter_congr
    intro a _
    exact hp a
  rw [← e1, ← e2, h]

theorem primaryGroupEntries_stripT {es1 es2 : List UserRow}
    (h : es1.map stripT = es2.map stripT) :
    primaryGroupEntries es1 = primaryGroupEntries es2 := by
  have hg : ∀ g : Int, usersOfGid es1 g = usersOfGid es2 g := by
    intro g
    unfold usersOfGid
    have hfl := filter_stripT_pres h (fun r => decide (r.gid = g)) (fun r => rfl)
    exact map_stripT_proj hfl (fun r => r.username) (fun r => rfl)
  have hkeys : gidKeys es1 = gidKeys es2 := by
    unfold gidKeys
    rw [map_stripT_proj h (fun r => r.gid) (fun r => rfl)]
  unfold primaryGroupEntries primaryName
  rw [hkeys]
  apply List.map_congr_left
  intro g _
  rw [hg g]

theorem find?_key_of_mem {α κ : Type} [DecidableEq κ] (key : α → κ) :
    ∀ {l : List α} {x : κ}, x ∈ l.map key →
    ∃ r, l.find? (fun q => decide (key q = x)) = some r ∧ key r = x := by
  intro l
  induction l with
  | nil =>
    intro x hx
    exact absurd hx (by simp)
  | cons a rest ih =>
    intro x hx
    by_cases ha : key a = x
    · exact ⟨a, by rw [List.find?_cons]; simp [ha], ha⟩
    · have hx2 : x ∈ rest.map key := by
        rcases List.mem_map.mp hx with ⟨b, hb, hkb⟩
        rcases List.mem_cons.mp hb with rfl | hbr
        · exact absurd hkb ha
        · exact List.mem_map.mpr ⟨b, hbr, hkb⟩
      rcases ih hx2 with ⟨r, hr, hkr⟩
      refine ⟨r, ?_, hkr⟩
      rw [List.find?_cons]
      have hd : decide (key a = x) = false := by simpa using ha
      rw [hd]
      exact hr

theorem find?_key_self {α κ : Type} [DecidableEq κ] (key : α → κ) :
    ∀ {l : List α}, (l.map key).Nodup → ∀ {r}, r ∈ l →
    l.find? (fun q => decide (key q = key r)) = some r := by
  intro l
  induction l with
  | nil =>
    intro _ r hr
    exact absurd hr (List.not_mem_nil r)
  | cons a rest ih =>
    intro hnd r hr
    rw [List.map_cons, List.nodup_cons] at hnd
    rcases List.mem_cons.mp hr with rfl | hrr
    · rw [List.find?_cons]
      simp
    · have hne : key a ≠ key r := by
        intro hc
        exact hnd.1 (hc ▸ List.mem_map.mpr ⟨r, hrr, rfl⟩)
      rw [List.find?_cons]
      have hd : decide (key a = key r) = false := by simpa using hne
      rw [hd]
      exact ih hnd.2 hrr

theorem find?_congr_map {α β : Type} (f : α → β) (pf : β → Bool) :
    ∀ {l1 l2 : List α}, l1.map f = l2.map f →
    (l1.find? (fun a => pf (f a))).map f = (l2.find? (fun a => pf (f a))).map f := by
  intro l1
  induction l1 with
  | nil =>
    intro l2 h
    cases l2 with
    | nil => rfl
    | cons b bs => exact absurd h (by simp)
  | cons a as ih =>
    intro l2 h
    cases l2 with
    | nil => exact absurd h (by simp)
    | cons b bs =>
      simp only [List.map_cons, List.cons.injEq] at h
      rw [List.find?_cons, List.find?_cons, h.1]
      cases hp : pf (f b) with
      | true => simp [h.1]
      | false => exact ih h.2

theorem any_key_eq_true {α κ : Type} [DecidableEq κ] (key : α → κ) (l : List α) (x : κ) :
    l.any (fun q => decide (key q = x)) = true ↔ x ∈ l.map key := by
  rw [List.any_eq_true]
  constructor
  · rintro ⟨q, hq, hd⟩
    exact List.mem_map.mpr ⟨q, hq, by simpa using hd⟩
  · rintro hx
    rcases List.mem_map.mp hx with ⟨q, hq, hk⟩
    exact ⟨q, hq, by simpa using hk⟩

def stripTG (r : GroupRow) : GroupRow := { r with updated_at := "" }

theorem placeholderFrom_ids : ∀ (l : List GroupRow) (k : Int),
    (placeholderFrom k l).map (fun q => q.group_id) = l.map (fun q => q.group_id) := by
  intro l
  induction l with
  | nil => intro k; rfl
  | cons q rest ih =>
    intro k
    unfold placeholderFrom
    simp only [List.map_cons, ih]

theorem groupIds_map_pres (t : List GroupRow) (f : GroupRow → GroupRow)
    (hid : ∀ q, (f q).group_id = q.group_id) :
    (t.map f).map (fun q => q.group_id) = t.map (fun q => q.group_id) := by
  rw [List.map_map]
  exact List.map_congr_left (fun a _ => hid a)

theorem placeholderFrom_filter_map {α : Type} (p : String → Bool) (f : GroupRow → α)
    (hf : ∀ (q : GroupRow) (v : Int), p q.group_id = true → f { q with gid := v } = f q) :
    ∀ (l : List GroupRow) (k : Int),
    ((placeholderFrom k l).filter (fun q => p q.group_id)).map f =
      (l.filter (fun q => p q.group_id)).map f := by
  intro l
  induction l with
  | nil => intro k; rfl
  | cons q rest ih =>
    intro k
    unfold placeholderFrom
    rw [List.filter_cons, List.filter_cons]
    have hgid : ({ q with gid := -k } : GroupRow).group_id = q.group_id := rfl
    rw [hgid]
    cases hp : p q.group_id with
    | true =>
      rw [if_pos rfl, if_pos rfl, List.map_cons, List.map_cons, hf q (-k) hp, ih]
    | false =>
      rw [if_neg (by simp), if_neg (by simp)]
      exact ih (k + 1)

end ExtraUsers

namespace ExtraUsers

/-- The sequence of gids chosen by the `update_groups_db` loop, as a
function of the sorted group-id list and the threaded `used` set. -/
def csOf (h : String → Nat) (start e : Int) : List String → List Int → Option (List Int)
  | [], _ => some []
  | gid :: rest, used =>
      match deterministic_gid h gid start e used with
      | none => none
      | some c => (csOf h start e rest (used ++ [c])).map (fun cs => c :: cs)

/-- The sequence of `INSERT ... ON CONFLICT` upserts of the group loop. -/
def upsertsAll (gs : List GroupRow) (recs : List GroupRow) : List GroupRow :=
  recs.foldl upsert_group gs

/-- The row that a base-table row becomes after all upserts: the
matching fresh record if one exists, the row itself otherwise. -/
def substG (recs : List GroupRow) (q : GroupRow) : GroupRow :=
  ((recs.find? (fun r => decide (r.group_id = q.group_id))).getD q)

theorem csOf_length (h : String → Nat) (start e : Int) :
    ∀ (ids : List String) (used : List Int) {cs : List Int},
    csOf h start e ids used = some cs → cs.length = ids.length := by
  intro ids
  induction ids with
  | nil =>
    intro used cs hcs
    have : cs = [] := by simpa [csOf] using hcs.symm
    simp [this]
  | cons gid rest ih =>
    intro used cs hcs
    unfold csOf at hcs
    cases hd : deterministic_gid h gid start e used with
    | none => rw [hd] at hcs; exact absurd hcs (by simp)
    | some c =>
      rw [hd] at hcs
      dsimp only at hcs
      cases hrest : csOf h start e rest (used ++ [c]) with
      | none => rw [hrest] at hcs; exact absurd hcs (by simp)
      | some cs2 =>
        rw [hrest] at hcs
        have hcs2 : cs = c :: cs2 := by simpa using hcs.symm
        subst hcs2
        simp [ih (used ++ [c]) hrest]

theorem groupsFold_decomp (h : String → Nat) (cfg : SyncCfg) (now : String) :
    ∀ (gl : List DirGroup) (gs : List GroupRow) (used : List Int),
    groupsFold h cfg now gl gs used =
      (csOf h cfg.group_start_gid cfg.group_end_gid (gl.map (fun g => g.id)) used).map
        (fun cs => (upsertsAll gs (List.zipWith (mkGroupRow now) gl cs), used ++ cs)) := by
  intro gl
  induction gl with
  | nil =>
    intro gs used
    simp [groupsFold, csOf, upsertsAll]
  | cons g rest ih =>
    intro gs used
    simp only [List.map_cons]
    unfold groupsFold csOf
    cases hd : deterministic_gid h g.id cfg.group_start_gid cfg.group_end_gid used with
    | none => rfl
    | some c =>
      dsimp only
      rw [ih]
      cases hcs : csOf h cfg.group_start_gid cfg.group_end_gid
          (rest.map (fun g => g.id)) (used ++ [c]) with
      | none => rfl
      | some cs => simp [upsertsAll, List.append_assoc]

theorem zipWith_fst_map {α β γ : Type} (f : α → γ) :
    ∀ (as : List α) (bs : List β), as.length = bs.length →
    List.zipWith (fun a _ => f a) as bs = as.map f := by
  intro as
  induction as with
  | nil => intro bs _; rfl
  | cons a as2 ih =>
    intro bs hlen
    cases bs with
    | nil => exact absurd hlen (by simp)
    | cons b bs2 =>
      simp only [List.zipWith_cons_cons, List.map_cons]
      rw [ih bs2 (by simpa using hlen)]

theorem zipWith_snd (α β : Type) :
    ∀ (as : List α) (bs : List β), as.length = bs.length →
    List.zipWith (fun _ b => b) as bs = bs := by
  intro as
  induction as with
  | nil =>
    intro bs hlen
    cases bs with
    | nil => rfl
    | cons b bs2 => exact absurd hlen (by simp)
  | cons a as2 ih =>
    intro bs hlen
    cases bs with
    | nil => exact absurd hlen (by simp)
    | cons b bs2 =>
      simp only [List.zipWith_cons_cons]
      rw [ih bs2 (by simpa using hlen)]

theorem mkRecs_ids (now : String) (gl : List DirGroup) (cs : List Int)
    (hlen : gl.length = cs.length) :
    (List.zipWith (mkGroupRow now) gl cs).map (fun r => r.group_id) =
      gl.map (fun g => g.id) := by
  rw [List.map_zipWith]
  exact zipWith_fst_map (fun g => g.id) gl cs hlen

theorem mkRecs_gids (now : String) (gl : List DirGroup) (cs : List Int)
    (hlen : gl.length = cs.length) :
    (List.zipWith (mkGroupRow now) gl cs).map (fun r => r.gid) = cs := by
  rw [List.map_zipWith]
  exact zipWith_snd DirGroup Int gl cs hlen

theorem mkRecs_stripTG (now1 now2 : String) (gl : List DirGroup) (cs : List Int) :
    (List.zipWith (mkGroupRow now2) gl cs).map stripTG =
      (List.zipWith (mkGroupRow now1) gl cs).map stripTG := by
  rw [List.map_zipWith, List.map_zipWith]
  congr 1

theorem mkRecs_active (now : String) :
    ∀ (gl : List DirGroup) (cs : List Int),
    ∀ r ∈ List.zipWith (mkGroupRow now) gl cs, r.active = true := by
  intro gl
  induction gl with
  | nil =>
    intro cs r hr
    exact absurd hr (by simp)
  | cons g rest ih =>
    intro cs r hr
    cases cs with
    | nil => exact absurd hr (by simp)
    | cons c cs2 =>
      rw [List.zipWith_cons_cons] at hr
      rcases List.mem_cons.mp hr with rfl | hrr
      · rfl
      · exact ih cs2 r hrr

end ExtraUsers

namespace ExtraUsers

theorem upsertsAll_decomp :
    ∀ (recs : List GroupRow) (B : List GroupRow),
    ((recs.map (fun r => r.group_id)).Nodup) →
    upsertsAll B recs =
      B.map (substG recs) ++
        recs.filter (fun r => !B.any (fun q => decide (q.group_id = r.group_id))) := by
  intro recs
  induction recs with
  | nil =>
    intro B _
    unfold upsertsAll
    simp only [List.foldl_nil, List.filter_nil, List.append_nil]
    have he : B.map (substG []) = B.map id := List.map_congr_left (fun a _ => rfl)
    rw [he, List.map_id]
  | cons r rest ih =>
    intro B hnd
    rw [List.map_cons, List.nodup_cons] at hnd
    have hstep : upsertsAll B (r :: rest) = upsertsAll (upsert_group B r) rest := rfl
    rw [hstep, ih (upsert_group B r) hnd.2]
    unfold upsert_group
    have hnone : rest.find? (fun x => decide (x.group_id = r.group_id)) = none := by
      rw [List.find?_eq_none]
      intro x hx
      simp only [decide_eq_true_eq]
      intro hc
      exact hnd.1 (hc ▸ List.mem_map.mpr ⟨x, hx, rfl⟩)
    by_cases hany : B.any (fun q => decide (q.group_id = r.group_id)) = true
    · rw [if_pos hany]
      have halpha :
          (B.map (fun q => if q.group_id = r.group_id then r else q)).map (substG rest)
            = B.map (substG (r :: rest)) := by
        rw [List.map_map]
        apply List.map_congr_left
        intro q _
        show substG rest (if q.group_id = r.group_id then r else q) = substG (r :: rest) q
        by_cases hq : q.group_id = r.group_id
        · rw [if_pos hq]
          unfold substG
          rw [List.find?_cons]
          have hd : decide (r.group_id = q.group_id) = true := by simp [hq]
          rw [hd, hnone]
          rfl
        · rw [if_neg hq]
          unfold substG
          rw [List.find?_cons]
          have hd : decide (r.group_id = q.group_id) = false := by
            simp only [decide_eq_false_iff_not]
            intro hc
            exact hq hc.symm
          rw [hd]
      have hbeta :
          rest.filter (fun x =>
            !(B.map (fun q => if q.group_id = r.group_id then r else q)).any
              (fun q => decide (q.group_id = x.group_id)))
            = rest.filter (fun x => !B.any (fun q => decide (q.group_id = x.group_id))) := by
        apply List.filter_congr
        intro x _
        congr 1
        rw [List.any_map]
        have hfun : ((fun q => decide (q.group_id = x.group_id)) ∘
              (fun q => if q.group_id = r.group_id then r else q))
            = (fun q : GroupRow => decide (q.group_id = x.group_id)) := by
          funext q
          show decide ((if q.group_id = r.group_id then r else q).group_id = x.group_id)
            = decide (q.group_id = x.group_id)
          by_cases hq : q.group_id = r.group_id
          · rw [if_pos hq, hq]
          · rw [if_neg hq]
        rw [hfun]
      have hrdrop : (r :: rest).filter
            (fun x => !B.any (fun q => decide (q.group_id = x.group_id)))
          = rest.filter (fun x => !B.any (fun q => decide (q.group_id = x.group_id))) := by
        rw [List.filter_cons, if_neg (by rw [hany]; simp)]
      rw [halpha, hbeta, hrdrop]
    · rw [if_neg hany]
      have hsr : substG rest r = r := by
        unfold substG
        rw [hnone]
        rfl
      have hone : ([r].map (substG rest)) = [r] := by simp [hsr]
      have hmapB : B.map (substG rest) = B.map (substG (r :: rest)) := by
        apply List.map_congr_left
        intro q hq
        unfold substG
        rw [List.find?_cons]
        have hne : decide (r.group_id = q.group_id) = false := by
          simp only [decide_eq_false_iff_not]
          intro hc
          apply hany
          exact List.any_eq_true.mpr ⟨q, hq, by simpa using hc.symm⟩
        rw [hne]
      have hfilt : rest.filter (fun x =>
            !(B ++ [r]).any (fun q => decide (q.group_id = x.group_id)))
          = rest.filter (fun x => !B.any (fun q => decide (q.group_id = x.group_id))) := by
        apply List.filter_congr
        intro x hx
        have hrx : decide (r.group_id = x.group_id) = false := by
          simp only [decide_eq_false_iff_not]
          intro hc
          exact hnd.1 (hc ▸ List.mem_map.mpr ⟨x, hx, rfl⟩)
        rw [List.any_append]
        simp [hrx]
      have hf : B.any (fun q => decide (q.group_id = r.group_id)) = false := by
        cases hb : B.any (fun q => decide (q.group_id = r.group_id))
        · rfl
        · exact absurd hb hany
      have hrcons : (r :: rest).filter
            (fun x => !B.any (fun q => decide (q.group_id = x.group_id)))
          = r :: rest.filter (fun x => !B.any (fun q => decide (q.group_id = x.group_id))) := by
        rw [List.filter_cons, if_pos (by rw [hf]; rfl)]
      rw [List.map_append, hone, hmapB, hfilt, hrcons, List.append_assoc]
      rfl

end ExtraUsers

namespace ExtraUsers

theorem substG_id (recs : List GroupRow) (q : GroupRow) :
    (substG recs q).group_id = q.group_id := by
  unfold substG
  cases hf : recs.find? (fun r => decide (r.group_id = q.group_id)) with
  | none => rfl
  | some r =>
    have hp := List.find?_some hf
    simp only [decide_eq_true_eq] at hp
    simpa using hp

theorem substG_of_mem {recs : List GroupRow} {q : GroupRow} {r : GroupRow}
    (hf : recs.find? (fun x => decide (x.group_id = q.group_id)) = some r) :
    substG recs q = r := by
  unfold substG
  rw [hf]
  rfl

theorem substG_of_not_mem {recs : List GroupRow} {q : GroupRow}
    (hq : q.group_id ∉ recs.map (fun r => r.group_id)) :
    substG recs q = q := by
  unfold substG
  have hnone : recs.find? (fun x => decide (x.group_id = q.group_id)) = none := by
    rw [List.find?_eq_none]
    intro x hx
    simp only [decide_eq_true_eq]
    intro hc
    exact hq (hc ▸ List.mem_map.mpr ⟨x, hx, rfl⟩)
  rw [hnone]
  rfl

theorem deactivate_groups_ids (gs : List GroupRow) (ids : List String) :
    (deactivate_groups gs ids).map (fun q => q.group_id) = gs.map (fun q => q.group_id) := by
  unfold deactivate_groups
  by_cases h : ids = []
  · rw [if_pos h]
  · rw [if_neg h]
    apply groupIds_map_pres
    intro q
    by_cases hq : q.group_id ∈ ids
    · rw [if_pos hq]
    · rw [if_neg hq]

theorem placeholderFrom_idem : ∀ (l : List GroupRow) (k : Int),
    placeholderFrom k (placeholderFrom k l) = placeholderFrom k l := by
  intro l
  induction l with
  | nil => intro k; rfl
  | cons q rest ih =>
    intro k
    simp only [placeholderFrom]
    rw [ih (k + 1)]

theorem upsertsAll_mem_ids {recs B : List GroupRow}
    (hnd : (recs.map (fun r => r.group_id)).Nodup)
    {x : String} (hx : x ∈ recs.map (fun r => r.group_id)) :
    x ∈ (upsertsAll B recs).map (fun r => r.group_id) := by
  rw [upsertsAll_decomp recs B hnd, List.map_append, List.mem_append]
  by_cases hB : B.any (fun q => decide (q.group_id = x)) = true
  · left
    rw [groupIds_map_pres _ _ (fun q => substG_id recs q)]
    exact (any_key_eq_true _ B x).mp hB
  · right
    rcases List.mem_map.mp hx with ⟨r, hr, hrid⟩
    apply List.mem_map.mpr
    refine ⟨r, ?_, hrid⟩
    rw [List.mem_filter]
    refine ⟨hr, ?_⟩
    have hfalse : B.any (fun q => decide (q.group_id = r.group_id)) = false := by
      cases hb : B.any (fun q => decide (q.group_id = r.group_id))
      · rfl
      · rw [hrid] at hb
        exact absurd hb hB
    rw [hfalse]
    rfl

theorem findRec_strip {recs1 recs2 : List GroupRow}
    (hs : recs2.map stripTG = recs1.map stripTG) (x : String)
    {r1 r2 : GroupRow}
    (h1 : recs1.find? (fun r => decide (r.group_id = x)) = some r1)
    (h2 : recs2.find? (fun r => decide (r.group_id = x)) = some r2) :
    stripTG r2 = stripTG r1 := by
  have hcongr := find?_congr_map stripTG (fun b => decide (b.group_id = x)) hs
  have e1 : recs1.find? (fun a => decide ((stripTG a).group_id = x)) = some r1 := h1
  have e2 : recs2.find? (fun a => decide ((stripTG a).group_id = x)) = some r2 := h2
  rw [e1, e2] at hcongr
  simpa using hcongr

end ExtraUsers

namespace ExtraUsers

theorem dfun_fix (recs : List GroupRow) (glIds : List String)
    (hid : recs.map (fun r => r.group_id) = glIds) :
    ∀ r ∈ recs, (if r.group_id ∈ glIds then r else { r with active := false }) = r := by
  intro r hr
  rw [if_pos]
  rw [← hid]
  exact List.mem_map.mpr ⟨r, hr, rfl⟩

theorem dsub_active_eq (recs : List GroupRow) (glIds : List String)
    (hid : recs.map (fun r => r.group_id) = glIds)
    (hact : ∀ r ∈ recs, r.active = true) (q : GroupRow) :
    (if (substG recs q).group_id ∈ glIds then substG recs q
     else { substG recs q with active := false }).active = decide (q.group_id ∈ glIds) := by
  rw [substG_id]
  by_cases hq : q.group_id ∈ glIds
  · rw [if_pos hq]
    have hq2 : q.group_id ∈ recs.map (fun r => r.group_id) := by
      rw [hid]
      exact hq
    rcases find?_key_of_mem (fun r : GroupRow => r.group_id) hq2 with ⟨r, hf, hkr⟩
    rw [substG_of_mem hf]
    rw [hact r (List.mem_of_find?_eq_some hf)]
    simp [hq]
  · rw [if_neg hq]
    simp [hq]

theorem dsub_gid_eq (recs : List GroupRow) (glIds : List String) (q : GroupRow) :
    decide ((if (substG recs q).group_id ∈ glIds then substG recs q
     else { substG recs q with active := false }).group_id ∈ glIds) =
      decide (q.group_id ∈ glIds) := by
  by_cases hq : (substG recs q).group_id ∈ glIds
  · rw [if_pos hq, substG_id]
  · rw [if_neg hq]
    have h2 : ({ substG recs q with active := false } : GroupRow).group_id = q.group_id := by
      show (substG recs q).group_id = q.group_id
      exact substG_id recs q
    rw [h2]

theorem deact_upserts_filter (B recs : List GroupRow) (glIds : List String)
    (pred : GroupRow → Bool)
    (hnd : (recs.map (fun r => r.group_id)).Nodup)
    (hne : glIds ≠ [])
    (hp1 : ∀ q : GroupRow,
      pred (if (substG recs q).group_id ∈ glIds then substG recs q
            else { substG recs q with active := false }) = decide (q.group_id ∈ glIds))
    (hpY : ∀ r ∈ recs,
      (if r.group_id ∈ glIds then r else { r with active := false }) = r ∧ pred r = true) :
    (deactivate_groups (upsertsAll B recs) glIds).filter pred =
      (B.filter (fun q => decide (q.group_id ∈ glIds))).map
        (fun q => if (substG recs q).group_id ∈ glIds then substG recs q
                  else { substG recs q with active := false })
      ++ recs.filter (fun r => !B.any (fun q => decide (q.group_id = r.group_id))) := by
  unfold deactivate_groups
  rw [if_neg hne]
  rw [upsertsAll_decomp recs B hnd]
  rw [List.map_append, List.filter_append]
  congr 1
  · rw [List.map_map]
    have hcomp : ((fun q : GroupRow => if q.group_id ∈ glIds then q
          else { q with active := false }) ∘ substG recs)
        = (fun q => if (substG recs q).group_id ∈ glIds then substG recs q
                  else { substG recs q with active := false }) := by
      funext q
      rfl
    rw [hcomp]
    rw [List.filter_map]
    congr 1
    apply List.filter_congr
    intro q _
    exact hp1 q
  · have hmape : (recs.filter (fun r =>
          !B.any (fun q => decide (q.group_id = r.group_id)))).map
        (fun q => if q.group_id ∈ glIds then q else { q with active := false })
        = recs.filter (fun r => !B.any (fun q => decide (q.group_id = r.group_id))) := by
      have he : (recs.filter (fun r =>
            !B.any (fun q => decide (q.group_id = r.group_id)))).map
          (fun q => if q.group_id ∈ glIds then q else { q with active := false })
          = (recs.filter (fun r =>
            !B.any (fun q => decide (q.group_id = r.group_id)))).map id := by
        apply List.map_congr_left
        intro r hr
        exact (hpY r (List.mem_of_mem_filter hr)).1
      rw [he, List.map_id]
    rw [hmape]
    apply List.filter_eq_self.mpr
    intro r hr
    exact (hpY r (List.mem_of_mem_filter hr)).2

end ExtraUsers

namespace ExtraUsers

theorem groups_pass_again (G0 recs1 recs2 : List GroupRow) (glIds : List String)
    (hid1 : recs1.map (fun r => r.group_id) = glIds)
    (hid2 : recs2.map (fun r => r.group_id) = glIds)
    (hstrip : recs2.map stripTG = recs1.map stripTG)
    (hndL : glIds.Nodup)
    (hact1 : ∀ r ∈ recs1, r.active = true)
    (hact2 : ∀ r ∈ recs2, r.active = true)
    (hne : glIds ≠ [])
    {α : Type} (f : GroupRow → α)
    (hfs : ∀ a b : GroupRow, stripTG a = stripTG b → f a = f b) :
    ((deactivate_groups
        (upsertsAll (placeholderGids
          (deactivate_groups (upsertsAll (placeholderGids G0) recs1) glIds)) recs2)
        glIds).filter (fun q => q.active)).map f =
      ((deactivate_groups (upsertsAll (placeholderGids G0) recs1) glIds).filter
        (fun q => q.active)).map f := by
  have hnd1 : (recs1.map (fun r => r.group_id)).Nodup := by
    rw [hid1]
    exact hndL
  have hnd2 : (recs2.map (fun r => r.group_id)).Nodup := by
    rw [hid2]
    exact hndL
  have hp1act2 := dsub_active_eq recs2 glIds hid2 hact2
  have hpY2 : ∀ r ∈ recs2,
      (if r.group_id ∈ glIds then r else { r with active := false }) = r ∧
        r.active = true :=
    fun r hr => ⟨dfun_fix recs2 glIds hid2 r hr, hact2 r hr⟩
  have hp1act1 := dsub_active_eq recs1 glIds hid1 hact1
  have hpY1 : ∀ r ∈ recs1,
      (if r.group_id ∈ glIds then r else { r with active := false }) = r ∧
        r.active = true :=
    fun r hr => ⟨dfun_fix recs1 glIds hid1 r hr, hact1 r hr⟩
  have hp1gid1 := dsub_gid_eq recs1 glIds
  have hpYg1 : ∀ r ∈ recs1,
      (if r.group_id ∈ glIds then r else { r with active := false }) = r ∧
        decide (r.group_id ∈ glIds) = true := by
    intro r hr
    refine ⟨dfun_fix recs1 glIds hid1 r hr, ?_⟩
    simp only [decide_eq_true_eq]
    rw [← hid1]
    exact List.mem_map.mpr ⟨r, hr, rfl⟩
  rw [deact_upserts_filter _ recs2 glIds (fun q => q.active) hnd2 hne hp1act2 hpY2]
  have hY2 : recs2.filter (fun r =>
      !(placeholderGids
        (deactivate_groups (upsertsAll (placeholderGids G0) recs1) glIds)).any
        (fun q => decide (q.group_id = r.group_id))) = [] := by
    rw [List.filter_eq_nil_iff]
    intro r hr
    have hx : r.group_id ∈ glIds := by
      rw [← hid2]
      exact List.mem_map.mpr ⟨r, hr, rfl⟩
    have hg2 : r.group_id ∈ (upsertsAll (placeholderGids G0) recs1).map
        (fun q => q.group_id) :=
      upsertsAll_mem_ids hnd1 (by rw [hid1]; exact hx)
    have hg3 : r.group_id ∈ (deactivate_groups (upsertsAll (placeholderGids G0) recs1)
        glIds).map (fun q => q.group_id) := by
      rw [deactivate_groups_ids]
      exact hg2
    have hb2 : r.group_id ∈ (placeholderGids
        (deactivate_groups (upsertsAll (placeholderGids G0) recs1) glIds)).map
        (fun q => q.group_id) := by
      show r.group_id ∈ (placeholderFrom 1
        (deactivate_groups (upsertsAll (placeholderGids G0) recs1) glIds)).map
        (fun q => q.group_id)
      rw [placeholderFrom_ids]
      exact hg3
    have hany : (placeholderGids
        (deactivate_groups (upsertsAll (placeholderGids G0) recs1) glIds)).any
        (fun q => decide (q.group_id = r.group_id)) = true :=
      (any_key_eq_true (fun q : GroupRow => q.group_id) _ r.group_id).mpr hb2
    simp [hany]
  rw [hY2, List.append_nil, List.map_map]
  rw [deact_upserts_filter (placeholderGids G0) recs1 glIds (fun q => q.active)
    hnd1 hne hp1act1 hpY1]
  have hfph : ∀ (q : GroupRow) (v : Int), decide (q.group_id ∈ glIds) = true →
      (f ∘ fun q => if (substG recs2 q).group_id ∈ glIds then substG recs2 q
          else { substG recs2 q with active := false }) { q with gid := v } =
      (f ∘ fun q => if (substG recs2 q).group_id ∈ glIds then substG recs2 q
          else { substG recs2 q with active := false }) q := by
    intro q v hq
    have hq2 : q.group_id ∈ recs2.map (fun r => r.group_id) := by
      rw [hid2]
      simpa using hq
    rcases find?_key_of_mem (fun r : GroupRow => r.group_id) hq2 with ⟨r, hf2, hkr⟩
    have e1 : substG recs2 { q with gid := v } = r := substG_of_mem hf2
    have e2 : substG recs2 q = r := substG_of_mem hf2
    simp only [Function.comp_apply]
    rw [e1, e2]
  have hph : ((placeholderGids
        (deactivate_groups (upsertsAll (placeholderGids G0) recs1) glIds)).filter
        (fun q => decide (q.group_id ∈ glIds))).map
        (f ∘ fun q => if (substG recs2 q).group_id ∈ glIds then substG recs2 q
          else { substG recs2 q with active := false }) =
      ((deactivate_groups (upsertsAll (placeholderGids G0) recs1) glIds).filter
        (fun q => decide (q.group_id ∈ glIds))).map
        (f ∘ fun q => if (substG recs2 q).group_id ∈ glIds then substG recs2 q
          else { substG recs2 q with active := false }) :=
    placeholderFrom_filter_map (fun x => decide (x ∈ glIds))
      (f ∘ fun q => if (substG recs2 q).group_id ∈ glIds then substG recs2 q
        else { substG recs2 q with active := false })
      hfph
      (deactivate_groups (upsertsAll (placeholderGids G0) recs1) glIds) 1
  rw [hph]
  rw [deact_upserts_filter (placeholderGids G0) recs1 glIds
    (fun q => decide (q.group_id ∈ glIds)) hnd1 hne hp1gid1 hpYg1]
  rw [List.map_append, List.map_append, List.map_map, List.map_map]
  congr 1
  · apply List.map_congr_left
    intro q hq
    have hql : decide (q.group_id ∈ glIds) = true := (List.mem_filter.mp hq).2
    have hqm : q.group_id ∈ glIds := by simpa using hql
    have hq1 : q.group_id ∈ recs1.map (fun r => r.group_id) := by
      rw [hid1]
      exact hqm
    rcases find?_key_of_mem (fun r : GroupRow => r.group_id) hq1 with ⟨r1, hf1, hk1⟩
    have e1 : substG recs1 q = r1 := substG_of_mem hf1
    have hr1g : r1.group_id ∈ glIds := by
      rw [hk1]
      exact hqm
    have el1 : (if (substG recs1 q).group_id ∈ glIds then substG recs1 q
        else { substG recs1 q with active := false }) = r1 := by
      rw [e1, if_pos hr1g]
    have hq2 : q.group_id ∈ recs2.map (fun r => r.group_id) := by
      rw [hid2]
      exact hqm
    rcases find?_key_of_mem (fun r : GroupRow => r.group_id) hq2 with ⟨r2, hf2, hk2⟩
    have hf2b : recs2.find? (fun x => decide (x.group_id = r1.group_id)) = some r2 := by
      rw [hk1]
      exact hf2
    have e2 : substG recs2 r1 = r2 := substG_of_mem hf2b
    have hr2g : r2.group_id ∈ glIds := by
      rw [hk2]
      exact hqm
    simp only [Function.comp_apply]
    rw [el1, e2, if_pos (by rw [hk2]; exact hqm)]
    exact hfs r2 r1 (findRec_strip hstrip q.group_id hf1 hf2)
  · apply List.map_congr_left
    intro r hr
    have hrr : r ∈ recs1 := List.mem_of_mem_filter hr
    have hrg : r.group_id ∈ glIds := by
      rw [← hid1]
      exact List.mem_map.mpr ⟨r, hrr, rfl⟩
    have hq2 : r.group_id ∈ recs2.map (fun x => x.group_id) := by
      rw [hid2]
      exact hrg
    rcases find?_key_of_mem (fun x : GroupRow => x.group_id) hq2 with ⟨r2, hf2, hk2⟩
    have e2 : substG recs2 r = r2 := substG_of_mem hf2
    have hself : recs1.find? (fun x => decide (x.group_id = r.group_id)) = some r :=
      find?_key_self (fun x : GroupRow => x.group_id) hnd1 hrr
    simp only [Function.comp_apply]
    rw [e2, if_pos (by rw [hk2]; exact hrg)]
    exact hfs r2 r (findRec_strip hstrip r.group_id hself hf2)

end ExtraUsers

namespace ExtraUsers

/-- The rows inserted for one group by the membership refresh, starting
from the freshly cleared state. -/
def insBlock (emap : List (String × String)) (g : String) (ms : List Member) :
    List (String × String) :=
  ms.foldl (insertMember emap g) []

/-- The concatenated per-group insertion blocks of the refresh loop. -/
def memberBlocks (emap : List (String × String)) (mOf : String → List Member) :
    List GroupRow → List (String × String)
  | [] => []
  | row :: rest => insBlock emap row.group_id (mOf row.email) ++ memberBlocks emap mOf rest

/-- A membership row whose group is not among the refreshed rows. -/
def notInRows (rows : List GroupRow) (pr : String × String) : Bool :=
  !rows.any (fun row => decide (pr.1 = row.group_id))

theorem insertMember_sub (emap : List (String × String)) (g : String)
    (t : List (String × String)) (m : Member) :
    ∀ pr ∈ insertMember emap g t m, pr ∈ t ∨ pr.1 = g := by
  intro pr hpr
  unfold insertMember at hpr
  dsimp only at hpr
  by_cases h1 : strUpper (orElseStr m.status "") ≠ "" ∧
      strUpper (orElseStr m.status "") ≠ "ACTIVE"
  · rw [if_pos h1] at hpr
    exact Or.inl hpr
  · rw [if_neg h1] at hpr
    by_cases h2 : strUpper (orElseStr m.type "") = "USER"
    · rw [if_pos h2] at hpr
      cases hf : assocFind emap (strLower (orElseStr m.email "")) with
      | none =>
        rw [hf] at hpr
        exact Or.inl hpr
      | some uname =>
        rw [hf] at hpr
        dsimp only at hpr
        by_cases h3 : uname ≠ ""
        · rw [if_pos h3] at hpr
          by_cases h4 : (g, uname) ∈ t
          · rw [if_pos h4] at hpr
            exact Or.inl hpr
          · rw [if_neg h4] at hpr
            rcases List.mem_append.mp hpr with h | h
            · exact Or.inl h
            · right
              have hpr2 : pr = (g, uname) := by simpa using h
              rw [hpr2]
        · rw [if_neg h3] at hpr
          exact Or.inl hpr
    · rw [if_neg h2] at hpr
      exact Or.inl hpr

theorem insertMember_append (emap : List (String × String)) (g : String)
    (t1 b : List (String × String)) (m : Member) (ht : ∀ pr ∈ t1, pr.1 ≠ g) :
    insertMember emap g (t1 ++ b) m = t1 ++ insertMember emap g b m := by
  unfold insertMember
  dsimp only
  by_cases h1 : strUpper (orElseStr m.status "") ≠ "" ∧
      strUpper (orElseStr m.status "") ≠ "ACTIVE"
  · rw [if_pos h1, if_pos h1]
  · rw [if_neg h1, if_neg h1]
    by_cases h2 : strUpper (orElseStr m.type "") = "USER"
    · rw [if_pos h2, if_pos h2]
      cases hf : assocFind emap (strLower (orElseStr m.email "")) with
      | none => rfl
      | some uname =>
        dsimp only
        by_cases h3 : uname ≠ ""
        · rw [if_pos h3, if_pos h3]
          by_cases h4 : (g, uname) ∈ b
          · have h5 : (g, uname) ∈ t1 ++ b := List.mem_append.mpr (Or.inr h4)
            rw [if_pos h5, if_pos h4]
          · have h5 : (g, uname) ∉ t1 ++ b := by
              intro hc
              rcases List.mem_append.mp hc with hc1 | hc2
              · exact ht _ hc1 rfl
              · exact h4 hc2
            rw [if_neg h5, if_neg h4, List.append_assoc]
        · rw [if_neg h3, if_neg h3]
    · rw [if_neg h2, if_neg h2]

theorem insertMember_fold_split (emap : List (String × String)) (g : String) :
    ∀ (ms : List Member) (t1 b : List (String × String)),
    (∀ pr ∈ t1, pr.1 ≠ g) →
    ms.foldl (insertMember emap g) (t1 ++ b) = t1 ++ ms.foldl (insertMember emap g) b := by
  intro ms
  induction ms with
  | nil =>
    intro t1 b _
    rfl
  | cons m rest ih =>
    intro t1 b ht
    rw [List.foldl_cons, List.foldl_cons, insertMember_append emap g t1 b m ht]
    exact ih t1 _ ht

theorem insBlock_fold_fst (emap : List (String × String)) (g : String) :
    ∀ (ms : List Member) (t : List (String × String)),
    (∀ pr ∈ t, pr.1 = g) → ∀ pr ∈ ms.foldl (insertMember emap g) t, pr.1 = g := by
  intro ms
  induction ms with
  | nil =>
    intro t ht
    exact ht
  | cons m rest ih =>
    intro t ht
    rw [List.foldl_cons]
    apply ih
    intro pr hpr
    rcases insertMember_sub emap g t m pr hpr with h | h
    · exact ht pr h
    · exact h

theorem insBlock_fst (emap : List (String × String)) (g : String) (ms : List Member) :
    ∀ pr ∈ insBlock emap g ms, pr.1 = g := by
  apply insBlock_fold_fst
  intro pr hpr
  exact absurd hpr (List.not_mem_nil pr)

theorem refresh_step (emap : List (String × String)) (g : String) (ms : List Member)
    (t : List (String × String)) :
    ms.foldl (insertMember emap g) (t.filter (fun p => !decide (p.1 = g))) =
      t.filter (fun p => !decide (p.1 = g)) ++ insBlock emap g ms := by
  have h := insertMember_fold_split emap g ms (t.filter (fun p => !decide (p.1 = g))) []
    (by
      intro pr hpr
      have h2 := (List.mem_filter.mp hpr).2
      simpa using h2)
  simpa [insBlock] using h

end ExtraUsers

namespace ExtraUsers

theorem refresh_decomp (emap : List (String × String)) (mOf : String → List Member) :
    ∀ (rows : List GroupRow) (t0 : List (String × String)),
    ((rows.map (fun r => r.group_id)).Nodup) →
    refreshMembers emap mOf rows t0 =
      t0.filter (notInRows rows) ++ memberBlocks emap mOf rows := by
  intro rows
  induction rows with
  | nil =>
    intro t0 _
    unfold refreshMembers memberBlocks
    rw [List.foldl_nil, List.append_nil]
    symm
    apply List.filter_eq_self.mpr
    intro pr _
    rfl
  | cons row rest ih =>
    intro t0 hnd
    rw [List.map_cons, List.nodup_cons] at hnd
    unfold refreshMembers at ih ⊢
    rw [List.foldl_cons]
    rw [refresh_step]
    rw [ih _ hnd.2]
    rw [List.filter_append]
    have hb : (insBlock emap row.group_id (mOf row.email)).filter (notInRows rest) =
        insBlock emap row.group_id (mOf row.email) := by
      apply List.filter_eq_self.mpr
      intro pr hpr
      have h1 : pr.1 = row.group_id := insBlock_fst emap row.group_id (mOf row.email) pr hpr
      unfold notInRows
      rw [h1]
      have hany : rest.any (fun r => decide (row.group_id = r.group_id)) = false := by
        cases hb2 : rest.any (fun r => decide (row.group_id = r.group_id))
        · rfl
        · exfalso
          rcases List.any_eq_true.mp hb2 with ⟨r, hr, hd⟩
          simp only [decide_eq_true_eq] at hd
          exact hnd.1 (hd ▸ List.mem_map.mpr ⟨r, hr, rfl⟩)
      rw [hany]
      rfl
    have hf : (t0.filter (fun p => !decide (p.1 = row.group_id))).filter (notInRows rest) =
        t0.filter (notInRows (row :: rest)) := by
      rw [List.filter_filter]
      apply List.filter_congr
      intro pr _
      unfold notInRows
      rw [List.any_cons, Bool.not_or, Bool.and_comm]
    rw [hb, hf, List.append_assoc]
    rfl

theorem memberBlocks_congr (emap : List (String × String)) (mOf : String → List Member) :
    ∀ {rows2 rows1 : List GroupRow},
    rows2.map (fun r => (r.group_id, r.email)) = rows1.map (fun r => (r.group_id, r.email)) →
    memberBlocks emap mOf rows2 = memberBlocks emap mOf rows1 := by
  intro rows2
  induction rows2 with
  | nil =>
    intro rows1 h
    cases rows1 with
    | nil => rfl
    | cons a b => exact absurd h (by simp)
  | cons r rest ih =>
    intro rows1 h
    cases rows1 with
    | nil => exact absurd h (by simp)
    | cons r1 rest1 =>
      simp only [List.map_cons, List.cons.injEq] at h
      have hid : r.group_id = r1.group_id := congrArg Prod.fst h.1
      have hem : r.email = r1.email := congrArg Prod.snd h.1
      unfold memberBlocks
      rw [hid, hem, ih h.2]

theorem blocks_fst_mem (emap : List (String × String)) (mOf : String → List Member) :
    ∀ (rows : List GroupRow), ∀ pr ∈ memberBlocks emap mOf rows,
      pr.1 ∈ rows.map (fun r => r.group_id) := by
  intro rows
  induction rows with
  | nil =>
    intro pr hpr
    exact absurd hpr (by simp [memberBlocks])
  | cons row rest ih =>
    intro pr hpr
    unfold memberBlocks at hpr
    rcases List.mem_append.mp hpr with h | h
    · rw [List.map_cons]
      exact List.mem_cons.mpr (Or.inl (insBlock_fst _ _ _ pr h))
    · rw [List.map_cons]
      exact List.mem_cons.mpr (Or.inr (ih pr h))

theorem notInRows_gid_congr {rows2 rows1 : List GroupRow}
    (h : rows2.map (fun r => r.group_id) = rows1.map (fun r => r.group_id)) :
    notInRows rows2 = notInRows rows1 := by
  funext pr
  unfold notInRows
  congr 1
  have h2 : ∀ rows : List GroupRow,
      rows.any (fun row => decide (pr.1 = row.group_id)) =
        (rows.map (fun r => r.group_id)).any (fun x => decide (pr.1 = x)) := by
    intro rows
    induction rows with
    | nil => rfl
    | cons r rest ihr => simp only [List.any_cons, List.map_cons, ihr]
  rw [h2, h2, h]

theorem refresh_again (emap : List (String × String)) (mOf : String → List Member)
    {rows1 rows2 : List GroupRow} (t0 : List (String × String))
    (hproj : rows2.map (fun r => (r.group_id, r.email)) =
      rows1.map (fun r => (r.group_id, r.email)))
    (hnd1 : (rows1.map (fun r => r.group_id)).Nodup) :
    refreshMembers emap mOf rows2 (refreshMembers emap mOf rows1 t0) =
      refreshMembers emap mOf rows1 t0 := by
  have hgids : rows2.map (fun r => r.group_id) = rows1.map (fun r => r.group_id) := by
    have e2 : ∀ rows : List GroupRow, rows.map (fun r => r.group_id) =
        (rows.map (fun r => (r.group_id, r.email))).map Prod.fst := by
      intro rows
      rw [List.map_map]
      rfl
    rw [e2, e2, hproj]
  have hnd2 : (rows2.map (fun r => r.group_id)).Nodup := by
    rw [hgids]
    exact hnd1
  rw [refresh_decomp emap mOf rows1 t0 hnd1]
  rw [refresh_decomp emap mOf rows2 _ hnd2]
  rw [notInRows_gid_congr hgids, memberBlocks_congr emap mOf hproj]
  rw [List.filter_append]
  have hidem : (t0.filter (notInRows rows1)).filter (notInRows rows1) =
      t0.filter (notInRows rows1) := by
    apply List.filter_eq_self.mpr
    intro pr hpr
    exact (List.mem_filter.mp hpr).2
  have hbl : (memberBlocks emap mOf rows1).filter (notInRows rows1) = [] := by
    rw [List.filter_eq_nil_iff]
    intro pr hpr
    have hmem := blocks_fst_mem emap mOf rows1 pr hpr
    unfold notInRows
    have hany : rows1.any (fun row => decide (pr.1 = row.group_id)) = true := by
      rcases List.mem_map.mp hmem with ⟨r, hr, hrid⟩
      exact List.any_eq_true.mpr ⟨r, hr, by simp [hrid]⟩
    simp [hany]
  rw [hidem, hbl, List.append_nil]

end ExtraUsers

namespace ExtraUsers

theorem upsertsAll_nil (B : List GroupRow) : upsertsAll B [] = B := rfl

theorem deactivate_groups_nil (gs : List GroupRow) : deactivate_groups gs [] = gs := by
  unfold deactivate_groups
  rw [if_pos rfl]

theorem upsertsAll_ids_nodup {B recs : List GroupRow}
    (hndB : (B.map (fun q => q.group_id)).Nodup)
    (hndR : (recs.map (fun r => r.group_id)).Nodup) :
    ((upsertsAll B recs).map (fun q => q.group_id)).Nodup := by
  rw [upsertsAll_decomp recs B hndR, List.map_append, List.nodup_append]
  refine ⟨?_, ?_, ?_⟩
  · rw [groupIds_map_pres _ _ (fun q => substG_id recs q)]
    exact hndB
  · have hsub : ((recs.filter (fun r =>
        !B.any (fun q => decide (q.group_id = r.group_id)))).map
        (fun r => r.group_id)).Sublist (recs.map (fun r => r.group_id)) :=
      List.Sublist.map _ (List.filter_sublist recs)
    exact hndR.sublist hsub
  · intro a ha hb
    rw [groupIds_map_pres _ _ (fun q => substG_id recs q)] at ha
    rcases List.mem_map.mp hb with ⟨r, hr, hrid⟩
    have hp := (List.mem_filter.mp hr).2
    have hpB : B.any (fun q => decide (q.group_id = r.group_id)) = false := by
      simpa using hp
    rcases List.mem_map.mp ha with ⟨q, hq, hqid⟩
    have hd : decide (q.group_id = r.group_id) = true := by
      rw [hqid, hrid]
      simp
    have hT : B.any (fun q => decide (q.group_id = r.group_id)) = true :=
      List.any_eq_true.mpr ⟨q, hq, hd⟩
    rw [hpB] at hT
    exact absurd hT (by simp)

theorem filter_ids_nodup {gs : List GroupRow} (p : GroupRow → Bool)
    (hnd : (gs.map (fun q => q.group_id)).Nodup) :
    ((gs.filter p).map (fun q => q.group_id)).Nodup :=
  hnd.sublist (List.Sublist.map _ (List.filter_sublist gs))

theorem stripTG_proj3 {a b : GroupRow} (hs : stripTG a = stripTG b) :
    (a.group_id, a.name, a.gid) = (b.group_id, b.name, b.gid) := by
  have h1 : a.group_id = b.group_id := congrArg (fun q => q.group_id) hs
  have h2 : a.name = b.name := congrArg (fun q => q.name) hs
  have h3 : a.gid = b.gid := congrArg (fun q => q.gid) hs
  rw [h1, h2, h3]

theorem stripTG_projGE {a b : GroupRow} (hs : stripTG a = stripTG b) :
    (a.group_id, a.email) = (b.group_id, b.email) := by
  have h1 : a.group_id = b.group_id := congrArg (fun q => q.group_id) hs
  have h2 : a.email = b.email := congrArg (fun q => q.email) hs
  rw [h1, h2]

end ExtraUsers

namespace ExtraUsers

theorem update_groups_again (h : String → Nat) (cfg : SyncCfg) (now1 now2 : String)
    (groups : List DirGroup) (membersOf : String → List Member) (dbA dbA2 dbB : Db)
    (hrun1 : update_groups_db h cfg now1 groups membersOf dbA = some dbA2)
    (hU : dbB.users = dbA.users)
    (hG : dbB.groups = dbA2.groups)
    (hM : dbB.group_members = dbA2.group_members)
    (hndA : (dbA.groups.map (fun q => q.group_id)).Nodup)
    (hndL : ((sortGroups groups).map (fun g => g.id)).Nodup) :
    ∃ dbB2, update_groups_db h cfg now2 groups membersOf dbB = some dbB2 ∧
      groupQuery dbB2.groups = groupQuery dbA2.groups ∧
      dbB2.group_members = dbA2.group_members ∧
      dbB2.users = dbB.users ∧ dbB2.meta = dbB.meta := by
  unfold update_groups_db at hrun1
  dsimp only at hrun1
  rw [groupsFold_decomp] at hrun1
  cases hcs : csOf h cfg.group_start_gid cfg.group_end_gid
      ((sortGroups groups).map (fun g => g.id))
      ((dbA.users.filter (fun r => r.active)).map (fun r => r.gid)) with
  | none =>
    rw [hcs] at hrun1
    exact absurd hrun1 (by simp)
  | some cs =>
    rw [hcs] at hrun1
    simp only [Option.map_some'] at hrun1
    have hA2 : dbA2 =
        { dbA with
          groups := deactivate_groups
            (upsertsAll (placeholderGids dbA.groups)
              (List.zipWith (mkGroupRow now1) (sortGroups groups) cs))
            ((sortGroups groups).map (fun g => g.id)),
          group_members := refreshMembers (email_to_username dbA.users) membersOf
            ((deactivate_groups
              (upsertsAll (placeholderGids dbA.groups)
                (List.zipWith (mkGroupRow now1) (sortGroups groups) cs))
              ((sortGroups groups).map (fun g => g.id))).filter (fun r => r.active))
            dbA.group_members } :=
      (Option.some.inj hrun1).symm
    have hA2g : dbA2.groups = deactivate_groups
        (upsertsAll (placeholderGids dbA.groups)
          (List.zipWith (mkGroupRow now1) (sortGroups groups) cs))
        ((sortGroups groups).map (fun g => g.id)) := by
      rw [hA2]
    have hA2m : dbA2.group_members = refreshMembers (email_to_username dbA.users) membersOf
        ((deactivate_groups
          (upsertsAll (placeholderGids dbA.groups)
            (List.zipWith (mkGroupRow now1) (sortGroups groups) cs))
          ((sortGroups groups).map (fun g => g.id))).filter (fun r => r.active))
        dbA.group_members := by
      rw [hA2]
    have hA2u : dbA2.users = dbA.users := by rw [hA2]
    have hlen : (sortGroups groups).length = cs.length := by
      have h1 := csOf_length h cfg.group_start_gid cfg.group_end_gid _ _ hcs
      rw [List.length_map] at h1
      exact h1.symm
    have hid1 : (List.zipWith (mkGroupRow now1) (sortGroups groups) cs).map
        (fun r => r.group_id) = (sortGroups groups).map (fun g => g.id) :=
      mkRecs_ids now1 (sortGroups groups) cs hlen
    have hid2 : (List.zipWith (mkGroupRow now2) (sortGroups groups) cs).map
        (fun r => r.group_id) = (sortGroups groups).map (fun g => g.id) :=
      mkRecs_ids now2 (sortGroups groups) cs hlen
    have hstrip : (List.zipWith (mkGroupRow now2) (sortGroups groups) cs).map stripTG =
        (List.zipWith (mkGroupRow now1) (sortGroups groups) cs).map stripTG :=
      mkRecs_stripTG now1 now2 (sortGroups groups) cs
    unfold update_groups_db
    dsimp only
    rw [hU, hG, hA2g, hM, hA2m]
    rw [groupsFold_decomp, hcs]
    simp only [Option.map_some']
    by_cases hne : ((sortGroups groups).map (fun g => g.id)) = []
    · -- empty listing: the groups table is exactly the placeholder table and is a fixpoint
      have hsg : sortGroups groups = [] := List.map_eq_nil_iff.mp hne
      have hcs0 : cs = [] := by
        rw [hne] at hcs
        unfold csOf at hcs
        exact (Option.some.inj hcs).symm
      rw [hsg, hcs0]
      simp only [List.zipWith_nil_right, List.zipWith_nil_left, upsertsAll_nil,
        List.map_nil, deactivate_groups_nil]
      have hidem : placeholderGids (placeholderGids dbA.groups) =
          placeholderGids dbA.groups := by
        show placeholderFrom 1 (placeholderFrom 1 dbA.groups) = placeholderFrom 1 dbA.groups
        exact placeholderFrom_idem dbA.groups 1
      rw [hidem]
      refine ⟨_, rfl, by rfl, ?_, rfl, rfl⟩
      show refreshMembers (email_to_username dbA.users) membersOf
          ((placeholderGids dbA.groups).filter (fun r => r.active))
          (refreshMembers (email_to_username dbA.users) membersOf
            ((placeholderGids dbA.groups).filter (fun r => r.active)) dbA.group_members) =
        refreshMembers (email_to_username dbA.users) membersOf
          ((placeholderGids dbA.groups).filter (fun r => r.active)) dbA.group_members
      apply refresh_again
      · rfl
      · apply filter_ids_nodup
        show ((placeholderFrom 1 dbA.groups).map (fun q => q.group_id)).Nodup
        rw [placeholderFrom_ids]
        exact hndA
    · -- non-empty listing: use the second-run pass lemma
      have hact1 := mkRecs_active now1 (sortGroups groups) cs
      have hact2 := mkRecs_active now2 (sortGroups groups) cs
      have hproj3 := groups_pass_again dbA.groups
        (List.zipWith (mkGroupRow now1) (sortGroups groups) cs)
        (List.zipWith (mkGroupRow now2) (sortGroups groups) cs)
        ((sortGroups groups).map (fun g => g.id))
        hid1 hid2 hstrip hndL hact1 hact2 hne
        (fun r => (r.group_id, r.name, r.gid))
        (fun a b hs => stripTG_proj3 hs)
      have hprojGE := groups_pass_again dbA.groups
        (List.zipWith (mkGroupRow now1) (sortGroups groups) cs)
        (List.zipWith (mkGroupRow now2) (sortGroups groups) cs)
        ((sortGroups groups).map (fun g => g.id))
        hid1 hid2 hstrip hndL hact1 hact2 hne
        (fun r => (r.group_id, r.email))
        (fun a b hs => stripTG_projGE hs)
      have hnd3 : ((deactivate_groups
          (upsertsAll (placeholderGids dbA.groups)
            (List.zipWith (mkGroupRow now1) (sortGroups groups) cs))
          ((sortGroups groups).map (fun g => g.id))).map (fun q => q.group_id)).Nodup := by
        rw [deactivate_groups_ids]
        apply upsertsAll_ids_nodup
        · show ((placeholderFrom 1 dbA.groups).map (fun q => q.group_id)).Nodup
          rw [placeholderFrom_ids]
          exact hndA
        · rw [hid1]
          exact hndL
      refine ⟨_, rfl, ?_, ?_, rfl, rfl⟩
      · show groupQuery (deactivate_groups
            (upsertsAll (placeholderGids (deactivate_groups
              (upsertsAll (placeholderGids dbA.groups)
                (List.zipWith (mkGroupRow now1) (sortGroups groups) cs))
              ((sortGroups groups).map (fun g => g.id))))
              (List.zipWith (mkGroupRow now2) (sortGroups groups) cs))
            ((sortGroups groups).map (fun g => g.id))) =
          groupQuery (deactivate_groups
            (upsertsAll (placeholderGids dbA.groups)
              (List.zipWith (mkGroupRow now1) (sortGroups groups) cs))
            ((sortGroups groups).map (fun g => g.id)))
        unfold groupQuery
        rw [hproj3]
      · show refreshMembers (email_to_username dbA.users) membersOf
            ((deactivate_groups
              (upsertsAll (placeholderGids (deactivate_groups
                (upsertsAll (placeholderGids dbA.groups)
                  (List.zipWith (mkGroupRow now1) (sortGroups groups) cs))
                ((sortGroups groups).map (fun g => g.id))))
                (List.zipWith (mkGroupRow now2) (sortGroups groups) cs))
              ((sortGroups groups).map (fun g => g.id))).filter (fun r => r.active))
            (refreshMembers (email_to_username dbA.users) membersOf
              ((deactivate_groups
                (upsertsAll (placeholderGids dbA.groups)
                  (List.zipWith (mkGroupRow now1) (sortGroups groups) cs))
                ((sortGroups groups).map (fun g => g.id))).filter (fun r => r.active))
              dbA.group_members) =
          refreshMembers (email_to_username dbA.users) membersOf
            ((deactivate_groups
              (upsertsAll (placeholderGids dbA.groups)
                (List.zipWith (mkGroupRow now1) (sortGroups groups) cs))
              ((sortGroups groups).map (fun g => g.id))).filter (fun r => r.active))
            dbA.group_members
        apply refresh_again
        · exact hprojGE
        · exact filter_ids_nodup _ hnd3

end ExtraUsers

namespace ExtraUsers

theorem find?_append_none {α : Type} {p : α → Bool} :
    ∀ {l1 : List α}, l1.find? p = none → ∀ l2 : List α, (l1 ++ l2).find? p = l2.find? p := by
  intro l1
  induction l1 with
  | nil =>
    intro _ l2
    rfl
  | cons a rest ih =>
    intro hn l2
    rw [List.cons_append, List.find?_cons]
    rw [List.find?_cons] at hn
    cases hp : p a with
    | true =>
      rw [hp] at hn
      exact absurd hn (by simp)
    | false =>
      rw [hp] at hn
      exact ih hn l2

theorem find_set_aux (k v : String) :
    ∀ l : List (String × String), l.any (fun p => decide (p.1 = k)) = true →
    (l.map (fun p => if p.1 = k then (k, v) else p)).find? (fun p => decide (p.1 = k)) =
      some (k, v) := by
  intro l
  induction l with
  | nil =>
    intro hany
    simp at hany
  | cons p rest ih =>
    intro hany
    by_cases hp : p.1 = k
    · rw [List.map_cons, List.find?_cons, if_pos hp]
      simp
    · have hrest : rest.any (fun p => decide (p.1 = k)) = true := by
        rcases List.any_eq_true.mp hany with ⟨q, hq, hqd⟩
        rcases List.mem_cons.mp hq with rfl | hqr
        · exact absurd (by simpa using hqd) hp
        · exact List.any_eq_true.mpr ⟨q, hqr, hqd⟩
      rw [List.map_cons, List.find?_cons, if_neg hp]
      have hd : decide (p.1 = k) = false := by simpa using hp
      rw [hd]
      exact ih hrest

theorem meta_get_set (db : Db) (k v : String) :
    meta_get (meta_set db k v) k = some v := by
  unfold meta_get meta_set
  dsimp only
  by_cases hany : db.meta.any (fun p => decide (p.1 = k)) = true
  · rw [if_pos hany, find_set_aux k v db.meta hany]
    rfl
  · rw [if_neg hany]
    have hnone : db.meta.find? (fun p => decide (p.1 = k)) = none := by
      rw [List.find?_eq_none]
      intro p hp hd
      exact hany (List.any_eq_true.mpr ⟨p, hp, hd⟩)
    rw [find?_append_none hnone]
    rw [List.find?_cons]
    have hd : decide ((k, v).1 = k) = true := by simp
    rw [hd]
    rfl

theorem meta_get_congr {db1 db2 : Db} (hm : db1.meta = db2.meta) (k : String) :
    meta_get db1 k = meta_get db2 k := by
  unfold meta_get
  rw [hm]

theorem renderAndWrite_passwd (sha : String → String) (day : Nat) (dry : Bool)
    (entries : List UserRow) (db2 : Db) :
    (renderAndWrite sha day dry entries db2).passwd_txt =
      joinNl ((userQuery db2.users).map fmtPasswdLine) := by
  unfold renderAndWrite
  split
  · rfl
  · dsimp only
    split
    · rfl
    · rfl

theorem renderAndWrite_shadow (sha : String → String) (day : Nat) (dry : Bool)
    (entries : List UserRow) (db2 : Db) :
    (renderAndWrite sha day dry entries db2).shadow_txt =
      joinNl ((userQuery db2.users).map (fmtShadowLine day)) := by
  unfold renderAndWrite
  split
  · rfl
  · dsimp only
    split
    · rfl
    · rfl

theorem renderAndWrite_groupTxt (sha : String → String) (day : Nat) (dry : Bool)
    (entries : List UserRow) (db2 : Db) :
    (renderAndWrite sha day dry entries db2).group_txt =
      joinNl ((primaryGroupEntries entries ++ dirGroupEntries db2).map fmtGroupLine) := by
  unfold renderAndWrite
  split
  · rfl
  · dsimp only
    split
    · rfl
    · rfl

theorem renderAndWrite_wet_hash (sha : String → String) (day : Nat)
    (entries : List UserRow) (db2 : Db) :
    meta_get (renderAndWrite sha day false entries db2).db "last_snapshot_hash" =
      some (sha (joinNl ((userQuery db2.users).map fmtPasswdLine) ++ "\n--\n" ++
        joinNl ((primaryGroupEntries entries ++ dirGroupEntries db2).map fmtGroupLine) ++
        "\n--\n" ++ joinNl ((userQuery db2.users).map (fmtShadowLine day)))) := by
  unfold renderAndWrite
  simp only [Bool.false_eq_true, if_false]
  split
  · exact meta_get_set db2 "last_snapshot_hash" _
  · rename_i hch
    have h2 : some (sha (joinNl ((userQuery db2.users).map fmtPasswdLine) ++ "\n--\n" ++
        joinNl ((primaryGroupEntries entries ++ dirGroupEntries db2).map fmtGroupLine) ++
        "\n--\n" ++ joinNl ((userQuery db2.users).map (fmtShadowLine day)))) =
        meta_get db2 "last_snapshot_hash" := by
      by_contra hc
      exact hch (by simpa using hc)
    exact h2.symm

theorem renderAndWrite_unchanged (sha : String → String) (day : Nat)
    (entries : List UserRow) (db2 : Db)
    (hmatch : meta_get db2 "last_snapshot_hash" =
      some (sha (joinNl ((userQuery db2.users).map fmtPasswdLine) ++ "\n--\n" ++
        joinNl ((primaryGroupEntries entries ++ dirGroupEntries db2).map fmtGroupLine) ++
        "\n--\n" ++ joinNl ((userQuery db2.users).map (fmtShadowLine day))))) :
    (renderAndWrite sha day false entries db2).changed = false ∧
    (renderAndWrite sha day false entries db2).writes = [] := by
  unfold renderAndWrite
  simp only [Bool.false_eq_true, if_false]
  have hch : decide (some (sha (joinNl ((userQuery db2.users).map fmtPasswdLine) ++
      "\n--\n" ++
      joinNl ((primaryGroupEntries entries ++ dirGroupEntries db2).map fmtGroupLine) ++
      "\n--\n" ++ joinNl ((userQuery db2.users).map (fmtShadowLine day)))) ≠
        meta_get db2 "last_snapshot_hash") = false := by
    rw [hmatch]
    simp
  rw [if_neg (by rw [hch]; simp)]
  exact ⟨hch, rfl⟩

theorem update_users_db_entries (cfg : SyncCfg) (now : String) (users : List DirUser)
    (db : Db) : (update_users_db cfg now users db).2 = keptRecords cfg now users := by
  show (users.foldl (usersStep cfg now) ⟨db.users, [], []⟩).entries = keptRecords cfg now users
  simpa using usersRun_entries cfg now users ⟨db.users, [], []⟩

end ExtraUsers

namespace ExtraUsers

/-- **C5**: a full (non-dry-run) sync pass followed immediately by a second
full sync pass over the identical upstream listing (same users, groups and
memberships, same day) writes none of the three files on the second pass:
the recomputed snapshot hash equals the stored `meta["last_snapshot_hash"]`,
so `changed` is false and the write list is empty.  Side conditions: the
cache primary keys (`users.id`, `groups.group_id`) and the listing ids are
duplicate-free, as SQLite and the directory guarantee. -/
theorem c5_second_sync_no_writes (h : String → Nat) (sha : String → String)
    (cfg : SyncCfg) (now1 now2 : String) (day : Nat) (inp : SyncInput) (db0 : Db)
    (r1 r2 : SyncResult)
    (hk : ((keptRecords cfg now1 inp.users).map (fun r => r.id)).Nodup)
    (hu0 : (db0.users.map (fun q => q.id)).Nodup)
    (hg0 : (db0.groups.map (fun q => q.group_id)).Nodup)
    (hgl : ((sortGroups inp.groups).map (fun g => g.id)).Nodup)
    (hr1 : syncRun h sha cfg now1 day false inp db0 = some r1)
    (hr2 : syncRun h sha cfg now2 day false inp r1.db = some r2) :
    r2.changed = false ∧ r2.writes = [] := by
  unfold syncRun at hr1 hr2
  dsimp only at hr1 hr2
  cases hgs : cfg.group_sync with
  | true =>
    rw [hgs] at hr1 hr2
    rw [if_pos rfl] at hr1 hr2
    cases hdbA : update_groups_db h cfg now1 inp.groups inp.membersOf
        (update_users_db cfg now1 inp.users db0).1 with
    | none =>
      rw [hdbA] at hr1
      exact absurd hr1 (by simp)
    | some db2A =>
      rw [hdbA] at hr1
      simp only [Option.map_some'] at hr1
      have hr1e : r1 = renderAndWrite sha day false
          (update_users_db cfg now1 inp.users db0).2 db2A := (Option.some.inj hr1).symm
      have hframesA := update_groups_db_frame hdbA
      have hwetA := renderAndWrite_wet_frame sha day
          (update_users_db cfg now1 inp.users db0).2 db2A
      have hr1users : r1.db.users = (update_users_db cfg now1 inp.users db0).1.users := by
        rw [hr1e, hwetA.1]
        exact hframesA.2
      have hfix : (update_users_db cfg now2 inp.users r1.db).1.users = r1.db.users :=
        update_users_again cfg now1 now2 inp.users db0 r1.db hr1users hk hu0
      have hup2g : (update_users_db cfg now2 inp.users r1.db).1.groups = r1.db.groups :=
        (update_users_db_frame cfg now2 inp.users r1.db).2.1
      have hup2m : (update_users_db cfg now2 inp.users r1.db).1.group_members =
          r1.db.group_members :=
        (update_users_db_frame cfg now2 inp.users r1.db).2.2
      have hup2meta : (update_users_db cfg now2 inp.users r1.db).1.meta = r1.db.meta :=
        (update_users_db_frame cfg now2 inp.users r1.db).1
      have hr1groups : r1.db.groups = db2A.groups := by
        rw [hr1e]
        exact hwetA.2.1
      have hr1mem : r1.db.group_members = db2A.group_members := by
        rw [hr1e]
        exact hwetA.2.2
      have hndA : ((update_users_db cfg now1 inp.users db0).1.groups.map
          (fun q => q.group_id)).Nodup := by
        rw [(update_users_db_frame cfg now1 inp.users db0).2.1]
        exact hg0
      rcases update_groups_again h cfg now1 now2 inp.groups inp.membersOf
        (update_users_db cfg now1 inp.users db0).1 db2A
        (update_users_db cfg now2 inp.users r1.db).1
        hdbA
        (by rw [hfix]; exact hr1users)
        (by rw [hup2g]; exact hr1groups)
        (by rw [hup2m]; exact hr1mem)
        hndA hgl with ⟨db2B, hdbB, hQ, hMm, hBu, hBmeta⟩
      rw [hdbB] at hr2
      simp only [Option.map_some'] at hr2
      have hr2e : r2 = renderAndWrite sha day false
          (update_users_db cfg now2 inp.users r1.db).2 db2B := (Option.some.inj hr2).symm
      have hmeta1 : meta_get r1.db "last_snapshot_hash" =
          some (sha (joinNl ((userQuery db2A.users).map fmtPasswdLine) ++ "\n--\n" ++
            joinNl ((primaryGroupEntries (update_users_db cfg now1 inp.users db0).2 ++
              dirGroupEntries db2A).map fmtGroupLine) ++ "\n--\n" ++
            joinNl ((userQuery db2A.users).map (fmtShadowLine day)))) := by
        rw [hr1e]
        exact renderAndWrite_wet_hash sha day _ db2A
      have husers : db2B.users = db2A.users := by
        rw [hBu, hfix, hr1users]
        exact hframesA.2.symm
      have hentries : primaryGroupEntries (update_users_db cfg now2 inp.users r1.db).2 =
          primaryGroupEntries (update_users_db cfg now1 inp.users db0).2 := by
        rw [update_users_db_entries, update_users_db_entries]
        exact primaryGroupEntries_stripT (keptRecords_stripT cfg now2 now1 inp.users)
      have hdirs : dirGroupEntries db2B = dirGroupEntries db2A := by
        unfold dirGroupEntries
        rw [hQ, hMm]
      have hmatch : meta_get db2B "last_snapshot_hash" =
          some (sha (joinNl ((userQuery db2B.users).map fmtPasswdLine) ++ "\n--\n" ++
            joinNl ((primaryGroupEntries (update_users_db cfg now2 inp.users r1.db).2 ++
              dirGroupEntries db2B).map fmtGroupLine) ++ "\n--\n" ++
            joinNl ((userQuery db2B.users).map (fmtShadowLine day)))) := by
        rw [meta_get_congr hBmeta, meta_get_congr hup2meta, hmeta1]
        rw [husers, hentries, hdirs]
      have hfin := renderAndWrite_unchanged sha day
        (update_users_db cfg now2 inp.users r1.db).2 db2B hmatch
      rw [hr2e]
      exact hfin
  | false =>
    rw [hgs] at hr1 hr2
    rw [if_neg (by simp)] at hr1 hr2
    simp only [Option.map_some'] at hr1 hr2
    have hr1e : r1 = renderAndWrite sha day false
        (update_users_db cfg now1 inp.users db0).2
        (update_users_db cfg now1 inp.users db0).1 := (Option.some.inj hr1).symm
    have hr2e : r2 = renderAndWrite sha day false
        (update_users_db cfg now2 inp.users r1.db).2
        (update_users_db cfg now2 inp.users r1.db).1 := (Option.some.inj hr2).symm
    have hwetA := renderAndWrite_wet_frame sha day
        (update_users_db cfg now1 inp.users db0).2
        (update_users_db cfg now1 inp.users db0).1
    have hr1users : r1.db.users = (update_users_db cfg now1 inp.users db0).1.users := by
      rw [hr1e]
      exact hwetA.1
    have hfix : (update_users_db cfg now2 inp.users r1.db).1.users = r1.db.users :=
      update_users_again cfg now1 now2 inp.users db0 r1.db hr1users hk hu0
    have husers : (update_users_db cfg now2 inp.users r1.db).1.users =
        (update_users_db cfg now1 inp.users db0).1.users := by
      rw [hfix]
      exact hr1users
    have hgroups : (update_users_db cfg now2 inp.users r1.db).1.groups =
        (update_users_db cfg now1 inp.users db0).1.groups := by
      rw [(update_users_db_frame cfg now2 inp.users r1.db).2.1, hr1e]
      exact hwetA.2.1
    have hmembers : (update_users_db cfg now2 inp.users r1.db).1.group_members =
        (update_users_db cfg now1 inp.users db0).1.group_members := by
      rw [(update_users_db_frame cfg now2 inp.users r1.db).2.2, hr1e]
      exact hwetA.2.2
    have hup2meta : (update_users_db cfg now2 inp.users r1.db).1.meta = r1.db.meta :=
      (update_users_db_frame cfg now2 inp.users r1.db).1
    have hmeta1 : meta_get r1.db "last_snapshot_hash" =
        some (sha (joinNl ((userQuery
            (update_users_db cfg now1 inp.users db0).1.users).map fmtPasswdLine) ++
          "\n--\n" ++
          joinNl ((primaryGroupEntries (update_users_db cfg now1 inp.users db0).2 ++
            dirGroupEntries (update_users_db cfg now1 inp.users db0).1).map fmtGroupLine) ++
          "\n--\n" ++
          joinNl ((userQuery
            (update_users_db cfg now1 inp.users db0).1.users).map (fmtShadowLine day)))) := by
      rw [hr1e]
      exact renderAndWrite_wet_hash sha day _ _
    have hentries : primaryGroupEntries (update_users_db cfg now2 inp.users r1.db).2 =
        primaryGroupEntries (update_users_db cfg now1 inp.users db0).2 := by
      rw [update_users_db_entries, update_users_db_entries]
      exact primaryGroupEntries_stripT (keptRecords_stripT cfg now2 now1 inp.users)
    have hdirs : dirGroupEntries (update_users_db cfg now2 inp.users r1.db).1 =
        dirGroupEntries (update_users_db cfg now1 inp.users db0).1 := by
      unfold dirGroupEntries
      rw [hgroups, hmembers]
    have hmatch : meta_get (update_users_db cfg now2 inp.users r1.db).1
        "last_snapshot_hash" =
        some (sha (joinNl ((userQuery
            (update_users_db cfg now2 inp.users r1.db).1.users).map fmtPasswdLine) ++
          "\n--\n" ++
          joinNl ((primaryGroupEntries (update_users_db cfg now2 inp.users r1.db).2 ++
            dirGroupEntries (update_users_db cfg now2 inp.users r1.db).1).map
            fmtGroupLine) ++ "\n--\n" ++
          joinNl ((userQuery
            (update_users_db cfg now2 inp.users r1.db).1.users).map
            (fmtShadowLine day)))) := by
      rw [meta_get_congr hup2meta, hmeta1]
      rw [husers, hentries, hdirs]
    have hfin := renderAndWrite_unchanged sha day
      (update_users_db cfg now2 inp.users r1.db).2
      (update_users_db cfg now2 inp.users r1.db).1 hmatch
    rw [hr2e]
    exact hfin

end ExtraUsers

namespace ExtraUsers

def c5User : DirUser :=
  { id := "ua", primaryEmail := "alice@x.com", fullName := some "Alice",
    suspended := false, deleted := false, etag := some "e1",
    posixAccounts := [{ username := some "alice", uid := some 1000, gid := some 1000,
                        homeDirectory := some "/home/alice", shell := some "/bin/sh",
                        gecos := some "Alice", primary := true }] }

def c5Group : DirGroup :=
  { id := "G1", email := "devs@x.com", name := "Devs", etag := none }

def c5Cfg : SyncCfg :=
  { default_shell := "/bin/bash", home_template := fun u => "/home/" ++ u,
    group_sync := true, group_start_gid := 30000, group_end_gid := 30009 }

def c5Inp : SyncInput :=
  { users := [c5User], groups := [c5Group],
    membersOf := fun _ =>
      [{ email := some "alice@x.com", type := some "USER", status := some "ACTIVE" }] }

def c5R1 : SyncResult :=
  (syncRun (fun _ => 0) (fun s => s) c5Cfg "t1" 19900 false c5Inp ⟨[], [], [], []⟩).getD
    ⟨⟨[], [], [], []⟩, "", "", "", [], false, []⟩

def c5R2 : SyncResult :=
  (syncRun (fun _ => 0) (fun s => s) c5Cfg "t2" 19900 false c5Inp c5R1.db).getD
    ⟨⟨[], [], [], []⟩, "", "", "", [], false, []⟩

/-- Witness for C5 at a concrete input: one user, one group with one
member, an empty initial cache; the second pass reports no change and
performs no writes. -/
theorem c5_second_sync_no_writes_witness :
    c5R2.changed = false ∧ c5R2.writes = [] :=
  c5_second_sync_no_writes (fun _ => 0) (fun s => s) c5Cfg "t1" "t2" 19900 c5Inp
    ⟨[], [], [], []⟩ c5R1 c5R2 (by decide) (by decide) (by decide) (by decide)
    (by rfl) (by rfl)

end ExtraUsers

namespace ExtraUsers

theorem det_gid_not_mem {h : String → Nat} {gid : String} {start e : Int}
    {used : List Int} {c : Int}
    (hd : deterministic_gid h gid start e used = some c) : c ∉ used := by
  unfold deterministic_gid at hd
  dsimp only at hd
  split at hd
  · have hp := List.find?_some hd
    simp only [Bool.not_eq_true', decide_eq_false_iff_not] at hp
    exact hp
  · exact absurd hd (by simp)

theorem csOf_nodup (h : String → Nat) (start e : Int) :
    ∀ (ids : List String) (used : List Int) {cs : List Int},
    csOf h start e ids used = some cs → cs.Nodup ∧ ∀ c ∈ cs, c ∉ used := by
  intro ids
  induction ids with
  | nil =>
    intro used cs hcs
    have h0 : cs = [] := by simpa [csOf] using hcs.symm
    subst h0
    exact ⟨List.nodup_nil, by simp⟩
  | cons gid rest ih =>
    intro used cs hcs
    unfold csOf at hcs
    cases hd : deterministic_gid h gid start e used with
    | none =>
      rw [hd] at hcs
      exact absurd hcs (by simp)
    | some c =>
      rw [hd] at hcs
      dsimp only at hcs
      cases hrest : csOf h start e rest (used ++ [c]) with
      | none =>
        rw [hrest] at hcs
        exact absurd hcs (by simp)
      | some cs2 =>
        rw [hrest] at hcs
        have hcs2 : cs = c :: cs2 := by simpa using hcs.symm
        subst hcs2
        rcases ih (used ++ [c]) hrest with ⟨hnd2, hnot2⟩
        constructor
        · rw [List.nodup_cons]
          refine ⟨?_, hnd2⟩
          intro hc
          exact hnot2 c hc (List.mem_append.mpr (Or.inr (by simp)))
        · intro x hx
          rcases List.mem_cons.mp hx with rfl | hx2
          · exact det_gid_not_mem hd
          · intro hxu
            exact hnot2 x hx2 (List.mem_append.mpr (Or.inl hxu))

theorem placeholderFrom_gid_le :
    ∀ (l : List GroupRow) (k : Int) (x : Int),
    x ∈ (placeholderFrom k l).map (fun q => q.gid) → x ≤ -k := by
  intro l
  induction l with
  | nil =>
    intro k x hx
    exact absurd hx (by simp [placeholderFrom])
  | cons q rest ih =>
    intro k x hx
    unfold placeholderFrom at hx
    rw [List.map_cons] at hx
    rcases List.mem_cons.mp hx with rfl | hx2
    · exact le_refl _
    · have := ih (k + 1) x hx2
      omega

theorem placeholderFrom_gids_nodup :
    ∀ (l : List GroupRow) (k : Int),
    ((placeholderFrom k l).map (fun q => q.gid)).Nodup := by
  intro l
  induction l with
  | nil => intro k; simp [placeholderFrom]
  | cons q rest ih =>
    intro k
    unfold placeholderFrom
    rw [List.map_cons, List.nodup_cons]
    refine ⟨?_, ih (k + 1)⟩
    intro hc
    have := placeholderFrom_gid_le rest (k + 1) (-k) hc
    omega

theorem renderAndWrite_users (sha : String → String) (day : Nat) (dry : Bool)
    (entries : List UserRow) (db2 : Db) :
    (renderAndWrite sha day dry entries db2).db.users = db2.users := by
  unfold renderAndWrite
  split
  · rfl
  · dsimp only
    split
    · rfl
    · rfl

theorem renderAndWrite_groups (sha : String → String) (day : Nat) (dry : Bool)
    (entries : List UserRow) (db2 : Db) :
    (renderAndWrite sha day dry entries db2).db.groups = db2.groups := by
  unfold renderAndWrite
  split
  · rfl
  · dsimp only
    split
    · rfl
    · rfl

theorem update_users_db_ids_nodup (cfg : SyncCfg) (now : String) (users : List DirUser)
    (db : Db) (hd : (db.users.map (fun q => q.id)).Nodup) :
    ((update_users_db cfg now users db).1.users.map (fun q => q.id)).Nodup := by
  have e1 : (update_users_db cfg now users db).1.users =
      (if (users.foldl (usersStep cfg now) ⟨db.users, [], []⟩).present ≠ [] then
        deactivate_missing_users
          (users.foldl (usersStep cfg now) ⟨db.users, [], []⟩).table
          (users.foldl (usersStep cfg now) ⟨db.users, [], []⟩).present
      else (users.foldl (usersStep cfg now) ⟨db.users, [], []⟩).table) := rfl
  rw [e1]
  by_cases hp : (users.foldl (usersStep cfg now) ⟨db.users, [], []⟩).present ≠ []
  · rw [if_pos hp, deactivate_ids]
    exact usersRun_table_nodup cfg now users ⟨db.users, [], []⟩ hd
  · rw [if_neg hp]
    exact usersRun_table_nodup cfg now users ⟨db.users, [], []⟩ hd

end ExtraUsers

namespace ExtraUsers

theorem gs3_active_gids_nodup (G0 recs1 : List GroupRow) (glIds : List String)
    (cs : List Int)
    (hid1 : recs1.map (fun r => r.group_id) = glIds)
    (hgids : recs1.map (fun r => r.gid) = cs)
    (hcsnd : cs.Nodup)
    (hndL : glIds.Nodup)
    (hndG0 : (G0.map (fun q => q.group_id)).Nodup)
    (hact1 : ∀ r ∈ recs1, r.active = true)
    (hne : glIds ≠ []) :
    (((deactivate_groups (upsertsAll (placeholderGids G0) recs1) glIds).filter
      (fun q => q.active)).map (fun q => q.gid)).Nodup := by
  have hnd1 : (recs1.map (fun r => r.group_id)).Nodup := by
    rw [hid1]
    exact hndL
  have hgnd : (recs1.map (fun r => r.gid)).Nodup := by
    rw [hgids]
    exact hcsnd
  have hp1act1 := dsub_active_eq recs1 glIds hid1 hact1
  have hpY1 : ∀ r ∈ recs1,
      (if r.group_id ∈ glIds then r else { r with active := false }) = r ∧
        r.active = true :=
    fun r hr => ⟨dfun_fix recs1 glIds hid1 r hr, hact1 r hr⟩
  rw [deact_upserts_filter (placeholderGids G0) recs1 glIds (fun q => q.active)
    hnd1 hne hp1act1 hpY1]
  have hB1ids : ((placeholderGids G0).map (fun q => q.group_id)).Nodup := by
    show ((placeholderFrom 1 G0).map (fun q => q.group_id)).Nodup
    rw [placeholderFrom_ids]
    exact hndG0
  have hL1ids : (((placeholderGids G0).filter
      (fun q => decide (q.group_id ∈ glIds))).map (fun q => q.group_id)).Nodup :=
    filter_ids_nodup _ hB1ids
  have hval : ∀ q ∈ (placeholderGids G0).filter (fun q => decide (q.group_id ∈ glIds)),
      ∃ rq ∈ recs1, rq.group_id = q.group_id ∧
        (if (substG recs1 q).group_id ∈ glIds then substG recs1 q
         else { substG recs1 q with active := false }) = rq := by
    intro q hq
    have hqm : q.group_id ∈ glIds := by
      have := (List.mem_filter.mp hq).2
      simpa using this
    have hq1 : q.group_id ∈ recs1.map (fun r => r.group_id) := by
      rw [hid1]
      exact hqm
    rcases find?_key_of_mem (fun r : GroupRow => r.group_id) hq1 with ⟨rq, hfq, hkq⟩
    refine ⟨rq, List.mem_of_find?_eq_some hfq, hkq, ?_⟩
    rw [substG_of_mem hfq, if_pos (by rw [hkq]; exact hqm)]
  rw [List.map_append, List.nodup_append, List.map_map]
  refine ⟨?_, ?_, ?_⟩
  · -- first section: images of distinct directory rows under distinct recs
    apply List.Nodup.map_on
    · intro x hx y hy hxy
      rcases hval x hx with ⟨rx, hrx, hkx, hex⟩
      rcases hval y hy with ⟨ry, hry, hky, hey⟩
      simp only [Function.comp_apply] at hxy
      rw [hex, hey] at hxy
      have hreq : rx = ry := List.inj_on_of_nodup_map hgnd hrx hry hxy
      have hideq : x.group_id = y.group_id := by
        rw [← hkx, ← hky, hreq]
      exact List.inj_on_of_nodup_map hL1ids hx hy hideq
    · exact List.Nodup.of_map _ hL1ids
  · -- second section: a sublist of the fresh records
    have hsub : ((recs1.filter (fun r => !(placeholderGids G0).any
        (fun q => decide (q.group_id = r.group_id)))).map (fun r => r.gid)).Sublist
        (recs1.map (fun r => r.gid)) :=
      List.Sublist.map _ (List.filter_sublist recs1)
    exact hgnd.sublist hsub
  · -- the two sections share no gid
    intro a ha hb
    rcases List.mem_map.mp ha with ⟨x, hx, hxa⟩
    rcases List.mem_map.mp hb with ⟨y, hy, hya⟩
    rcases hval x hx with ⟨rx, hrx, hkx, hex⟩
    have hyr : y ∈ recs1 := List.mem_of_mem_filter hy
    have hpy := (List.mem_filter.mp hy).2
    simp only [Function.comp_apply] at hxa
    rw [hex] at hxa
    have hgxy : rx.gid = y.gid := by
      rw [hxa, ← hya]
    have hreq : rx = y := List.inj_on_of_nodup_map hgnd hrx hyr hgxy
    have hany : (placeholderGids G0).any
        (fun q => decide (q.group_id = y.group_id)) = true := by
      apply List.any_eq_true.mpr
      refine ⟨x, List.mem_of_mem_filter hx, ?_⟩
      rw [← hreq, hkx]
      simp
    rw [hany] at hpy
    exact absurd hpy (by simp)

end ExtraUsers

namespace ExtraUsers

def c1Cfg : SyncCfg :=
  { default_shell := "/bin/bash", home_template := fun u => "/home/" ++ u,
    group_sync := true, group_start_gid := 30000, group_end_gid := 30009 }

def c1UserA : DirUser :=
  { id := "ua", primaryEmail := "alice@x.com", fullName := some "Alice",
    suspended := false, deleted := false, etag := some "e1",
    posixAccounts := [{ username := some "alice", uid := some 1000, gid := some 1000,
                        homeDirectory := none, shell := none, gecos := none,
                        primary := true }] }

def c1UserB : DirUser :=
  { id := "ub", primaryEmail := "alice@y.com", fullName := some "Alice B",
    suspended := false, deleted := false, etag := some "e2",
    posixAccounts := [{ username := some "alice", uid := some 1000, gid := some 1001,
                        homeDirectory := none, shell := none, gecos := none,
                        primary := true }] }

def c1Inp : SyncInput :=
  { users := [c1UserA, c1UserB], groups := [], membersOf := fun _ => [] }

/-- C1, counterexample.  Two directory users carrying the same POSIX
uid (and the same username) are both upserted and left active: nothing
in `update_users_db` deduplicates `uid` or `username`, so after the
sync pass the active cache rows violate both uniqueness claims. -/
theorem c1_counterexample :
    ((syncRun (fun _ => 0) (fun s => s) c1Cfg "t1" 19900 false c1Inp ⟨[], [], [], []⟩).map
      (fun r => decide (((r.db.users.filter (fun q => q.active)).map
          (fun q => q.uid)).Nodup ∧
        ((r.db.users.filter (fun q => q.active)).map (fun q => q.username)).Nodup))) =
      some false := by rfl

/-- **C1** (amended): after a completed sync pass the *group* half of the
claim holds — the active group rows carry pairwise-distinct gids, because
`deterministic_gid` probes past every gid already inserted into the
threaded `used` set — and the user rows keep pairwise-distinct primary-key
ids; but active user records are NOT deduplicated on `uid` or `username`
(see the counterexample), so the user half of the claim fails. -/
theorem c1_cache_invariants (h : String → Nat) (sha : String → String)
    (cfg : SyncCfg) (now : String) (day : Nat) (dry : Bool) (inp : SyncInput)
    (db0 : Db) (r : SyncResult)
    (hgs : cfg.group_sync = true)
    (hu0 : (db0.users.map (fun q => q.id)).Nodup)
    (hg0 : (db0.groups.map (fun q => q.group_id)).Nodup)
    (hgl : ((sortGroups inp.groups).map (fun g => g.id)).Nodup)
    (hr : syncRun h sha cfg now day dry inp db0 = some r) :
    ((r.db.groups.filter (fun q => q.active)).map (fun q => q.gid)).Nodup ∧
    (r.db.users.map (fun q => q.id)).Nodup := by
  unfold syncRun at hr
  dsimp only at hr
  rw [hgs, if_pos rfl] at hr
  cases hdbA : update_groups_db h cfg now inp.groups inp.membersOf
      (update_users_db cfg now inp.users db0).1 with
  | none =>
    rw [hdbA] at hr
    exact absurd hr (by simp)
  | some db2 =>
    rw [hdbA] at hr
    simp only [Option.map_some'] at hr
    have hre : r = renderAndWrite sha day dry
        (update_users_db cfg now inp.users db0).2 db2 := (Option.some.inj hr).symm
    have hgroups : r.db.groups = db2.groups := by
      rw [hre]
      exact renderAndWrite_groups sha day dry _ db2
    have husers : r.db.users = db2.users := by
      rw [hre]
      exact renderAndWrite_users sha day dry _ db2
    constructor
    · rw [hgroups]
      unfold update_groups_db at hdbA
      dsimp only at hdbA
      rw [groupsFold_decomp] at hdbA
      cases hcs : csOf h cfg.group_start_gid cfg.group_end_gid
          ((sortGroups inp.groups).map (fun g => g.id))
          (((update_users_db cfg now inp.users db0).1.users.filter
            (fun r => r.active)).map (fun r => r.gid)) with
      | none =>
        rw [hcs] at hdbA
        exact absurd hdbA (by simp)
      | some cs =>
        rw [hcs] at hdbA
        simp only [Option.map_some'] at hdbA
        have hdb2 : db2 =
            { (update_users_db cfg now inp.users db0).1 with
              groups := deactivate_groups
                (upsertsAll
                  (placeholderGids (update_users_db cfg now inp.users db0).1.groups)
                  (List.zipWith (mkGroupRow now) (sortGroups inp.groups) cs))
                ((sortGroups inp.groups).map (fun g => g.id)),
              group_members := refreshMembers
                (email_to_username (update_users_db cfg now inp.users db0).1.users)
                inp.membersOf
                ((deactivate_groups
                  (upsertsAll
                    (placeholderGids (update_users_db cfg now inp.users db0).1.groups)
                    (List.zipWith (mkGroupRow now) (sortGroups inp.groups) cs))
                  ((sortGroups inp.groups).map (fun g => g.id))).filter
                  (fun r => r.active))
                (update_users_db cfg now inp.users db0).1.group_members } :=
          (Option.some.inj hdbA).symm
        have hdb2g : db2.groups = deactivate_groups
            (upsertsAll
              (placeholderGids (update_users_db cfg now inp.users db0).1.groups)
              (List.zipWith (mkGroupRow now) (sortGroups inp.groups) cs))
            ((sortGroups inp.groups).map (fun g => g.id)) := by
          rw [hdb2]
        have hG0nd : ((update_users_db cfg now inp.users db0).1.groups.map
            (fun q => q.group_id)).Nodup := by
          rw [(update_users_db_frame cfg now inp.users db0).2.1]
          exact hg0
        by_cases hne : ((sortGroups inp.groups).map (fun g => g.id)) = []
        · have hsg : sortGroups inp.groups = [] := List.map_eq_nil_iff.mp hne
          rw [hdb2g, hsg]
          simp only [List.zipWith_nil_left, upsertsAll_nil, List.map_nil,
            deactivate_groups_nil]
          have hphnd : ((placeholderGids
              (update_users_db cfg now inp.users db0).1.groups).map
              (fun q => q.gid)).Nodup := by
            show ((placeholderFrom 1
              (update_users_db cfg now inp.users db0).1.groups).map
              (fun q => q.gid)).Nodup
            exact placeholderFrom_gids_nodup _ 1
          exact hphnd.sublist (List.Sublist.map _ (List.filter_sublist _))
        · have hlen : (sortGroups inp.groups).length = cs.length := by
            have h1 := csOf_length h cfg.group_start_gid cfg.group_end_gid _ _ hcs
            rw [List.length_map] at h1
            exact h1.symm
          rw [hdb2g]
          exact gs3_active_gids_nodup
            (update_users_db cfg now inp.users db0).1.groups
            (List.zipWith (mkGroupRow now) (sortGroups inp.groups) cs)
            ((sortGroups inp.groups).map (fun g => g.id)) cs
            (mkRecs_ids now (sortGroups inp.groups) cs hlen)
            (mkRecs_gids now (sortGroups inp.groups) cs hlen)
            (csOf_nodup h cfg.group_start_gid cfg.group_end_gid _ _ hcs).1
            hgl hG0nd
            (mkRecs_active now (sortGroups inp.groups) cs)
            hne
    · rw [husers, (update_groups_db_frame hdbA).2]
      exact update_users_db_ids_nodup cfg now inp.users db0 hu0

def c1wUser : DirUser :=
  { id := "ua", primaryEmail := "alice@x.com", fullName := some "Alice",
    suspended := false, deleted := false, etag := some "e1",
    posixAccounts := [{ username := some "alice", uid := some 1000, gid := some 1000,
                        homeDirectory := none, shell := none, gecos := none,
                        primary := true }] }

def c1wGroupA : DirGroup :=
  { id := "G1", email := "devs@x.com", name := "Devs", etag := none }

def c1wGroupB : DirGroup :=
  { id := "G2", email := "ops@x.com", name := "Ops", etag := none }

def c1wInp : SyncInput :=
  { users := [c1wUser], groups := [c1wGroupA, c1wGroupB], membersOf := fun _ => [] }

def c1wR : SyncResult :=
  (syncRun (fun _ => 0) (fun s => s) c1Cfg "t1" 19900 false c1wInp ⟨[], [], [], []⟩).getD
    ⟨⟨[], [], [], []⟩, "", "", "", [], false, []⟩

/-- Witness for the amended C1 at a concrete input with two directory
groups.  -/
theorem c1_cache_invariants_witness :
    ((c1wR.db.groups.filter (fun q => q.active)).map (fun q => q.gid)).Nodup ∧
    (c1wR.db.users.map (fun q => q.id)).Nodup :=
  c1_cache_invariants (fun _ => 0) (fun s => s) c1Cfg "t1" 19900 false c1wInp
    ⟨[], [], [], []⟩ c1wR rfl (by decide) (by decide) (by decide) (by rfl)

end ExtraUsers
